import Mathlib

/-!
# LocoNet driver: a shallow embedding of `ln.c` and of the turnout application

The development follows the C sources of the repository:

* `circular_queue.h` / `circular_queue.c` are not part of the available sources; the ring
  queue is modelled from the specification (section 3, "Ring queue", and section 4.1) and
  from the field names the callers in `ln.c` use (`values`, `head`, `numEntries`, `size`).
* `ln.c` (framer, transmit path, timer state machine) is translated function by function.
* `AW_driver/main.c` (`lnRxMessageHandler`, `getDipSwitchAddress`) is translated function by
  function; `setCAWL` / `setCAWR` live in `aw.c`, which is not available, and are modelled
  from the specification (section 4.6).

Bytes (`uint8_t`) are natural numbers below 256, 16-bit values are natural numbers below
65536; where the C code can overflow, the reduction is written explicitly.
-/

namespace LocoNet

/-! ## Ring queue (`lnQueue_t`) -/

/-- Modelled from the spec: the ring queue type `lnQueue_t` of the missing
`circular_queue.h`. The spec lists a backing array, a head index, a tail index and a count;
`ln.c` names the fields `values`, `head`, `numEntries` and `size` (the capacity). -/
structure lnQueue where
  values : List Nat
  head : Nat
  tail : Nat
  numEntries : Nat
  size : Nat
deriving DecidableEq, Repr

/-- Modelled from the spec: `initQueue` of the missing `circular_queue.c`. The queue starts
empty at index 0; the capacity is fixed at build time and is a parameter here. The backing
array of a global queue is zero-initialised. -/
def initQueue (QUEUE_SIZE : Nat) : lnQueue :=
  { values := List.replicate QUEUE_SIZE 0, head := 0, tail := 0, numEntries := 0,
    size := QUEUE_SIZE }

/-- Modelled from the spec: `isQueueEmpty` of the missing `circular_queue.c`. -/
def isQueueEmpty (q : lnQueue) : Bool := q.numEntries == 0

/-- Modelled from the spec: `isQueueFull` of the missing `circular_queue.c`. -/
def isQueueFull (q : lnQueue) : Bool := q.numEntries == q.size

/-- Modelled from the spec: `enQueue` of the missing `circular_queue.c`. A write to a full
queue is dropped; otherwise the byte is stored at the tail index, which advances modulo the
capacity. -/
def enQueue (q : lnQueue) (value : Nat) : lnQueue :=
  if isQueueFull q then q
  else
    { q with
      values := q.values.set q.tail value
      tail := (q.tail + 1) % q.size
      numEntries := q.numEntries + 1 }

/-- Modelled from the spec: `deQueue` of the missing `circular_queue.c`. A dequeue on an empty
queue is a no-op; otherwise the head index advances modulo the capacity. Every call site in
the sources discards the returned byte (the byte is read through `values[head]` before the
call), so only the new queue is returned. -/
def deQueue (q : lnQueue) : lnQueue :=
  if isQueueEmpty q then q
  else { q with head := (q.head + 1) % q.size, numEntries := q.numEntries - 1 }

/-- Modelled from the spec: `clearQueue` of the missing `circular_queue.c`. The queue is reset
to its initial empty state (head, tail and count zero); the backing array keeps its bytes. -/
def clearQueue (q : lnQueue) : lnQueue :=
  { q with head := 0, tail := 0, numEntries := 0 }

/-- The C expression `q.values[i]` with an index that the code does not reduce modulo the
capacity. Inside the backing array the stored byte is read; past its end the read leaves the
array and yields whatever byte the memory holds there, given by `oob`. -/
def rawRead (oob : Nat → Nat) (q : lnQueue) (i : Nat) : Nat :=
  if i < q.values.length then q.values.getD i 0 else oob i % 256

/-- The C expression `q.values[q.head]`. -/
def headValue (q : lnQueue) : Nat := q.values.getD q.head 0

/-- The queued bytes, oldest first: entry `i` is `values[(head + i) % size]`. -/
def toList (q : lnQueue) : List Nat :=
  (List.range q.numEntries).map (fun i => q.values.getD ((q.head + i) % q.size) 0)

/-- Invariants of a ring queue: a backing array of `size` bytes, `head` inside it, `tail`
exactly `numEntries` slots after `head`, and `numEntries ≤ size`. -/
structure WF (q : lnQueue) : Prop where
  size_pos : 0 < q.size
  length_values : q.values.length = q.size
  head_lt : q.head < q.size
  tail_eq : q.tail = (q.head + q.numEntries) % q.size
  count_le : q.numEntries ≤ q.size
  bytes : ∀ v ∈ q.values, v < 256

/-- Bytewise XOR of a message. -/
def xorAll (l : List Nat) : Nat := l.foldl (fun c v => c ^^^ v) 0

/-! ## Driver state -/

/-- The global variables of `ln.h` together with the hardware registers `ln.c` writes. `app`
is the state owned by the application callback. Two fields are histories kept for stating
properties: `TXREG` lists every byte written to the UART transmit register, oldest first,
and `callbacks` lists, for every invocation of `lnRxMsgCallback`, the bytes held by
`lnRxQueue` at the moment of the call. -/
structure LnDriver (σ : Type) where
  lnTxQueue : lnQueue
  lnTxTempQueue : lnQueue
  lnRxQueue : lnQueue
  lnRxTempQueue : lnQueue
  lastRandomValue : Nat
  TMR1_MODE : Nat
  TMR1 : Nat
  SPEN : Bool
  RC6 : Bool
  TXEN : Bool
  SP1BRG : Nat
  LATA5 : Bool
  LATE1 : Bool
  LATE2 : Bool
  TXREG : List Nat
  callbacks : List (List Nat)
  app : σ

/-! ## `ln.c`: line sense, timer 1 routines, baud rate generator -/

/-- Source `isLnFree` (ln.c 449-455): the line is free when `PORTCbits.RC7` is high and the
receiver is idle (`BAUD1CONbits.RCIDL`); both bits are hardware inputs. -/
def isLnFree (RC7 RCIDL : Bool) : Bool := RC7 && RCIDL

/-- Source `getRandomValue` (ln.c 495-509): one step of the 16-bit Galois shift register. -/
def getRandomValue (lfsr : Nat) : Nat :=
  let lsb := lfsr &&& 1
  let lfsr := lfsr >>> 1
  if lsb ≠ 0 then lfsr ^^^ 0xb400 else lfsr

/-- Source `startIdleDelay` (ln.c 463-472); `WRITETIMER1(~2000)` stores the 16-bit
complement. -/
def startIdleDelay {σ : Type} (s : LnDriver σ) : LnDriver σ :=
  { s with TMR1 := 65535 - 2000, TMR1_MODE := 0, LATA5 := true, LATE1 := true, LATE2 := true }

/-- Source `startCmpDelay` (ln.c 477-488). -/
def startCmpDelay {σ : Type} (s : LnDriver σ) : LnDriver σ :=
  let delay := getRandomValue s.lastRandomValue
  let lastRandomValue := delay
  let delay := delay &&& (2048 - 1)
  let delay := (delay + 3120) % 65536
  { s with lastRandomValue := lastRandomValue, TMR1 := 65535 - delay, TMR1_MODE := 1,
           LATA5 := false }

/-- Source `startLinebreak` (ln.c 516-524): the UART is stopped, the TX pin is forced and the
timer is loaded with the complement of `time`. -/
def startLinebreak {σ : Type} (s : LnDriver σ) (time : Nat) : LnDriver σ :=
  { s with SPEN := false, RC6 := true, TMR1 := 65535 - time % 65536, TMR1_MODE := 2 }

/-- Source `setBrg1` (ln.c 556-567). -/
def setBrg1 {σ : Type} (s : LnDriver σ) : LnDriver σ :=
  { s with SP1BRG := 59, TXEN := true }

/-- Source `startSyncBrg1` (ln.c 533-551); the test pin `LATD2` is raised and lowered again
inside the routine and is not kept. -/
def startSyncBrg1 {σ : Type} (s : LnDriver σ) : LnDriver σ :=
  { setBrg1 s with TMR1 := 65535 - 42, TMR1_MODE := 3 }

/-! ## `ln.c`: receive path -/

/-- Source `isChecksumCorrect` (ln.c 365-373): XOR of `values[(head + i) % size]` for
`i < numEntries`, compared with `0xff`. -/
def isChecksumCorrect (lnQueue : lnQueue) : Bool :=
  let checksum := (List.range lnQueue.numEntries).foldl
    (fun checksum i => checksum ^^^ lnQueue.values.getD ((lnQueue.head + i) % lnQueue.size) 0) 0
  checksum == 0xff

/-- Source `rxHandler`, lines 330-337 of ln.c: the expected message length, from bits 6..5
of `values[head]`, or `values[head + 1]` (index not reduced modulo the capacity) for the
variable class. -/
def rxMessageLength (oob : Nat → Nat) (q : lnQueue) : Nat :=
  let lnMessageLength := headValue q &&& 0x60
  let lnMessageLength := (lnMessageLength >>> 4) + 2
  if lnMessageLength > 6 then rawRead oob q (q.head + 1) else lnMessageLength

/-- Source `rxHandler`, lines 346-350 of ln.c: the loop that copies the staging queue into the
delivered queue. `fuel` bounds the number of iterations; `rxHandler` passes the number of
entries of the staging queue, which is the number of iterations the C loop makes. -/
def rxCopyLoop : Nat → lnQueue → lnQueue → lnQueue × lnQueue
  | 0, lnRxTempQueue, lnRxQueue => (lnRxTempQueue, lnRxQueue)
  | fuel + 1, lnRxTempQueue, lnRxQueue =>
    if !isQueueEmpty lnRxTempQueue then
      rxCopyLoop fuel (deQueue lnRxTempQueue) (enQueue lnRxQueue (headValue lnRxTempQueue))
    else (lnRxTempQueue, lnRxQueue)

/-- Source `rxHandler` (ln.c 318-358). `cb` is the callback `lnRxMsgCallback`; it receives the
delivered queue and the application state. `oob` gives the bytes found past the end of the
backing array by the unreduced read `values[head + 1]`. -/
def rxHandler {σ : Type} (cb : lnQueue → σ → lnQueue × σ) (oob : Nat → Nat)
    (s : LnDriver σ) (lnRxData : Nat) : LnDriver σ :=
  if lnRxData &&& 0x80 = 0x80 then
    { s with lnRxTempQueue := enQueue (clearQueue s.lnRxTempQueue) lnRxData }
  else
    let tmp := enQueue s.lnRxTempQueue lnRxData
    let lnMessageLength := rxMessageLength oob tmp
    if lnMessageLength = tmp.numEntries then
      if isChecksumCorrect tmp then
        let moved := rxCopyLoop tmp.numEntries tmp s.lnRxQueue
        let r := cb moved.2 s.app
        { s with lnRxTempQueue := moved.1, lnRxQueue := r.1, LATE2 := false,
                 callbacks := s.callbacks ++ [toList moved.2], app := r.2 }
      else { s with lnRxTempQueue := tmp }
    else { s with lnRxTempQueue := tmp }

/-- Bytes arriving one at a time at `rxHandler`; every byte comes with the out-of-array memory
content in force while it is handled. -/
def rxRun {σ : Type} (cb : lnQueue → σ → lnQueue × σ) (s : LnDriver σ)
    (input : List (Nat × (Nat → Nat))) : LnDriver σ :=
  input.foldl (fun s x => rxHandler cb x.2 s x.1) s

/-! ## `ln.c`: transmit path -/

/-- Source `lnTxMessageHandler`, lines 392-397 of ln.c: the copy loop, carrying the running
checksum, the TX queue and the user queue. `fuel` bounds the iterations; the handler passes
the number of entries of the user queue. -/
def lnTxCopyLoop : Nat → Nat → lnQueue → lnQueue → Nat × lnQueue × lnQueue
  | 0, checksum, lnTxQueue, lnTxMsg => (checksum, lnTxQueue, lnTxMsg)
  | fuel + 1, checksum, lnTxQueue, lnTxMsg =>
    if !isQueueEmpty lnTxMsg then
      lnTxCopyLoop fuel (checksum ^^^ headValue lnTxMsg)
        (enQueue lnTxQueue (headValue lnTxMsg)) (deQueue lnTxMsg)
    else (checksum, lnTxQueue, lnTxMsg)

/-- Source `lnTxMessageHandler` (ln.c 383-402). Interrupts are masked for the whole body, so
the routine is one step of the driver. The user queue is returned with the new state. -/
def lnTxMessageHandler {σ : Type} (s : LnDriver σ) (lnTxMsg : lnQueue) : LnDriver σ × lnQueue :=
  let r := lnTxCopyLoop lnTxMsg.numEntries 0x00 s.lnTxQueue lnTxMsg
  ({ s with lnTxQueue := enQueue r.2.1 (r.1 ^^^ 0xFF) }, r.2.2)

/-- Source `startLnTxMessage`, lines 411-417 of ln.c: the do-while loop on the pair
(TX queue, TX temporary queue). `fuel` bounds the iterations. -/
def startLnTxLoop : Nat → lnQueue → lnQueue → lnQueue × lnQueue
  | 0, lnTxQueue, lnTxTempQueue => (lnTxQueue, lnTxTempQueue)
  | fuel + 1, lnTxQueue, lnTxTempQueue =>
    let lnTxTempQueue := enQueue lnTxTempQueue (headValue lnTxQueue)
    let lnTxQueue := deQueue lnTxQueue
    if !isQueueEmpty lnTxQueue && (headValue lnTxQueue &&& 0x80) != 0x80 then
      startLnTxLoop fuel lnTxQueue lnTxTempQueue
    else (lnTxQueue, lnTxTempQueue)

/-- Source `startLnTxMessage` (ln.c 407-420). The body of the do-while loop runs once and then
once more for every further entry it finds, so one more than the number of entries of the TX
queue bounds the iterations. -/
def startLnTxMessage {σ : Type} (s : LnDriver σ) : LnDriver σ :=
  let r := startLnTxLoop (s.lnTxQueue.numEntries + 1) s.lnTxQueue s.lnTxTempQueue
  startSyncBrg1 { s with lnTxQueue := r.1, lnTxTempQueue := r.2 }

/-- Source `txHandler` (ln.c 425-439). -/
def txHandler {σ : Type} (RC7 RCIDL : Bool) (s : LnDriver σ) : LnDriver σ :=
  if isLnFree RC7 RCIDL then
    { s with TXREG := s.TXREG ++ [headValue s.lnTxTempQueue] }
  else startLinebreak s 1800

/-! ## `ln.c`: interrupt service routines -/

/-- Source `lnIsrTmr1` (ln.c 195-258); `RC7` and `RCIDL` are the line inputs sampled by
`isLnFree`. -/
def lnIsrTmr1 {σ : Type} (RC7 RCIDL : Bool) (s : LnDriver σ) : LnDriver σ :=
  if s.TMR1_MODE = 0 then
    if isLnFree RC7 RCIDL then
      if !isQueueEmpty s.lnTxTempQueue then startSyncBrg1 s
      else if !isQueueEmpty s.lnTxQueue then startLnTxMessage s
      else startIdleDelay s
    else startCmpDelay s
  else if s.TMR1_MODE = 1 then
    if isLnFree RC7 RCIDL then startIdleDelay s else startCmpDelay s
  else if s.TMR1_MODE = 2 then
    startCmpDelay { s with SPEN := true, RC6 := false }
  else if s.TMR1_MODE = 3 then
    txHandler RC7 RCIDL { s with TMR1_MODE := 0 }
  else s

/-- Source `lnIsrRc` (ln.c 267-306); `RC1REG` is the received byte. -/
def lnIsrRc {σ : Type} (cb : lnQueue → σ → lnQueue × σ) (oob : Nat → Nat)
    (RC7 RCIDL : Bool) (RC1REG : Nat) (s : LnDriver σ) : LnDriver σ :=
  let lnRxData := RC1REG
  if !isQueueEmpty s.lnTxTempQueue then
    if lnRxData = headValue s.lnTxTempQueue then
      let s := { s with lnTxTempQueue := deQueue s.lnTxTempQueue }
      if !isQueueEmpty s.lnTxTempQueue then txHandler RC7 RCIDL s
      else { startCmpDelay s with LATE1 := false }
    else startLinebreak s 1800
  else startCmpDelay (rxHandler cb oob s lnRxData)

/-- Source `lnIsr` (ln.c 154-186). `recoverLnMessage` belongs to the missing
`circular_queue.c` and is a parameter. -/
def lnIsr {σ : Type} (recoverLnMessage : lnQueue → lnQueue) (cb : lnQueue → σ → lnQueue × σ)
    (oob : Nat → Nat) (TMR1IF RC1IF FERR RC7 RCIDL : Bool) (RC1REG : Nat)
    (s : LnDriver σ) : LnDriver σ :=
  if TMR1IF then lnIsrTmr1 RC7 RCIDL s
  else if RC1IF then
    if FERR then
      startLinebreak { s with lnTxTempQueue := recoverLnMessage s.lnTxTempQueue } 600
    else lnIsrRc cb oob RC7 RCIDL RC1REG s
  else s

/-- Source `lnInit` (ln.c 18-41) with the routines it calls: the four queues are initialised,
`lnInitEusart1` sets the baud rate generator and enables the serial port, `lnInitIsr` seeds the
shift register with 1234 and starts the CMP delay, `lnInitLeds` switches the three leds off. -/
def lnInit {σ : Type} (QUEUE_SIZE : Nat) (app : σ) : LnDriver σ :=
  let s : LnDriver σ :=
    { lnTxQueue := initQueue QUEUE_SIZE, lnTxTempQueue := initQueue QUEUE_SIZE,
      lnRxQueue := initQueue QUEUE_SIZE, lnRxTempQueue := initQueue QUEUE_SIZE,
      lastRandomValue := 0, TMR1_MODE := 0, TMR1 := 0, SPEN := false, RC6 := false,
      TXEN := false, SP1BRG := 0, LATA5 := false, LATE1 := false, LATE2 := false,
      TXREG := [], callbacks := [], app := app }
  let s := { setBrg1 s with SPEN := true }
  let s := startCmpDelay { s with lastRandomValue := 1234 }
  { s with LATA5 := true, LATE1 := true, LATE2 := true }

/-! ## `main.c` (simple test): the receive callback -/

/-- Source `lnRxMessageHandler` of `main.c`, lines 74-77: the loop that empties the queue. -/
def drainLoop : Nat → lnQueue → lnQueue
  | 0, lnRxMsg => lnRxMsg
  | fuel + 1, lnRxMsg =>
    if !isQueueEmpty lnRxMsg then drainLoop fuel (deQueue lnRxMsg) else lnRxMsg

/-- Source `lnRxMessageHandler` of `main.c` (58-78): the opcode at the head switches the
power led `LATB4` (the application state), then the queue is emptied. -/
def simpleRxMessageHandler (lnRxMsg : lnQueue) (LATB4 : Bool) : lnQueue × Bool :=
  let v := headValue lnRxMsg
  let LATB4 := if v = 0x82 then false else if v = 0x83 then true else LATB4
  (drainLoop lnRxMsg.numEntries lnRxMsg, LATB4)

/-! ## `AW_driver`: turnout records and the receive callback -/

/-- Source `AWCON_t` (aw.h 31-40). -/
structure AWCON_t where
  CAWL : Bool
  CAWR : Bool
  CAWL_mem : Bool
  CAWR_mem : Bool
  KAWL : Bool
  KAWR : Bool
deriving DecidableEq, Repr

/-- Modelled from the spec: `setCAWL` of the missing `aw.c`. Section 4.6 says "update the
field; if `state` is true, update the corresponding `_mem`. A command for one direction
implicitly clears the other", and section 3 that the memory pair "equals the most recent
non-off command pair". So the field takes the state, and when the state is true the left
memory is set and the right memory, the other direction, is cleared. The other command field
is left to the caller, which sets it explicitly. -/
def setCAWL (aw : AWCON_t) (state : Bool) : AWCON_t :=
  if state then { aw with CAWL := state, CAWL_mem := true, CAWR_mem := false }
  else { aw with CAWL := state }

/-- Modelled from the spec: `setCAWR` of the missing `aw.c`, the mirror image of `setCAWL`. -/
def setCAWR (aw : AWCON_t) (state : Bool) : AWCON_t :=
  if state then { aw with CAWR := state, CAWR_mem := true, CAWL_mem := false }
  else { aw with CAWR := state }

/-- Source `getDipSwitchAddress` (AW_driver/main.c 179-194); `PORTA` and `PORTC` are the input
ports carrying the DIP switches. -/
def getDipSwitchAddress (PORTA PORTC : Nat) : Nat :=
  let address := PORTA &&& 0x03
  let address := (address + ((PORTA >>> 4) &&& 0x0c)) % 256
  let address := (address + ((PORTC <<< 4) &&& 0xf0)) % 256
  address

/-- The C expression `aw[index]` on the array `AWCON_t aw[8]`. -/
def awGet (aw : List AWCON_t) (index : Nat) : AWCON_t :=
  aw.getD index ⟨false, false, false, false, false, false⟩

/-- The effect of `f(&aw[index])` on the array `aw`. -/
def awModify (aw : List AWCON_t) (index : Nat) (f : AWCON_t → AWCON_t) : List AWCON_t :=
  aw.set index (f (awGet aw index))

/-- Source `lnRxMessageHandler` of AW_driver/main.c, lines 59-106: the `switch` on
`values[head]`. The reads `values[head + 1]` and `values[head + 2]` are not reduced modulo
the capacity. -/
def awDispatch (PORTA PORTC : Nat) (oob : Nat → Nat) (lnRxMsg : lnQueue)
    (aw : List AWCON_t) : List AWCON_t :=
  let opcode := headValue lnRxMsg
  if opcode = 0xb0 then
    let index := rawRead oob lnRxMsg (lnRxMsg.head + 1) &&& 0x07
    let address := (rawRead oob lnRxMsg (lnRxMsg.head + 1) &&& 0x78) >>> 3
    let address := (address + ((rawRead oob lnRxMsg (lnRxMsg.head + 2) &&& 0x0f) <<< 4)) % 256
    if address = getDipSwitchAddress PORTA PORTC then
      if rawRead oob lnRxMsg (lnRxMsg.head + 2) &&& 0x20 = 0x20 then
        awModify (awModify aw index (fun a => setCAWL a true)) index (fun a => setCAWR a false)
      else
        awModify (awModify aw index (fun a => setCAWL a false)) index (fun a => setCAWR a true)
    else aw
  else if opcode = 0x82 then
    (List.range 8).foldl (fun aw index =>
      awModify (awModify aw index (fun a => setCAWL a false)) index (fun a => setCAWR a false)) aw
  else if opcode = 0x83 then
    (List.range 8).foldl (fun aw index =>
      let aw := awModify aw index (fun a => setCAWL a (awGet aw index).CAWL_mem)
      awModify aw index (fun a => setCAWR a (awGet aw index).CAWR_mem)) aw
  else aw

/-- Source `lnRxMessageHandler` of AW_driver/main.c, lines 56-109: the loop that dispatches
on the byte at the head and removes it, until the queue is empty. -/
def awRxLoop (PORTA PORTC : Nat) (oob : Nat → Nat) :
    Nat → lnQueue → List AWCON_t → lnQueue × List AWCON_t
  | 0, lnRxMsg, aw => (lnRxMsg, aw)
  | fuel + 1, lnRxMsg, aw =>
    if !isQueueEmpty lnRxMsg then
      awRxLoop PORTA PORTC oob fuel (deQueue lnRxMsg) (awDispatch PORTA PORTC oob lnRxMsg aw)
    else (lnRxMsg, aw)

/-- Source `lnRxMessageHandler` of AW_driver/main.c (54-110). Every iteration removes one
byte, so the number of entries bounds the iterations. -/
def lnRxMessageHandler (PORTA PORTC : Nat) (oob : Nat → Nat) (lnRxMsg : lnQueue)
    (aw : List AWCON_t) : lnQueue × List AWCON_t :=
  awRxLoop PORTA PORTC oob lnRxMsg.numEntries lnRxMsg aw

/-! ## Vocabulary of the specification -/

/-- The high bit of a byte is set (an opcode). -/
def msbSet (b : Nat) : Prop := b &&& 0x80 = 0x80

/-- The high bit of a byte is clear (a payload or checksum byte). -/
def msbClear (b : Nat) : Prop := b &&& 0x80 = 0

instance (b : Nat) : Decidable (msbSet b) := by unfold msbSet; infer_instance

instance (b : Nat) : Decidable (msbClear b) := by unfold msbClear; infer_instance

/-- Size class of a message as the specification words it: bits 6..5 of the first byte
select 2, 4 or 6 bytes, or the value of the second byte. -/
def sizeClassLength (m : List Nat) : Nat :=
  match (m.headD 0 >>> 5) &&& 3 with
  | 0 => 2
  | 1 => 4
  | 2 => 6
  | _ => m.getD 1 0

/-- A valid message of the specification: at least two bytes, the first with its high bit
set, every later one with its high bit clear, the length given by the size class, and the
XOR of all bytes equal to `0xFF`. -/
def validMessage (m : List Nat) : Prop :=
  2 ≤ m.length ∧ msbSet (m.headD 0) ∧ (∀ b ∈ m.tail, msbClear b) ∧
    m.length = sizeClassLength m ∧ xorAll m = 0xFF

/-- A well-formed user message: an opcode followed by payload bytes, all of them bytes. -/
def userMessage (m : List Nat) : Prop :=
  m ≠ [] ∧ msbSet (m.headD 0) ∧ (∀ b ∈ m.tail, msbClear b) ∧ ∀ b ∈ m, b < 256

/-- A whole framed message: a well-formed user message followed by its checksum byte. -/
def framedMessage (f : List Nat) : Prop :=
  ∃ m, userMessage m ∧ f = m ++ [0xFF ^^^ xorAll m]

/-- The bytes form a concatenation of whole framed messages. -/
def wholeMessages (l : List Nat) : Prop :=
  ∃ frames : List (List Nat), (∀ f ∈ frames, framedMessage f) ∧ l = frames.flatten

/-- A callback that leaves the delivered queue empty (and keeps it a ring queue of the same
capacity). -/
def drains {σ : Type} (cb : lnQueue → σ → lnQueue × σ) : Prop :=
  ∀ q a, WF q → WF (cb q a).1 ∧ (cb q a).1.numEntries = 0 ∧ (cb q a).1.size = q.size

/-! ## Invariants used by the proofs -/

/-- Shape of the RX staging queue while the framer runs: either no queued byte has its high
bit set, or the queue starts at index 0 of the backing array with an opcode followed by bytes
with the high bit clear. -/
def stagingShape (q : lnQueue) : Prop :=
  (∀ b ∈ toList q, msbClear b) ∨
    (q.head = 0 ∧ q.numEntries ≠ 0 ∧ msbSet ((toList q).headD 0) ∧
      ∀ b ∈ (toList q).tail, msbClear b)

/-- Invariant of the receive path between two bytes, for a callback that empties the
delivered queue: both RX queues are ring queues of capacity `N`, the delivered queue is
empty, the staging queue has the framer shape, and every message handed to the callback so
far was valid. -/
structure rxInv {σ : Type} (N : Nat) (s : LnDriver σ) : Prop where
  wf_tmp : WF s.lnRxTempQueue
  wf_rx : WF s.lnRxQueue
  size_tmp : s.lnRxTempQueue.size = N
  size_rx : s.lnRxQueue.size = N
  rx_empty : s.lnRxQueue.numEntries = 0
  shape : stagingShape s.lnRxTempQueue
  delivered : ∀ m ∈ s.callbacks, validMessage m

/-- State of the RX staging queue inside a variable-length frame whose second byte is below
2: the frame starts at index 0 of the backing array, at least two bytes are queued, the
opcode has bits 6..5 set, and the byte at index 1 is below 2. -/
structure shortFrame (q : lnQueue) : Prop where
  wf : WF q
  head_zero : q.head = 0
  two_le : 2 ≤ q.numEntries
  opcode : headValue q &&& 0x60 = 0x60
  second : q.values.getD 1 0 < 2

instance (q : lnQueue) : Decidable (WF q) :=
  decidable_of_iff
    (0 < q.size ∧ q.values.length = q.size ∧ q.head < q.size ∧
      q.tail = (q.head + q.numEntries) % q.size ∧ q.numEntries ≤ q.size ∧
      ∀ v ∈ q.values, v < 256)
    ⟨fun h => ⟨h.1, h.2.1, h.2.2.1, h.2.2.2.1, h.2.2.2.2.1, h.2.2.2.2.2⟩,
     fun h => ⟨h.size_pos, h.length_values, h.head_lt, h.tail_eq, h.count_le, h.bytes⟩⟩

instance (m : List Nat) : Decidable (validMessage m) := by
  unfold validMessage; infer_instance

instance (m : List Nat) : Decidable (userMessage m) := by
  unfold userMessage; infer_instance

/-! ## Scenarios -/

/-- The application fills its message queue byte by byte with `enQueue`, as `main` does
(main.c 33-36), starting from an initialised queue. -/
def userQueue (QUEUE_SIZE : Nat) (m : List Nat) : lnQueue :=
  m.foldl enQueue (initQueue QUEUE_SIZE)

/-- Out-of-array memory holding zero bytes. -/
def zeroMemory : Nat → Nat := fun _ => 0

/-- Scenario 6 of the specification up to the first echo, with capacity 16: the message
`[0xB2, 0x00, 0x10]` is handed to `lnTxMessageHandler`; the CMP delay and the idle delay expire
with the line free, `startLnTxMessage` stages the framed message, the BRG delay expires and
`txHandler` writes `0xB2`; the echo `0xB2` is read back and the second byte is written. -/
def retryScenarioEchoed : LnDriver Bool :=
  let s := (lnTxMessageHandler (lnInit 16 false) (userQueue 16 [0xB2, 0x00, 0x10])).1
  let s := lnIsrTmr1 true true s
  let s := lnIsrTmr1 true true s
  let s := lnIsrTmr1 true true s
  lnIsrRc simpleRxMessageHandler zeroMemory true true 0xB2 s

/-- Scenario 6 continued: `0xFF` is read back for the second byte. -/
def retryScenarioBreak : LnDriver Bool :=
  lnIsrRc simpleRxMessageHandler zeroMemory true true 0xFF retryScenarioEchoed

/-- Scenario 6 continued: the line-break timer, the CMP delay, the idle delay and the BRG
delay expire, each time with the line free. -/
def retryScenarioRetried : LnDriver Bool :=
  let s := lnIsrTmr1 true true retryScenarioBreak
  let s := lnIsrTmr1 true true s
  let s := lnIsrTmr1 true true s
  lnIsrTmr1 true true s

/-- A TX queue of capacity 16 holding 14 bytes: three times the framed message for
`[0xB2, 0x00, 0x10]` and once the framed message for `[0x82]`. -/
def nearlyFullDriver : LnDriver Unit :=
  let s := (lnTxMessageHandler (lnInit 16 ()) (userQueue 16 [0xB2, 0x00, 0x10])).1
  let s := (lnTxMessageHandler s (userQueue 16 [0xB2, 0x00, 0x10])).1
  let s := (lnTxMessageHandler s (userQueue 16 [0xB2, 0x00, 0x10])).1
  (lnTxMessageHandler s (userQueue 16 [0x82])).1

/-- Eight turnout records with every bit false. -/
def awIdle : List AWCON_t := List.replicate 8 ⟨false, false, false, false, false, false⟩

/-- Bytes on the bus: seven times the global-off message `0x82 0x7D`, then the switch request
`0xB0 0x11 0x21 0x7F` (index 1, address `0x12`, direction bit set). -/
def wrapInput : List (Nat × (Nat → Nat)) :=
  ((List.replicate 7 [0x82, 0x7D]).flatten ++ [0xB0, 0x11, 0x21, 0x7F]).map
    (fun b => (b, zeroMemory))

/-- The receive path of the simple test program, capacity 16, after the opcode `0x82` has
been received from the initial state. -/
def failedFrameDriver : LnDriver Bool :=
  rxRun simpleRxMessageHandler (lnInit 16 false) [(0x82, zeroMemory)]

/-- The bytes `0xB0 0x91 0x32 0xBC` of scenario 4 of the specification, as bus input. -/
def scenario4Input : List (Nat × (Nat → Nat)) :=
  [(0xB0, zeroMemory), (0x91, zeroMemory), (0x32, zeroMemory), (0xBC, zeroMemory)]

/-! ## `AW_driver/main.c`: the feedback callback -/

/-- Source `awHandler`, line 136 of AW_driver/main.c: the byte SN1 of the report, from the
16-bit `address` and the 8-bit `index`. The cast to `uint8_t` and the assignment to a
`uint8_t` are written as reductions modulo 256. -/
def awHandlerSN1 (address index : Nat) : Nat :=
  ((((address <<< 3) &&& 0x00f8) % 256 + index) &&& 0x7f) % 256

/-- Source `awHandler`, lines 137-139 of AW_driver/main.c: the byte SN2 of the report. -/
def awHandlerSN2 (address : Nat) (aw : AWCON_t) : Nat :=
  let SN2 := ((address >>> 4) % 256) &&& 0x0f
  let SN2 := if aw.KAWR then SN2 ||| 0x10 else SN2
  let SN2 := if aw.KAWL then SN2 ||| 0x20 else SN2
  SN2

/-- Source `awHandler`, lines 133-144 of AW_driver/main.c: the user queue `lnTxMsg` after the
three calls of `enQueue`. -/
def awHandlerMsg (PORTA PORTC : Nat) (lnTxMsg : lnQueue) (aw : AWCON_t) (index : Nat) :
    lnQueue :=
  let address := getDipSwitchAddress PORTA PORTC
  let SN1 := awHandlerSN1 address index
  let SN2 := awHandlerSN2 address aw
  enQueue (enQueue (enQueue lnTxMsg 0xB1) SN1) SN2

/-- Source `awHandler` (AW_driver/main.c 117-147): the report is built in the global user
queue `lnTxMsg` and handed to `lnTxMessageHandler`. -/
def awHandler {σ : Type} (PORTA PORTC : Nat) (s : LnDriver σ) (lnTxMsg : lnQueue)
    (aw : AWCON_t) (index : Nat) : LnDriver σ × lnQueue :=
  lnTxMessageHandler s (awHandlerMsg PORTA PORTC lnTxMsg aw index)

/-- Delivered messages handled one after the other by `lnRxMessageHandler`: every message
comes in its queue, with the out-of-array memory in force while it is handled. -/
def awRun (PORTA PORTC : Nat) (aw : List AWCON_t) (msgs : List (lnQueue × (Nat → Nat))) :
    List AWCON_t :=
  msgs.foldl (fun aw x => (lnRxMessageHandler PORTA PORTC x.2 x.1 aw).2) aw

/-- At most one of the two commands of a turnout is true. -/
def commandsExclusive (a : AWCON_t) : Prop := ¬ (a.CAWL = true ∧ a.CAWR = true)

/-- At most one of the two command memories of a turnout is true. -/
def memoryExclusive (a : AWCON_t) : Prop := ¬ (a.CAWL_mem = true ∧ a.CAWR_mem = true)

instance (a : AWCON_t) : Decidable (commandsExclusive a) := by
  unfold commandsExclusive; infer_instance

instance (a : AWCON_t) : Decidable (memoryExclusive a) := by
  unfold memoryExclusive; infer_instance

/-! ## `aw.h` and `servo.h`: constants -/

/-- Source `SWEEPTIME` (aw.h 20): sweep time in ms. -/
def SWEEPTIME : Nat := 1500

/-- Source `SERVO_MIN` (aw.h 22). -/
def SERVO_MIN : Nat := 750

/-- Source `SERVO_MAX` (aw.h 23). -/
def SERVO_MAX : Nat := 2000

/-- Source `GRADIENT` (aw.h 28): the unsigned integer quotient, cast to `uint8_t`. -/
def GRADIENT : Nat := ((SERVO_MAX - SERVO_MIN) / (SWEEPTIME / 20)) % 256

/-- Source `TIMER3_2500us` (servo.h 18). -/
def TIMER3_2500us : Nat := 5000

/-- Modelled from the spec: the per-frame update of the missing `awUpdateServo` (`aw.c`) at
its fastest. Section 4.6 lets the width walk toward `SERVO_MAX` by at most `GRADIENT` per
20 ms frame; this width starts at `SERVO_MIN` and moves up by `GRADIENT` in every frame until
it reaches `SERVO_MAX`. -/
def fullRateWidth (frame : Nat) : Nat := min SERVO_MAX (SERVO_MIN + frame * GRADIENT)

/-! ## `servo.c`: the servo timing engine -/

/-- The global variables of `servo.h` with the registers `servo.c` writes. `app` is the state
owned by the callback; `callbacks` is a history kept for stating properties: the index passed
at every invocation of `servoCallback`. -/
structure Servo (α : Type) where
  servoPortD : List Nat
  pinIndex : Nat
  CCPR1 : Nat
  LATD : Nat
  TMR3 : Nat
  callbacks : List Nat
  app : α

/-- Source `servoIsrTmr3` (servo.c 129-146). The callback (`awUpdate` of the missing `aw.c`
in the turnout application) refreshes the widths: it receives the index, the width array and
its own state. `pinIndex` is a `uint8_t`, widths and `CCPR1` are 16-bit. -/
def servoIsrTmr3 {α : Type} (cb : Nat → List Nat → α → List Nat × α) (s : Servo α) :
    Servo α :=
  let pinIndex := (s.pinIndex + 1) % 256
  let pinIndex := if pinIndex = 8 then 0 else pinIndex
  let r := cb pinIndex s.servoPortD s.app
  let servoPortD := r.1
  { s with
    servoPortD := servoPortD
    pinIndex := pinIndex
    CCPR1 := 65535 - (TIMER3_2500us + 65536 - (servoPortD.getD pinIndex 0 * 2) % 65536) % 65536
    LATD := (0x01 <<< pinIndex) % 256
    TMR3 := 65535 - TIMER3_2500us
    callbacks := s.callbacks ++ [pinIndex]
    app := r.2 }

/-- Source `servoIsrCcp1` (servo.c 155-159). -/
def servoIsrCcp1 {α : Type} (s : Servo α) : Servo α :=
  { s with LATD := 0x00 }

/-- Source `servoIsr` (servo.c 104-120): the timer 3 flag and the compare flag are served in
this order when set. -/
def servoIsr {α : Type} (cb : Nat → List Nat → α → List Nat × α) (TMR3IF CCP1IF : Bool)
    (s : Servo α) : Servo α :=
  let s := if TMR3IF then servoIsrTmr3 cb s else s
  if CCP1IF then servoIsrCcp1 s else s

/-- Source `servoInit` (servo.c 18-35) with the routines it calls. -/
def servoInit {α : Type} (app : α) : Servo α :=
  { servoPortD := List.replicate 8 1500, pinIndex := 0,
    CCPR1 := 65535 - (TIMER3_2500us - 1500 * 2), LATD := 0x00,
    TMR3 := 65535 - TIMER3_2500us, callbacks := [], app := app }

/-- The timer 3 interrupt served `n` times in a row. -/
def servoTicks {α : Type} (cb : Nat → List Nat → α → List Nat × α) : Nat → Servo α → Servo α
  | 0, s => s
  | n + 1, s => servoTicks cb n (servoIsrTmr3 cb s)

/-- A sequence of high priority interrupts, each with its two flags. -/
def servoRun {α : Type} (cb : Nat → List Nat → α → List Nat × α) (s : Servo α)
    (events : List (Bool × Bool)) : Servo α :=
  events.foldl (fun s e => servoIsr cb e.1 e.2 s) s

/-! ## Iteration of the shift register -/

/-- The routine `getRandomValue` applied `n` times to `x`, written so that the state is
evaluated at every step: the `match` inspects the new state before the next step. It equals
the iterate of `getRandomValue` (lemma `lfsrRun_eq`) and is used to compute long runs. -/
def lfsrRun : Nat → Nat → Nat
  | 0, x => x
  | n + 1, x =>
    match getRandomValue x with
    | 0 => lfsrRun n 0
    | k + 1 => lfsrRun n (k + 1)

/-! ## Scenarios for the indexed reads -/

/-- A callback that records the queue it is handed and then empties it. -/
def recordingCallback (lnRxMsg : lnQueue) (seen : List lnQueue) : lnQueue × List lnQueue :=
  (drainLoop lnRxMsg.numEntries lnRxMsg, seen ++ [lnRxMsg])

/-- Bytes on the bus: the valid 15-byte message `0xE0 0x0F 0x00 ... 0x00 0x10` of the variable
size class, then the stray bytes `0x60 0x05`. -/
def strayInput : List (Nat × (Nat → Nat)) :=
  ([0xE0, 0x0F] ++ List.replicate 12 0x00 ++ [0x10] ++ [0x60, 0x05]).map
    (fun b => (b, zeroMemory))

/-- Scenario 6 of the specification up to the staging, with capacity 16: the message
`[0xB2, 0x00, 0x10]` is handed to `lnTxMessageHandler`; the CMP delay and the idle delay expire
with the line free and `startLnTxMessage` stages the framed message. The BRG delay is running
and `txHandler` has not been called yet. -/
def stagedDriver : LnDriver Bool :=
  let s := (lnTxMessageHandler (lnInit 16 false) (userQueue 16 [0xB2, 0x00, 0x10])).1
  let s := lnIsrTmr1 true true s
  lnIsrTmr1 true true s

/-! ## Ring queue lemmas -/

theorem mod_two_wrap (a s : Nat) (h : a < 2 * s) :
    a % s = if a < s then a else a - s := by
  split
  · exact Nat.mod_eq_of_lt ‹_›
  · rw [Nat.mod_eq_sub_mod (by omega)]; exact Nat.mod_eq_of_lt (by omega)

theorem WF_initQueue (n : Nat) (h : 0 < n) : WF (initQueue n) := by
  refine ⟨h, by simp [initQueue], h, by simp [initQueue], by simp [initQueue], ?_⟩
  intro v hv
  simp [initQueue] at hv
  omega

theorem toList_initQueue (n : Nat) : toList (initQueue n) = [] := by
  simp [toList, initQueue]

theorem WF_clearQueue (q : lnQueue) (h : WF q) : WF (clearQueue q) :=
  ⟨h.size_pos, h.length_values, h.size_pos, by simp [clearQueue], by simp [clearQueue], h.bytes⟩

theorem toList_clearQueue (q : lnQueue) : toList (clearQueue q) = [] := by
  simp [toList, clearQueue]

theorem enQueue_full (q : lnQueue) (v : Nat) (h : q.numEntries = q.size) : enQueue q v = q := by
  simp [enQueue, isQueueFull, h]

theorem enQueue_size (q : lnQueue) (v : Nat) : (enQueue q v).size = q.size := by
  unfold enQueue; split <;> rfl

theorem enQueue_head (q : lnQueue) (v : Nat) : (enQueue q v).head = q.head := by
  unfold enQueue; split <;> rfl

theorem enQueue_numEntries (q : lnQueue) (v : Nat) (h : q.numEntries ≠ q.size) :
    (enQueue q v).numEntries = q.numEntries + 1 := by
  simp [enQueue, isQueueFull, h]

theorem enQueue_length_values (q : lnQueue) (v : Nat) :
    (enQueue q v).values.length = q.values.length := by
  unfold enQueue; split <;> simp

theorem WF_enQueue (q : lnQueue) (v : Nat) (h : WF q) (hv : v < 256) : WF (enQueue q v) := by
  by_cases hf : q.numEntries = q.size
  · rw [enQueue_full q v hf]; exact h
  · have hlt : q.numEntries < q.size := lt_of_le_of_ne h.count_le hf
    have hs := h.size_pos
    have hh := h.head_lt
    refine ⟨by rw [enQueue_size]; exact hs, by rw [enQueue_length_values, enQueue_size]; exact h.length_values,
      by rw [enQueue_head, enQueue_size]; exact hh, ?_, ?_, ?_⟩
    · simp only [enQueue, isQueueFull, hf, beq_iff_eq, if_false]
      rw [h.tail_eq, Nat.mod_add_mod, Nat.add_assoc]
    · rw [enQueue_numEntries q v hf, enQueue_size]; omega
    · intro x hx
      simp only [enQueue, isQueueFull, hf, beq_iff_eq, if_false] at hx
      rcases List.mem_or_eq_of_mem_set hx with hx | hx
      · exact h.bytes x hx
      · omega

theorem toList_enQueue (q : lnQueue) (v : Nat) (h : WF q) (hf : q.numEntries ≠ q.size) :
    toList (enQueue q v) = toList q ++ [v] := by
  have hlt : q.numEntries < q.size := lt_of_le_of_ne h.count_le hf
  have hs := h.size_pos
  have hh := h.head_lt
  have hlen := h.length_values
  simp only [toList, enQueue, isQueueFull, hf, beq_iff_eq, if_false, List.range_succ,
    List.map_append, List.map_cons, List.map_nil]
  congr 1
  · apply List.map_congr_left
    intro i hi
    have hi : i < q.numEntries := List.mem_range.mp hi
    have hne : q.tail ≠ (q.head + i) % q.size := by
      rw [h.tail_eq, mod_two_wrap _ _ (by omega : q.head + q.numEntries < 2 * q.size),
        mod_two_wrap _ _ (by omega : q.head + i < 2 * q.size)]
      split <;> split <;> omega
    simp [List.getD_eq_getElem?_getD, List.getElem?_set, hne]
  · have ht : q.tail < q.values.length := by
      rw [h.tail_eq, hlen]; exact Nat.mod_lt _ hs
    simp [List.getD_eq_getElem?_getD, List.getElem?_set, ← h.tail_eq, ht]

theorem toList_length (q : lnQueue) : (toList q).length = q.numEntries := by
  simp [toList]

theorem deQueue_empty (q : lnQueue) (h : q.numEntries = 0) : deQueue q = q := by
  simp [deQueue, isQueueEmpty, h]

theorem deQueue_size (q : lnQueue) : (deQueue q).size = q.size := by
  unfold deQueue; split <;> rfl

theorem deQueue_values (q : lnQueue) : (deQueue q).values = q.values := by
  unfold deQueue; split <;> rfl

theorem deQueue_numEntries (q : lnQueue) : (deQueue q).numEntries = q.numEntries - 1 := by
  unfold deQueue isQueueEmpty
  split
  · rename_i h; simp at h; simp [h]
  · rfl

theorem deQueue_head (q : lnQueue) (h : q.numEntries ≠ 0) :
    (deQueue q).head = (q.head + 1) % q.size := by
  simp [deQueue, isQueueEmpty, h]

theorem WF_deQueue (q : lnQueue) (h : WF q) : WF (deQueue q) := by
  by_cases he : q.numEntries = 0
  · rw [deQueue_empty q he]; exact h
  · have hs := h.size_pos
    have hh := h.head_lt
    have hc := h.count_le
    refine ⟨by rw [deQueue_size]; exact hs, by rw [deQueue_values, deQueue_size]; exact h.length_values,
      by rw [deQueue_head q he, deQueue_size]; exact Nat.mod_lt _ hs, ?_, ?_, ?_⟩
    · simp only [deQueue, isQueueEmpty, he, beq_iff_eq, if_false]
      rw [h.tail_eq, Nat.mod_add_mod]
      congr 1; omega
    · rw [deQueue_numEntries, deQueue_size]; omega
    · rw [deQueue_values]; exact h.bytes

theorem toList_deQueue (q : lnQueue) (h : WF q) (he : q.numEntries ≠ 0) :
    toList q = headValue q :: toList (deQueue q) := by
  obtain ⟨n, hn⟩ : ∃ n, q.numEntries = n + 1 := ⟨q.numEntries - 1, by omega⟩
  have hh := h.head_lt
  simp only [toList, deQueue, isQueueEmpty, he, beq_iff_eq, if_false, headValue]
  rw [hn, List.range_succ_eq_map]
  simp only [List.map_cons, List.map_map, Nat.add_zero, Nat.mod_eq_of_lt hh, Nat.add_sub_cancel]
  congr 1
  apply List.map_congr_left
  intro i _
  simp only [Function.comp, Nat.succ_eq_add_one, Nat.mod_add_mod]
  congr 2; omega

theorem toList_eq_nil (q : lnQueue) (h : q.numEntries = 0) : toList q = [] := by
  simp [toList, h]

theorem headValue_eq_headD (q : lnQueue) (h : WF q) (he : q.numEntries ≠ 0) :
    headValue q = (toList q).headD 0 := by
  rw [toList_deQueue q h he]; rfl

theorem toList_bytes (q : lnQueue) (h : WF q) : ∀ b ∈ toList q, b < 256 := by
  intro b hb
  simp only [toList, List.mem_map, List.mem_range] at hb
  obtain ⟨i, _, rfl⟩ := hb
  have hlt : (q.head + i) % q.size < q.values.length := by
    rw [h.length_values]; exact Nat.mod_lt _ h.size_pos
  rw [List.getD_eq_getElem _ _ hlt]
  exact h.bytes _ (List.getElem_mem _)

theorem headValue_lt (q : lnQueue) (h : WF q) : headValue q < 256 := by
  have hlt : q.head < q.values.length := by rw [h.length_values]; exact h.head_lt
  unfold headValue
  rw [List.getD_eq_getElem _ _ hlt]
  exact h.bytes _ (List.getElem_mem _)

/-- Reading `values[head + i]` without reduction gives entry `i` of the queue when the index
stays inside the backing array. -/
theorem rawRead_inside (oob : Nat → Nat) (q : lnQueue) (h : WF q) (i : Nat)
    (hi : i < q.numEntries) (hin : q.head + i < q.size) :
    rawRead oob q (q.head + i) = (toList q).getD i 0 := by
  have hlen := h.length_values
  simp only [rawRead, hlen, hin, if_true, toList]
  rw [List.getD_eq_getElem?_getD (List.map _ _), List.getElem?_map, List.getElem?_range hi]
  simp [Nat.mod_eq_of_lt hin]

/-! ## Checksum lemmas -/

theorem xorAll_foldl (l : List Nat) (c : Nat) :
    l.foldl (fun c v => c ^^^ v) c = c ^^^ xorAll l := by
  unfold xorAll
  induction l generalizing c with
  | nil => simp
  | cons a t ih => simp only [List.foldl_cons]; rw [ih, ih (0 ^^^ a)]; simp [Nat.xor_assoc]

theorem xorAll_nil : xorAll [] = 0 := rfl

theorem xorAll_cons (a : Nat) (l : List Nat) : xorAll (a :: l) = a ^^^ xorAll l := by
  show List.foldl _ (0 ^^^ a) l = _
  rw [xorAll_foldl]; simp

theorem xorAll_append (a b : List Nat) : xorAll (a ++ b) = xorAll a ^^^ xorAll b := by
  induction a with
  | nil => simp [xorAll_nil]
  | cons x t ih => simp [xorAll_cons, ih, Nat.xor_assoc]

theorem isChecksumCorrect_iff (q : lnQueue) :
    isChecksumCorrect q = true ↔ xorAll (toList q) = 0xFF := by
  simp [isChecksumCorrect, toList, xorAll, List.foldl_map]

/-! ## Framer lemmas -/

set_option maxRecDepth 100000 in
theorem msb_cases : ∀ b < 256, b &&& 0x80 = 0x80 ∨ b &&& 0x80 = 0 := by decide

set_option maxRecDepth 100000 in
theorem sizeClass_cases : ∀ op < 256,
    ((op >>> 5) &&& 3 = 0 ∧ ((op &&& 0x60) >>> 4) + 2 = 2) ∨
    ((op >>> 5) &&& 3 = 1 ∧ ((op &&& 0x60) >>> 4) + 2 = 4) ∨
    ((op >>> 5) &&& 3 = 2 ∧ ((op &&& 0x60) >>> 4) + 2 = 6) ∨
    ((op >>> 5) &&& 3 = 3 ∧ ((op &&& 0x60) >>> 4) + 2 = 8) := by decide

theorem xorAll_msbClear (l : List Nat) (h : ∀ b ∈ l, msbClear b) : msbClear (xorAll l) := by
  induction l with
  | nil => rfl
  | cons a t ih =>
    have ha : a &&& 0x80 = 0 := h a (List.mem_cons_self _ _)
    have ht : xorAll t &&& 0x80 = 0 := ih (fun b hb => h b (List.mem_cons_of_mem _ hb))
    show xorAll (a :: t) &&& 0x80 = 0
    rw [xorAll_cons, Nat.and_xor_distrib_right, ha, ht]; rfl

theorem rxCopyLoop_spec (fuel : Nat) : ∀ (tmp rx : lnQueue), WF tmp → WF rx →
    tmp.numEntries ≤ fuel → rx.numEntries + tmp.numEntries ≤ rx.size →
    toList (rxCopyLoop fuel tmp rx).2 = toList rx ++ toList tmp ∧
    (rxCopyLoop fuel tmp rx).1.numEntries = 0 ∧
    WF (rxCopyLoop fuel tmp rx).1 ∧ WF (rxCopyLoop fuel tmp rx).2 ∧
    (rxCopyLoop fuel tmp rx).1.size = tmp.size ∧ (rxCopyLoop fuel tmp rx).2.size = rx.size ∧
    (rxCopyLoop fuel tmp rx).2.head = rx.head := by
  induction fuel with
  | zero =>
    intro tmp rx ht hr hf _
    have h0 : tmp.numEntries = 0 := by omega
    simp [rxCopyLoop, toList_eq_nil tmp h0, h0, ht, hr]
  | succ n ih =>
    intro tmp rx ht hr hf hroom
    by_cases he : tmp.numEntries = 0
    · simp [rxCopyLoop, isQueueEmpty, toList_eq_nil tmp he, he, ht, hr]
    · have hne : rx.numEntries ≠ rx.size := by omega
      have hv := headValue_lt tmp ht
      have h1 := ih (deQueue tmp) (enQueue rx (headValue tmp)) (WF_deQueue tmp ht)
        (WF_enQueue rx _ hr hv) (by rw [deQueue_numEntries]; omega)
        (by rw [deQueue_numEntries, enQueue_numEntries rx _ hne, enQueue_size]; omega)
      have e : rxCopyLoop (n + 1) tmp rx
          = rxCopyLoop n (deQueue tmp) (enQueue rx (headValue tmp)) := by
        simp [rxCopyLoop, isQueueEmpty, he]
      rw [toList_enQueue rx _ hr hne, deQueue_size, enQueue_size, enQueue_head] at h1
      rw [e, toList_deQueue tmp ht he]
      simpa using h1

theorem rxMessageLength_eq (oob : Nat → Nat) (q : lnQueue) (h : WF q) (h0 : q.head = 0)
    (hn : 2 ≤ q.numEntries) : rxMessageLength oob q = sizeClassLength (toList q) := by
  have hs : 2 ≤ q.size := le_trans hn h.count_le
  have hv := headValue_lt q h
  have e1 : headValue q = (toList q).headD 0 := headValue_eq_headD q h (by omega)
  have e2 : rawRead oob q (q.head + 1) = (toList q).getD 1 0 :=
    rawRead_inside oob q h 1 (by omega) (by omega)
  unfold rxMessageLength sizeClassLength
  rw [e2, ← e1]
  rcases sizeClass_cases (headValue q) hv with ⟨a, b⟩ | ⟨a, b⟩ | ⟨a, b⟩ | ⟨a, b⟩ <;>
    simp [a, b]

theorem stagingShape_enQueue (q : lnQueue) (b : Nat) (h : WF q) (hs : stagingShape q)
    (hb : msbClear b) : stagingShape (enQueue q b) := by
  by_cases hf : q.numEntries = q.size
  · rw [enQueue_full q b hf]; exact hs
  · rcases hs with hs | ⟨h0, hne, hop, hrest⟩
    · left
      rw [toList_enQueue q b h hf]
      intro x hx
      rcases List.mem_append.mp hx with hx | hx
      · exact hs x hx
      · simp at hx; rw [hx]; exact hb
    · right
      refine ⟨by rw [enQueue_head]; exact h0, by rw [enQueue_numEntries q b hf]; omega, ?_, ?_⟩
      · rw [toList_enQueue q b h hf]
        have : toList q ≠ [] := by
          intro e; have := toList_length q; rw [e] at this; simp at this; omega
        obtain ⟨a, t, e⟩ := List.exists_cons_of_ne_nil this
        rw [e] at hop ⊢; simpa using hop
      · rw [toList_enQueue q b h hf]
        have : toList q ≠ [] := by
          intro e; have := toList_length q; rw [e] at this; simp at this; omega
        obtain ⟨a, t, e⟩ := List.exists_cons_of_ne_nil this
        rw [e] at hrest ⊢
        intro x hx
        simp at hx hrest
        rcases hx with hx | hx
        · exact hrest x hx
        · rw [hx]; exact hb

theorem enQueue_numEntries_ge (q : lnQueue) (b : Nat) (hs : 2 ≤ q.size)
    (hne : q.numEntries ≠ 0) : 2 ≤ (enQueue q b).numEntries := by
  by_cases hf : q.numEntries = q.size
  · rw [enQueue_full q b hf]; omega
  · rw [enQueue_numEntries q b hf]; omega

theorem rxInv_step {σ : Type} (N : Nat) (hN : 2 ≤ N) (cb : lnQueue → σ → lnQueue × σ)
    (hcb : drains cb) (oob : Nat → Nat) (s : LnDriver σ) (b : Nat) (hb : b < 256)
    (h : rxInv N s) : rxInv N (rxHandler cb oob s b) := by
  unfold rxHandler
  rcases msb_cases b hb with hm | hm
  · -- opcode
    rw [if_pos hm]
    have hc := WF_clearQueue _ h.wf_tmp
    have hne : (clearQueue s.lnRxTempQueue).numEntries ≠ (clearQueue s.lnRxTempQueue).size := by
      have := h.size_tmp; simp [clearQueue]; omega
    refine ⟨WF_enQueue _ _ hc hb, h.wf_rx, by simp [enQueue_size, clearQueue, h.size_tmp],
      h.size_rx, h.rx_empty, ?_, h.delivered⟩
    right
    refine ⟨by simp [enQueue_head, clearQueue], by rw [enQueue_numEntries _ _ hne]; omega, ?_, ?_⟩
    · rw [toList_enQueue _ _ hc hne, toList_clearQueue]; exact hm
    · rw [toList_enQueue _ _ hc hne, toList_clearQueue]; simp
  · have hnm : ¬ (b &&& 0x80 = 0x80) := by rw [hm]; decide
    rw [if_neg hnm]
    have hwf := WF_enQueue _ b h.wf_tmp hb
    have hshape := stagingShape_enQueue _ b h.wf_tmp h.shape hm
    have hsize : (enQueue s.lnRxTempQueue b).size = N := by rw [enQueue_size]; exact h.size_tmp
    simp only []
    split
    · rename_i hlen
      split
      · rename_i hck
        rw [isChecksumCorrect_iff] at hck
        have hroom : s.lnRxQueue.numEntries + (enQueue s.lnRxTempQueue b).numEntries
            ≤ s.lnRxQueue.size := by
          have := hwf.count_le; rw [h.rx_empty, h.size_rx, ← hsize]; omega
        obtain ⟨m1, m2, m3, m4, m5, m6, _⟩ := rxCopyLoop_spec _ _ _ hwf h.wf_rx (le_refl _) hroom
        rw [toList_eq_nil _ h.rx_empty, List.nil_append] at m1
        obtain ⟨d1, d2, d3⟩ := hcb _ s.app m4
        refine ⟨m3, d1, by rw [m5]; exact hsize, by rw [d3, m6]; exact h.size_rx, d2,
          Or.inl (by rw [toList_eq_nil _ m2]; simp), ?_⟩
        intro m hmem
        rcases List.mem_append.mp hmem with hmem | hmem
        · exact h.delivered m hmem
        · simp only [List.mem_singleton] at hmem
          rw [hmem, m1]
          rcases hshape with hall | ⟨h0, hne, hop, hrest⟩
          · exfalso
            have := xorAll_msbClear _ hall
            unfold msbClear at this
            rw [hck] at this
            exact absurd this (by decide)
          · have h2 : 2 ≤ (enQueue s.lnRxTempQueue b).numEntries := by
              rcases h.shape with hall | ⟨_, hne0, _, _⟩
              · -- previous staging had no opcode: then the new one has none either
                exfalso
                have hall2 : ∀ x ∈ toList (enQueue s.lnRxTempQueue b), msbClear x := by
                  by_cases hf : s.lnRxTempQueue.numEntries = s.lnRxTempQueue.size
                  · rw [enQueue_full _ b hf]; exact hall
                  · rw [toList_enQueue _ b h.wf_tmp hf]
                    intro x hx
                    rcases List.mem_append.mp hx with hx | hx
                    · exact hall x hx
                    · simp at hx; rw [hx]; exact hm
                have := xorAll_msbClear _ hall2
                unfold msbClear at this
                rw [hck] at this
                exact absurd this (by decide)
              · exact enQueue_numEntries_ge _ b (by rw [h.size_tmp]; exact hN) hne0
            refine ⟨by rw [toList_length]; exact h2, hop, hrest, ?_, hck⟩
            rw [toList_length, ← hlen, rxMessageLength_eq oob _ hwf h0 h2]
      · exact ⟨hwf, h.wf_rx, hsize, h.size_rx, h.rx_empty, hshape, h.delivered⟩
    · exact ⟨hwf, h.wf_rx, hsize, h.size_rx, h.rx_empty, hshape, h.delivered⟩

theorem rxInv_run {σ : Type} (N : Nat) (hN : 2 ≤ N) (cb : lnQueue → σ → lnQueue × σ)
    (hcb : drains cb) (input : List (Nat × (Nat → Nat))) :
    ∀ (s : LnDriver σ), (∀ x ∈ input, x.1 < 256) → rxInv N s → rxInv N (rxRun cb s input) := by
  induction input with
  | nil => intro s _ h; exact h
  | cons x t ih =>
    intro s hb h
    exact ih _ (fun y hy => hb y (List.mem_cons_of_mem _ hy))
      (rxInv_step N hN cb hcb x.2 s x.1 (hb x (List.mem_cons_self _ _)) h)

theorem rxInv_lnInit {σ : Type} (N : Nat) (hN : 2 ≤ N) (app : σ) :
    rxInv N (lnInit N app) := by
  have hw := WF_initQueue N (by omega)
  exact ⟨hw, hw, rfl, rfl, rfl, Or.inl (by simp [lnInit, startCmpDelay, setBrg1, toList_initQueue]),
    by simp [lnInit, startCmpDelay, setBrg1]⟩

theorem sizeClassLength_append (pre t : List Nat) (h : 2 ≤ pre.length) :
    sizeClassLength (pre ++ t) = sizeClassLength pre := by
  match pre, h with
  | a :: b :: r, _ => simp [sizeClassLength]

theorem rxRun_cons {σ : Type} (cb : lnQueue → σ → lnQueue × σ) (s : LnDriver σ)
    (x : Nat × (Nat → Nat)) (t : List (Nat × (Nat → Nat))) :
    rxRun cb s (x :: t) = rxRun cb (rxHandler cb x.2 s x.1) t := rfl

theorem rxHandler_opcode {σ : Type} (cb : lnQueue → σ → lnQueue × σ) (oob : Nat → Nat)
    (s : LnDriver σ) (b : Nat) (hb : b &&& 0x80 = 0x80) :
    rxHandler cb oob s b
      = { s with lnRxTempQueue := enQueue (clearQueue s.lnRxTempQueue) b } := by
  unfold rxHandler; rw [if_pos hb]

theorem rxHandler_deliver {σ : Type} (cb : lnQueue → σ → lnQueue × σ) (oob : Nat → Nat)
    (s : LnDriver σ) (b : Nat) (hb : ¬ (b &&& 0x80 = 0x80))
    (hl : rxMessageLength oob (enQueue s.lnRxTempQueue b) = (enQueue s.lnRxTempQueue b).numEntries)
    (hck : isChecksumCorrect (enQueue s.lnRxTempQueue b) = true) :
    rxHandler cb oob s b
      = { s with
          lnRxTempQueue := (rxCopyLoop (enQueue s.lnRxTempQueue b).numEntries
            (enQueue s.lnRxTempQueue b) s.lnRxQueue).1
          lnRxQueue := (cb (rxCopyLoop (enQueue s.lnRxTempQueue b).numEntries
            (enQueue s.lnRxTempQueue b) s.lnRxQueue).2 s.app).1
          LATE2 := false
          callbacks := s.callbacks ++ [toList (rxCopyLoop (enQueue s.lnRxTempQueue b).numEntries
            (enQueue s.lnRxTempQueue b) s.lnRxQueue).2]
          app := (cb (rxCopyLoop (enQueue s.lnRxTempQueue b).numEntries
            (enQueue s.lnRxTempQueue b) s.lnRxQueue).2 s.app).2 } := by
  unfold rxHandler; rw [if_neg hb]; dsimp only; rw [if_pos hl, if_pos hck]

theorem rxHandler_keep {σ : Type} (cb : lnQueue → σ → lnQueue × σ) (oob : Nat → Nat)
    (s : LnDriver σ) (b : Nat) (hb : ¬ (b &&& 0x80 = 0x80))
    (h : rxMessageLength oob (enQueue s.lnRxTempQueue b) ≠ (enQueue s.lnRxTempQueue b).numEntries
      ∨ isChecksumCorrect (enQueue s.lnRxTempQueue b) = false) :
    rxHandler cb oob s b = { s with lnRxTempQueue := enQueue s.lnRxTempQueue b } := by
  unfold rxHandler; rw [if_neg hb]; dsimp only
  rcases h with h | h
  · rw [if_neg h]
  · split
    · rw [h]; rfl
    · rfl

theorem rxRun_payload {σ : Type} (cb : lnQueue → σ → lnQueue × σ) (m : List Nat)
    (hvalid : validMessage m) (rem : List (Nat × (Nat → Nat))) :
    ∀ (s : LnDriver σ), WF s.lnRxTempQueue → s.lnRxTempQueue.head = 0 →
      s.lnRxTempQueue.numEntries ≠ 0 →
      toList s.lnRxTempQueue ++ rem.map Prod.fst = m →
      (∀ x ∈ rem, msbClear x.1 ∧ x.1 < 256) →
      WF s.lnRxQueue → s.lnRxQueue.numEntries = 0 →
      m.length ≤ s.lnRxTempQueue.size → m.length ≤ s.lnRxQueue.size → rem ≠ [] →
      (∀ k < rem.length, (rxRun cb s (rem.take k)).callbacks = s.callbacks) ∧
      (rxRun cb s rem).callbacks = s.callbacks ++ [m] ∧
      toList (rxRun cb s rem).lnRxTempQueue = [] ∧
      ∃ Q, WF Q ∧ toList Q = m ∧ Q.head = s.lnRxQueue.head ∧ Q.size = s.lnRxQueue.size ∧
        (rxRun cb s rem).app = (cb Q s.app).2 ∧ (rxRun cb s rem).lnRxQueue = (cb Q s.app).1 := by
  induction rem with
  | nil => intro s _ _ _ _ _ _ _ _ _ h; exact absurd rfl h
  | cons x t ih =>
    intro s hwf h0 hne hm hrem hrx hrxe hfit1 hfit2 _
    obtain ⟨hxc, hxb⟩ := hrem x (List.mem_cons_self _ _)
    have hlenm : m.length = s.lnRxTempQueue.numEntries + (t.length + 1) := by
      rw [← hm]; simp [toList_length]
    have hnf : s.lnRxTempQueue.numEntries ≠ s.lnRxTempQueue.size := by omega
    have hwf2 := WF_enQueue _ x.1 hwf hxb
    have htl := toList_enQueue _ x.1 hwf hnf
    have hnum := enQueue_numEntries _ x.1 hnf
    have hlen : rxMessageLength x.2 (enQueue s.lnRxTempQueue x.1) = m.length := by
      rw [rxMessageLength_eq x.2 _ hwf2 (by rw [enQueue_head]; exact h0) (by omega), htl]
      have e : m = (toList s.lnRxTempQueue ++ [x.1]) ++ t.map Prod.fst := by
        rw [← hm]; simp
      rw [hvalid.2.2.2.1]
      conv_rhs => rw [e]
      rw [sizeClassLength_append (toList s.lnRxTempQueue ++ [x.1]) (t.map Prod.fst)
        (by rw [List.length_append, toList_length]; simp; omega)]
    have hnm : ¬ (x.1 &&& 0x80 = 0x80) := by
      have : x.1 &&& 0x80 = 0 := hxc
      rw [this]; decide
    by_cases ht : t = []
    · -- last byte
      subst ht
      have hmq : toList (enQueue s.lnRxTempQueue x.1) = m := by rw [htl, ← hm]; simp
      have hck : isChecksumCorrect (enQueue s.lnRxTempQueue x.1) = true := by
        rw [isChecksumCorrect_iff, hmq]; exact hvalid.2.2.2.2
      have hl2 : rxMessageLength x.2 (enQueue s.lnRxTempQueue x.1)
          = (enQueue s.lnRxTempQueue x.1).numEntries := by rw [hlen, hnum, hlenm]; rfl
      obtain ⟨m1, m2, _, m4, _, m6, m7⟩ := rxCopyLoop_spec _ _ _ hwf2 hrx (le_refl _)
        (by rw [hrxe, hnum]; simp at hlenm; omega)
      rw [toList_eq_nil _ hrxe, List.nil_append, hmq] at m1
      refine ⟨?_, ?_, ?_, ⟨_, m4, m1, m7, m6, ?_, ?_⟩⟩
      · intro k hk
        have : k = 0 := by simp at hk; omega
        subst this; rfl
      · rw [rxRun_cons, rxHandler_deliver cb x.2 s x.1 hnm hl2 hck]
        show s.callbacks ++ [_] = _
        rw [m1]
      · rw [rxRun_cons, rxHandler_deliver cb x.2 s x.1 hnm hl2 hck]
        exact toList_eq_nil _ m2
      · rw [rxRun_cons, rxHandler_deliver cb x.2 s x.1 hnm hl2 hck]; rfl
      · rw [rxRun_cons, rxHandler_deliver cb x.2 s x.1 hnm hl2 hck]; rfl
    · have htpos : 0 < t.length := List.length_pos.mpr ht
      have hl2 : rxMessageLength x.2 (enQueue s.lnRxTempQueue x.1)
          ≠ (enQueue s.lnRxTempQueue x.1).numEntries := by rw [hlen, hnum, hlenm]; omega
      have hstep := rxHandler_keep cb x.2 s x.1 hnm (Or.inl hl2)
      have := ih { s with lnRxTempQueue := enQueue s.lnRxTempQueue x.1 } hwf2
        (by rw [enQueue_head]; exact h0) (by show (enQueue _ _).numEntries ≠ 0; omega)
        (by show toList (enQueue _ _) ++ _ = m; rw [htl, ← hm]; simp)
        (fun y hy => hrem y (List.mem_cons_of_mem _ hy)) hrx hrxe
        (by show m.length ≤ (enQueue _ _).size; rw [enQueue_size]; exact hfit1) hfit2 ht
      obtain ⟨a1, a2, a3, a4⟩ := this
      refine ⟨?_, ?_, ?_, ?_⟩
      · intro k hk
        cases k with
        | zero => rfl
        | succ j =>
          rw [List.take_succ_cons, rxRun_cons, hstep]
          exact a1 j (by simp at hk; omega)
      · rw [rxRun_cons, hstep]; exact a2
      · rw [rxRun_cons, hstep]; exact a3
      · rw [rxRun_cons, hstep]; exact a4

theorem rxRun_message {σ : Type} (cb : lnQueue → σ → lnQueue × σ) (s : LnDriver σ)
    (m : List Nat) (input : List (Nat × (Nat → Nat))) (hinput : input.map Prod.fst = m)
    (hvalid : validMessage m) (hbytes : ∀ b ∈ m, b < 256)
    (htmp : WF s.lnRxTempQueue) (hrx : WF s.lnRxQueue) (hempty : s.lnRxQueue.numEntries = 0)
    (hfit1 : m.length ≤ s.lnRxTempQueue.size) (hfit2 : m.length ≤ s.lnRxQueue.size) :
    (∀ k < input.length, (rxRun cb s (input.take k)).callbacks = s.callbacks) ∧
    (rxRun cb s input).callbacks = s.callbacks ++ [m] ∧
    toList (rxRun cb s input).lnRxTempQueue = [] ∧
    ∃ Q, WF Q ∧ toList Q = m ∧ Q.head = s.lnRxQueue.head ∧ Q.size = s.lnRxQueue.size ∧
      (rxRun cb s input).app = (cb Q s.app).2 ∧ (rxRun cb s input).lnRxQueue = (cb Q s.app).1 := by
  have hlen := hvalid.1
  have hop := hvalid.2.1
  have hrest := hvalid.2.2.1
  match input, hinput with
  | [], hi => rw [← hi] at hlen; simp at hlen
  | [x], hi => rw [← hi] at hlen; simp at hlen
  | x :: y :: t, hi =>
    have hx : x.1 &&& 0x80 = 0x80 := by rw [← hi] at hop; exact hop
    have hxb : x.1 < 256 := hbytes _ (by rw [← hi]; simp)
    have hstep := rxHandler_opcode cb x.2 s x.1 hx
    have hc := WF_clearQueue _ htmp
    have hne : (clearQueue s.lnRxTempQueue).numEntries ≠ (clearQueue s.lnRxTempQueue).size := by
      have := htmp.size_pos; simp [clearQueue]; omega
    have hrem : ∀ z ∈ y :: t, msbClear z.1 ∧ z.1 < 256 := by
      intro z hz
      have hmem : z.1 ∈ m.tail := by
        rw [← hi]; simp only [List.map_cons, List.tail_cons]
        exact List.mem_map_of_mem Prod.fst hz
      exact ⟨hrest z.1 hmem, hbytes z.1 (List.mem_of_mem_tail hmem)⟩
    have hcat : toList (enQueue (clearQueue s.lnRxTempQueue) x.1) ++ (y :: t).map Prod.fst
        = m := by
      rw [toList_enQueue _ _ hc hne, toList_clearQueue, ← hi]; simp
    have := rxRun_payload cb m hvalid (y :: t)
      { s with lnRxTempQueue := enQueue (clearQueue s.lnRxTempQueue) x.1 }
      (WF_enQueue _ _ hc hxb) (by simp [enQueue_head, clearQueue])
      (by show (enQueue _ _).numEntries ≠ 0; rw [enQueue_numEntries _ _ hne]; omega)
      hcat hrem hrx hempty
      (by show m.length ≤ (enQueue _ _).size; simp [enQueue_size, clearQueue]; exact hfit1)
      hfit2 (by simp)
    obtain ⟨a1, a2, a3, a4⟩ := this
    refine ⟨?_, ?_, ?_, ?_⟩
    · intro k hk
      cases k with
      | zero => rfl
      | succ j =>
        rw [List.take_succ_cons, rxRun_cons, hstep]
        exact a1 j (by simp at hk ⊢; omega)
    · rw [rxRun_cons, hstep]; exact a2
    · rw [rxRun_cons, hstep]; exact a3
    · rw [rxRun_cons, hstep]; exact a4

/-! ## Callback and transmit lemmas -/



theorem drainLoop_spec (fuel : Nat) : ∀ q : lnQueue, WF q → q.numEntries ≤ fuel →
    WF (drainLoop fuel q) ∧ (drainLoop fuel q).numEntries = 0 ∧ (drainLoop fuel q).size = q.size := by
  induction fuel with
  | zero => intro q h hf; exact ⟨h, by simpa [drainLoop] using hf, rfl⟩
  | succ n ih =>
    intro q h hf
    by_cases he : q.numEntries = 0
    · simp [drainLoop, isQueueEmpty, he, h]
    · have e : drainLoop (n + 1) q = drainLoop n (deQueue q) := by
        simp [drainLoop, isQueueEmpty, he]
      rw [e]
      have := ih (deQueue q) (WF_deQueue q h) (by rw [deQueue_numEntries]; omega)
      rw [deQueue_size] at this
      exact this

theorem drains_simpleRxMessageHandler : drains simpleRxMessageHandler := by
  intro q a h
  exact drainLoop_spec _ q h (le_refl _)

theorem lnTxCopyLoop_spec (fuel : Nat) : ∀ (c : Nat) (tx u : lnQueue), WF tx → WF u →
    u.numEntries ≤ fuel → tx.numEntries + u.numEntries ≤ tx.size →
    (lnTxCopyLoop fuel c tx u).1 = c ^^^ xorAll (toList u) ∧
    toList (lnTxCopyLoop fuel c tx u).2.1 = toList tx ++ toList u ∧
    WF (lnTxCopyLoop fuel c tx u).2.1 ∧
    (lnTxCopyLoop fuel c tx u).2.1.size = tx.size ∧
    (lnTxCopyLoop fuel c tx u).2.1.numEntries = tx.numEntries + u.numEntries ∧
    WF (lnTxCopyLoop fuel c tx u).2.2 ∧
    (lnTxCopyLoop fuel c tx u).2.2.numEntries = 0 := by
  induction fuel with
  | zero =>
    intro c tx u ht hu hf _
    have h0 : u.numEntries = 0 := by omega
    simp [lnTxCopyLoop, toList_eq_nil u h0, h0, ht, hu, xorAll_nil]
  | succ n ih =>
    intro c tx u ht hu hf hroom
    by_cases he : u.numEntries = 0
    · simp [lnTxCopyLoop, isQueueEmpty, toList_eq_nil u he, he, ht, hu, xorAll_nil]
    · have hne : tx.numEntries ≠ tx.size := by omega
      have hv := headValue_lt u hu
      have e : lnTxCopyLoop (n + 1) c tx u
          = lnTxCopyLoop n (c ^^^ headValue u) (enQueue tx (headValue u)) (deQueue u) := by
        simp [lnTxCopyLoop, isQueueEmpty, he]
      have h1 := ih (c ^^^ headValue u) (enQueue tx (headValue u)) (deQueue u)
        (WF_enQueue tx _ ht hv) (WF_deQueue u hu) (by rw [deQueue_numEntries]; omega)
        (by rw [deQueue_numEntries, enQueue_numEntries tx _ hne, enQueue_size]; omega)
      rw [toList_enQueue tx _ ht hne, enQueue_size, enQueue_numEntries tx _ hne,
        deQueue_numEntries] at h1
      rw [e, toList_deQueue u hu he, xorAll_cons]
      obtain ⟨a1, a2, a3, a4, a5, a6, a7⟩ := h1
      refine ⟨by rw [a1, Nat.xor_assoc], by simpa using a2, a3, a4, by omega, a6, a7⟩

/-- When the TX queue is full, the copy loop of `lnTxMessageHandler` leaves it unchanged. -/
theorem lnTxCopyLoop_full (fuel : Nat) : ∀ (c : Nat) (tx u : lnQueue),
    tx.numEntries = tx.size → (lnTxCopyLoop fuel c tx u).2.1 = tx := by
  induction fuel with
  | zero => intro c tx u _; rfl
  | succ n ih =>
    intro c tx u hf
    unfold lnTxCopyLoop
    split
    · rw [enQueue_full tx _ hf]; exact ih _ tx _ hf
    · rfl

theorem xorAll_lt (l : List Nat) (h : ∀ b ∈ l, b < 256) : xorAll l < 256 := by
  induction l with
  | nil => decide
  | cons a t ih =>
    rw [xorAll_cons]
    exact Nat.xor_lt_two_pow (n := 8) (h a (List.mem_cons_self _ _))
      (ih (fun b hb => h b (List.mem_cons_of_mem _ hb)))

theorem lnTxMessageHandler_toList {σ : Type} (s : LnDriver σ) (u : lnQueue)
    (htx : WF s.lnTxQueue) (hu : WF u)
    (hroom : s.lnTxQueue.numEntries + u.numEntries + 1 ≤ s.lnTxQueue.size) :
    toList (lnTxMessageHandler s u).1.lnTxQueue
      = toList s.lnTxQueue ++ toList u ++ [0xFF ^^^ xorAll (toList u)] ∧
    WF (lnTxMessageHandler s u).1.lnTxQueue ∧
    (lnTxMessageHandler s u).1.lnTxQueue.numEntries = s.lnTxQueue.numEntries + u.numEntries + 1 ∧
    (lnTxMessageHandler s u).1.lnTxQueue.size = s.lnTxQueue.size ∧
    WF (lnTxMessageHandler s u).2 ∧ (lnTxMessageHandler s u).2.numEntries = 0 := by
  obtain ⟨a1, a2, a3, a4, a5, a6, a7⟩ :=
    lnTxCopyLoop_spec u.numEntries 0 s.lnTxQueue u htx hu (le_refl _) (by omega)
  have hb : xorAll (toList u) ^^^ 0xFF < 256 :=
    Nat.xor_lt_two_pow (n := 8) (xorAll_lt _ (toList_bytes u hu)) (by decide)
  rw [Nat.zero_xor] at a1
  have hne : (lnTxCopyLoop u.numEntries 0 s.lnTxQueue u).2.1.numEntries
      ≠ (lnTxCopyLoop u.numEntries 0 s.lnTxQueue u).2.1.size := by rw [a4, a5]; omega
  refine ⟨?_, ?_, ?_, ?_, a6, a7⟩
  · show toList (enQueue _ _) = _
    rw [toList_enQueue _ _ a3 hne, a2, a1, Nat.xor_comm]
  · show WF (enQueue _ _)
    rw [a1]; exact WF_enQueue _ _ a3 hb
  · show (enQueue _ _).numEntries = _
    rw [enQueue_numEntries _ _ hne, a5]
  · show (enQueue _ _).size = _
    rw [enQueue_size, a4]

/-! ## Whole framed messages -/

theorem xorAll_framed (m : List Nat) : xorAll (m ++ [0xFF ^^^ xorAll m]) = 0xFF := by
  rw [xorAll_append, xorAll_cons, xorAll_nil, Nat.xor_zero, Nat.xor_comm 0xFF,
    ← Nat.xor_assoc, Nat.xor_self, Nat.zero_xor]

theorem wholeMessages_xor (l : List Nat) (h : wholeMessages l) :
    xorAll l = 0 ∨ xorAll l = 0xFF := by
  obtain ⟨frames, hf, rfl⟩ := h
  induction frames with
  | nil => left; rfl
  | cons f fs ih =>
    obtain ⟨m, _, rfl⟩ := hf f (List.mem_cons_self _ _)
    rw [List.flatten_cons, xorAll_append, xorAll_framed]
    rcases ih (fun g hg => hf g (List.mem_cons_of_mem _ hg)) with h | h
    · right; rw [h]; rfl
    · left; rw [h]; rfl

theorem wholeMessages_nil : wholeMessages [] := ⟨[], by simp, rfl⟩

theorem wholeMessages_append (l f : List Nat) (hl : wholeMessages l) (hf : framedMessage f) :
    wholeMessages (l ++ f) := by
  obtain ⟨frames, h, rfl⟩ := hl
  refine ⟨frames ++ [f], ?_, by simp⟩
  intro g hg
  rcases List.mem_append.mp hg with hg | hg
  · exact h g hg
  · simp at hg; rw [hg]; exact hf

/-- The checksum byte of a framed message has its high bit clear, so a framed message is an
opcode followed by bytes with the high bit clear. -/
theorem framedMessage_shape (f : List Nat) (h : framedMessage f) :
    ∃ op rest, f = op :: rest ∧ msbSet op ∧ ∀ b ∈ rest, msbClear b := by
  obtain ⟨m, ⟨hne, hop, hrest, _⟩, rfl⟩ := h
  obtain ⟨op, pl, rfl⟩ := List.exists_cons_of_ne_nil hne
  refine ⟨op, pl ++ [0xFF ^^^ xorAll (op :: pl)], rfl, hop, ?_⟩
  intro b hb
  rcases List.mem_append.mp hb with hb | hb
  · exact hrest b hb
  · simp only [List.mem_singleton] at hb
    have h1 : op &&& 0x80 = 0x80 := hop
    have h2 : xorAll pl &&& 0x80 = 0 := xorAll_msbClear pl hrest
    show b &&& 0x80 = 0
    rw [hb, xorAll_cons, Nat.and_xor_distrib_right, Nat.and_xor_distrib_right, h1, h2]
    rfl

theorem numEntries_ne_zero_of_toList (q : lnQueue) (a : Nat) (t : List Nat)
    (h : toList q = a :: t) : q.numEntries ≠ 0 := by
  intro e
  rw [toList_eq_nil q e] at h
  exact absurd h (by simp)

theorem startLnTxLoop_spec (fuel : Nat) : ∀ (tx temp : lnQueue) (a : Nat) (pl rest : List Nat),
    WF tx → toList tx = a :: (pl ++ rest) → (∀ b ∈ pl, msbClear b) →
    (rest = [] ∨ msbSet (rest.headD 0)) → pl.length < fuel →
    toList (startLnTxLoop fuel tx temp).1 = rest ∧ WF (startLnTxLoop fuel tx temp).1 := by
  induction fuel with
  | zero => intro _ _ _ _ _ _ _ _ _ h; omega
  | succ n ih =>
    intro tx temp a pl rest hwf htl hpl hrest hfuel
    have hne := numEntries_ne_zero_of_toList tx a _ htl
    have hd := toList_deQueue tx hwf hne
    rw [htl] at hd
    have hd2 : toList (deQueue tx) = pl ++ rest := (List.cons.inj hd).2.symm
    have hwf2 := WF_deQueue tx hwf
    unfold startLnTxLoop
    simp only []
    match pl, hpl, hd2, hfuel with
    | [], _, hd2, _ =>
      rw [List.nil_append] at hd2
      rcases hrest with hr | hr
      · have he : (deQueue tx).numEntries = 0 := by
          have := toList_length (deQueue tx); rw [hd2, hr] at this; simpa using this.symm
        simp [isQueueEmpty, he, hd2, hwf2]
      · have hne2 : (deQueue tx).numEntries ≠ 0 := by
          intro e
          rw [toList_eq_nil _ e] at hd2
          rw [← hd2] at hr
          exact absurd hr (by decide)
        have hv : headValue (deQueue tx) &&& 0x80 = 0x80 := by
          rw [headValue_eq_headD _ hwf2 hne2, hd2]; exact hr
        simp [hv, hd2, hwf2]
    | p :: pl2, hpl, hd2, hfuel =>
      have hne2 := numEntries_ne_zero_of_toList (deQueue tx) p _ hd2
      have hv : headValue (deQueue tx) &&& 0x80 = 0 := by
        rw [headValue_eq_headD _ hwf2 hne2, hd2]; exact hpl p (List.mem_cons_self _ _)
      have hc : (!isQueueEmpty (deQueue tx) && (headValue (deQueue tx) &&& 0x80) != 0x80)
          = true := by
        simp [isQueueEmpty, hne2, hv]
      rw [if_pos hc]
      exact ih (deQueue tx) _ p pl2 rest hwf2 hd2
        (fun b hb => hpl b (List.mem_cons_of_mem _ hb)) hrest (by simp at hfuel; omega)

theorem startLnTxMessage_whole {σ : Type} (s : LnDriver σ) (htx : WF s.lnTxQueue)
    (hwhole : wholeMessages (toList s.lnTxQueue)) :
    wholeMessages (toList (startLnTxMessage s).lnTxQueue) := by
  show wholeMessages (toList (startLnTxLoop (s.lnTxQueue.numEntries + 1) s.lnTxQueue
    s.lnTxTempQueue).1)
  obtain ⟨frames, hf, hl⟩ := hwhole
  match frames, hf, hl with
  | [], _, hl =>
    have he : s.lnTxQueue.numEntries = 0 := by
      have := toList_length s.lnTxQueue; rw [hl] at this; simpa using this.symm
    have : (startLnTxLoop (s.lnTxQueue.numEntries + 1) s.lnTxQueue s.lnTxTempQueue).1
        = s.lnTxQueue := by
      simp [startLnTxLoop, deQueue_empty _ he, isQueueEmpty, he]
    rw [this, hl]; exact wholeMessages_nil
  | f :: fs, hf, hl =>
    obtain ⟨op, pl, rfl, _, hpl⟩ := framedMessage_shape f (hf f (List.mem_cons_self _ _))
    have hrest : fs.flatten = [] ∨ msbSet (fs.flatten.headD 0) := by
      match fs, hf with
      | [], _ => left; rfl
      | g :: gs, hf =>
        right
        obtain ⟨op2, r2, rfl, h2, _⟩ :=
          framedMessage_shape g (hf g (List.mem_cons_of_mem _ (List.mem_cons_self _ _)))
        simpa using h2
    have hlen : pl.length < s.lnTxQueue.numEntries + 1 := by
      have := toList_length s.lnTxQueue; rw [hl] at this; simp at this; omega
    obtain ⟨h1, _⟩ := startLnTxLoop_spec _ s.lnTxQueue s.lnTxTempQueue op pl fs.flatten htx
      (by rw [hl]; simp) hpl hrest hlen
    rw [h1]
    exact ⟨fs, fun g hg => hf g (List.mem_cons_of_mem _ hg), rfl⟩

theorem lnTxMessageHandler_whole {σ : Type} (s : LnDriver σ) (u : lnQueue)
    (htx : WF s.lnTxQueue) (hu : WF u) (hm : userMessage (toList u))
    (hwhole : wholeMessages (toList s.lnTxQueue))
    (hroom : s.lnTxQueue.numEntries = s.lnTxQueue.size ∨
      s.lnTxQueue.numEntries + u.numEntries + 1 ≤ s.lnTxQueue.size) :
    wholeMessages (toList (lnTxMessageHandler s u).1.lnTxQueue) := by
  rcases hroom with hfull | hroom
  · have h1 := lnTxCopyLoop_full u.numEntries 0 s.lnTxQueue u hfull
    have : (lnTxMessageHandler s u).1.lnTxQueue = s.lnTxQueue := by
      show enQueue _ _ = _
      rw [h1, enQueue_full _ _ hfull]
    rw [this]; exact hwhole
  · obtain ⟨a1, _⟩ := lnTxMessageHandler_toList s u htx hu hroom
    rw [a1, List.append_assoc]
    exact wholeMessages_append _ _ hwhole ⟨toList u, hm, rfl⟩

/-! ## Turnout application lemmas -/

theorem awDispatch_other (PORTA PORTC : Nat) (oob : Nat → Nat) (q : lnQueue)
    (aw : List AWCON_t)
    (h : headValue q ≠ 0xb0 ∧ headValue q ≠ 0x82 ∧ headValue q ≠ 0x83) :
    awDispatch PORTA PORTC oob q aw = aw := by
  unfold awDispatch
  simp only []
  rw [if_neg h.1, if_neg h.2.1, if_neg h.2.2]

theorem awRxLoop_other (PORTA PORTC : Nat) (oob : Nat → Nat) (fuel : Nat) :
    ∀ (q : lnQueue) (aw : List AWCON_t), WF q →
      (∀ b ∈ toList q, b ≠ 0xb0 ∧ b ≠ 0x82 ∧ b ≠ 0x83) → q.numEntries ≤ fuel →
      (awRxLoop PORTA PORTC oob fuel q aw).2 = aw ∧
      (awRxLoop PORTA PORTC oob fuel q aw).1.numEntries = 0 := by
  induction fuel with
  | zero => intro q aw _ _ hf; exact ⟨rfl, by simpa [awRxLoop] using hf⟩
  | succ n ih =>
    intro q aw hwf hb hf
    by_cases he : q.numEntries = 0
    · simp [awRxLoop, isQueueEmpty, he]
    · have e : awRxLoop PORTA PORTC oob (n + 1) q aw
          = awRxLoop PORTA PORTC oob n (deQueue q) (awDispatch PORTA PORTC oob q aw) := by
        simp [awRxLoop, isQueueEmpty, he]
      have hd := toList_deQueue q hwf he
      have hh : headValue q ≠ 0xb0 ∧ headValue q ≠ 0x82 ∧ headValue q ≠ 0x83 :=
        hb _ (by rw [hd]; exact List.mem_cons_self _ _)
      rw [e, awDispatch_other PORTA PORTC oob q aw hh]
      exact ih (deQueue q) aw (WF_deQueue q hwf)
        (fun b hb2 => hb b (by rw [hd]; exact List.mem_cons_of_mem _ hb2))
        (by rw [deQueue_numEntries]; omega)

theorem awGet_awModify (aw : List AWCON_t) (i : Nat) (f : AWCON_t → AWCON_t)
    (hi : i < aw.length) : awGet (awModify aw i f) i = f (awGet aw i) := by
  simp [awGet, awModify, List.getD_eq_getElem?_getD, List.getElem?_set, hi]

theorem awGet_awModify_ne (aw : List AWCON_t) (i j : Nat) (f : AWCON_t → AWCON_t)
    (hij : i ≠ j) : awGet (awModify aw i f) j = awGet aw j := by
  simp [awGet, awModify, List.getD_eq_getElem?_getD, List.getElem?_set, hij]

theorem awModify_length (aw : List AWCON_t) (i : Nat) (f : AWCON_t → AWCON_t) :
    (awModify aw i f).length = aw.length := by
  simp [awModify]

/-- The switch-request branch of the dispatcher, on a queue whose first three bytes lie inside
the backing array without wrapping. -/
theorem awDispatch_switch (PORTA PORTC : Nat) (oob : Nat → Nat) (q : lnQueue)
    (aw : List AWCON_t) (b1 b2 : Nat) (rest : List Nat) (hwf : WF q)
    (hq : toList q = 0xB0 :: b1 :: b2 :: rest) (hin : q.head + 2 < q.size) :
    awDispatch PORTA PORTC oob q aw =
      if (((b1 &&& 0x78) >>> 3) + ((b2 &&& 0x0f) <<< 4)) % 256
          = getDipSwitchAddress PORTA PORTC then
        if b2 &&& 0x20 = 0x20 then
          awModify (awModify aw (b1 &&& 0x07) (fun a => setCAWL a true)) (b1 &&& 0x07)
            (fun a => setCAWR a false)
        else
          awModify (awModify aw (b1 &&& 0x07) (fun a => setCAWL a false)) (b1 &&& 0x07)
            (fun a => setCAWR a true)
      else aw := by
  have hn : q.numEntries = rest.length + 3 := by
    have := toList_length q; rw [hq] at this; simpa using this.symm
  have e0 : headValue q = 0xB0 := by
    rw [headValue_eq_headD q hwf (by omega), hq]; rfl
  have e1 : rawRead oob q (q.head + 1) = b1 := by
    rw [rawRead_inside oob q hwf 1 (by omega) (by omega), hq]; rfl
  have e2 : rawRead oob q (q.head + 2) = b2 := by
    rw [rawRead_inside oob q hwf 2 (by omega) (by omega), hq]; rfl
  unfold awDispatch
  simp only [e0, e1, e2, if_true]

theorem lnRxMessageHandler_switch (PORTA PORTC : Nat) (oob : Nat → Nat) (q : lnQueue)
    (aw : List AWCON_t) (b1 b2 : Nat) (rest : List Nat) (hwf : WF q)
    (hq : toList q = 0xB0 :: b1 :: b2 :: rest)
    (hrest : ∀ b ∈ b1 :: b2 :: rest, b ≠ 0xb0 ∧ b ≠ 0x82 ∧ b ≠ 0x83) :
    (lnRxMessageHandler PORTA PORTC oob q aw).2 = awDispatch PORTA PORTC oob q aw ∧
    (lnRxMessageHandler PORTA PORTC oob q aw).1.numEntries = 0 := by
  have hn : q.numEntries = (rest.length + 2) + 1 := by
    have := toList_length q; rw [hq] at this; simpa using this.symm
  have hne : q.numEntries ≠ 0 := by omega
  have hd := toList_deQueue q hwf hne
  rw [hq] at hd
  have hd2 : toList (deQueue q) = b1 :: b2 :: rest := (List.cons.inj hd).2.symm
  unfold lnRxMessageHandler
  rw [hn]
  have e : awRxLoop PORTA PORTC oob (rest.length + 2 + 1) q aw
      = awRxLoop PORTA PORTC oob (rest.length + 2) (deQueue q)
          (awDispatch PORTA PORTC oob q aw) := by
    simp [awRxLoop, isQueueEmpty, hne]
  rw [e]
  exact awRxLoop_other PORTA PORTC oob _ (deQueue q) _ (WF_deQueue q hwf)
    (by rw [hd2]; exact hrest) (by rw [deQueue_numEntries]; omega)

theorem toList_userQueue (N : Nat) (m : List Nat) (hN : m.length ≤ N) (hpos : 0 < N)
    (hb : ∀ b ∈ m, b < 256) :
    toList (userQueue N m) = m ∧ WF (userQueue N m) ∧ (userQueue N m).head = 0 ∧
      (userQueue N m).size = N := by
  have key : ∀ (l : List Nat) (q : lnQueue), WF q → q.numEntries + l.length ≤ q.size →
      (∀ b ∈ l, b < 256) →
      toList (l.foldl enQueue q) = toList q ++ l ∧ WF (l.foldl enQueue q) ∧
        (l.foldl enQueue q).head = q.head ∧ (l.foldl enQueue q).size = q.size := by
    intro l
    induction l with
    | nil => intro q h _ _; simp [h]
    | cons a t ih =>
      intro q h hroom hb
      have hne : q.numEntries ≠ q.size := by simp at hroom; omega
      have := ih (enQueue q a) (WF_enQueue q a h (hb a (List.mem_cons_self _ _)))
        (by rw [enQueue_numEntries q a hne, enQueue_size]; simp at hroom; omega)
        (fun b hb2 => hb b (List.mem_cons_of_mem _ hb2))
      rw [toList_enQueue q a h hne, enQueue_head, enQueue_size] at this
      simpa using this
  have := key m (initQueue N) (WF_initQueue N hpos) (by simpa [initQueue] using hN) hb
  rw [toList_initQueue] at this
  simpa [userQueue, initQueue] using this

theorem msbClear_not_dispatched (b : Nat) (h : msbClear b) :
    b ≠ 0xb0 ∧ b ≠ 0x82 ∧ b ≠ 0x83 := by
  refine ⟨?_, ?_, ?_⟩ <;> (rintro rfl; exact absurd h (by decide))

theorem address_add_eq_or : ∀ x < 16, ∀ n < 16, (x + (n <<< 4)) % 256 = x ||| (n <<< 4) := by
  decide

theorem address_fields (b1 b2 : Nat) :
    (((b1 &&& 0x78) >>> 3) + ((b2 &&& 0x0f) <<< 4)) % 256
      = ((b1 &&& 0x78) >>> 3) ||| ((b2 &&& 0x0f) <<< 4) := by
  have h1 : b1 &&& 0x78 ≤ 0x78 := Nat.and_le_right
  have h2 : b2 &&& 0x0f ≤ 0x0f := Nat.and_le_right
  have h3 : (b1 &&& 0x78) >>> 3 < 16 := by
    rw [Nat.shiftRight_eq_div_pow]; omega
  exact address_add_eq_or _ h3 _ (by omega)

/-! ## The fuel of the loops is enough -/

/-- The copy loop of `rxHandler` stops because the staging queue is empty, not for lack of
fuel. -/
theorem rxCopyLoop_empties (fuel : Nat) : ∀ (tmp rx : lnQueue), tmp.numEntries ≤ fuel →
    (rxCopyLoop fuel tmp rx).1.numEntries = 0 := by
  induction fuel with
  | zero => intro tmp rx h; simpa [rxCopyLoop] using h
  | succ n ih =>
    intro tmp rx h
    by_cases he : tmp.numEntries = 0
    · simp [rxCopyLoop, isQueueEmpty, he]
    · have e : rxCopyLoop (n + 1) tmp rx
          = rxCopyLoop n (deQueue tmp) (enQueue rx (headValue tmp)) := by
        simp [rxCopyLoop, isQueueEmpty, he]
      rw [e]
      exact ih _ _ (by rw [deQueue_numEntries]; omega)

/-- The copy loop of `lnTxMessageHandler` stops because the user queue is empty. -/
theorem lnTxCopyLoop_empties (fuel : Nat) : ∀ (c : Nat) (tx u : lnQueue), u.numEntries ≤ fuel →
    (lnTxCopyLoop fuel c tx u).2.2.numEntries = 0 := by
  induction fuel with
  | zero => intro c tx u h; simpa [lnTxCopyLoop] using h
  | succ n ih =>
    intro c tx u h
    by_cases he : u.numEntries = 0
    · simp [lnTxCopyLoop, isQueueEmpty, he]
    · have e : lnTxCopyLoop (n + 1) c tx u
          = lnTxCopyLoop n (c ^^^ headValue u) (enQueue tx (headValue u)) (deQueue u) := by
        simp [lnTxCopyLoop, isQueueEmpty, he]
      rw [e]
      exact ih _ _ _ (by rw [deQueue_numEntries]; omega)

/-- The loop of the turnout callback stops because the queue is empty. -/
theorem awRxLoop_empties (PORTA PORTC : Nat) (oob : Nat → Nat) (fuel : Nat) :
    ∀ (q : lnQueue) (aw : List AWCON_t), q.numEntries ≤ fuel →
      (awRxLoop PORTA PORTC oob fuel q aw).1.numEntries = 0 := by
  induction fuel with
  | zero => intro q aw h; simpa [awRxLoop] using h
  | succ n ih =>
    intro q aw h
    by_cases he : q.numEntries = 0
    · simp [awRxLoop, isQueueEmpty, he]
    · have e : awRxLoop PORTA PORTC oob (n + 1) q aw
          = awRxLoop PORTA PORTC oob n (deQueue q) (awDispatch PORTA PORTC oob q aw) := by
        simp [awRxLoop, isQueueEmpty, he]
      rw [e]
      exact ih _ _ (by rw [deQueue_numEntries]; omega)

/-- More fuel does not change the result of the do-while loop of `startLnTxMessage`: with one
more than the number of entries the loop ends by its own condition. -/
theorem startLnTxLoop_fuel (n : Nat) : ∀ (tx temp : lnQueue), tx.numEntries ≤ n → ∀ k,
    startLnTxLoop (n + 1 + k) tx temp = startLnTxLoop (n + 1) tx temp := by
  induction n with
  | zero =>
    intro tx temp h k
    have he : tx.numEntries = 0 := by omega
    have e : 0 + 1 + k = k + 1 := by omega
    rw [e]
    simp [startLnTxLoop, deQueue_empty tx he, isQueueEmpty, he]
  | succ m ih =>
    intro tx temp h k
    have e : m + 1 + 1 + k = (m + 1 + k) + 1 := by omega
    rw [e]
    unfold startLnTxLoop
    simp only []
    split
    · exact ih _ _ (by rw [deQueue_numEntries]; omega) k
    · rfl

/-- The example of `main`: the message `[0xB2, 0x00, 0x10]`, built with `enQueue` in a user
queue of capacity at least 3 and sent into an empty TX queue of capacity at least 4. -/
theorem lnTxMessageHandler_example {σ : Type} (s : LnDriver σ) (N : Nat)
    (htx : WF s.lnTxQueue) (hempty : s.lnTxQueue.numEntries = 0)
    (hcap : 4 ≤ s.lnTxQueue.size) (hN : 3 ≤ N) :
    toList (lnTxMessageHandler s (userQueue N [0xB2, 0x00, 0x10])).1.lnTxQueue
      = [0xB2, 0x00, 0x10, 0x5D] := by
  obtain ⟨u1, u2, _, _⟩ := toList_userQueue N [0xB2, 0x00, 0x10] (by simpa using hN)
    (by omega) (by decide)
  have hn : (userQueue N [0xB2, 0x00, 0x10]).numEntries = 3 := by
    rw [← toList_length, u1]; rfl
  obtain ⟨a1, _⟩ := lnTxMessageHandler_toList s _ htx u2 (by rw [hn, hempty]; omega)
  rw [a1, u1, toList_eq_nil _ hempty]
  decide

/-! ## Status report lemmas -/

theorem getDipSwitchAddress_lt (PORTA PORTC : Nat) : getDipSwitchAddress PORTA PORTC < 256 := by
  unfold getDipSwitchAddress
  exact Nat.mod_lt _ (by decide)

set_option maxRecDepth 100000 in
/-- Every 8-bit address is the value of some setting of the DIP switches. -/
theorem getDipSwitchAddress_onto : ∀ A < 256,
    getDipSwitchAddress ((A &&& 0x03) ||| ((A &&& 0x0c) <<< 4)) (A >>> 4) = A := by
  decide

set_option maxRecDepth 100000 in
theorem awHandlerSN1_decode : ∀ A < 256, ∀ I < 8,
    awHandlerSN1 A I &&& 0x07 = I ∧ (awHandlerSN1 A I &&& 0x78) >>> 3 = A &&& 0x0f ∧
    awHandlerSN1 A I = (((A <<< 3) &&& 0x78) ||| I) &&& 0x7F ∧
    awHandlerSN1 A I &&& 0x80 = 0 ∧ awHandlerSN1 A I < 256 := by
  decide

set_option maxRecDepth 100000 in
theorem awHandlerSN2_bits : ∀ A < 256, ∀ kl kr : Bool,
    ((awHandlerSN2 A ⟨false, false, false, false, kl, kr⟩ &&& 0x0f) <<< 4 = A &&& 0xf0) ∧
    (awHandlerSN2 A ⟨false, false, false, false, kl, kr⟩ &&& 0x0f = (A >>> 4) &&& 0x0f) ∧
    (awHandlerSN2 A ⟨false, false, false, false, kl, kr⟩ &&& 0x10 = 0x10 ↔ kr = true) ∧
    (awHandlerSN2 A ⟨false, false, false, false, kl, kr⟩ &&& 0x20 = 0x20 ↔ kl = true) ∧
    awHandlerSN2 A ⟨false, false, false, false, kl, kr⟩ &&& 0xc0 = 0 ∧
    awHandlerSN2 A ⟨false, false, false, false, kl, kr⟩ &&& 0x80 = 0 ∧
    awHandlerSN2 A ⟨false, false, false, false, kl, kr⟩ < 256 := by
  decide

/-- The byte SN2 depends on the two feedback bits of the record only. -/
theorem awHandlerSN2_feedback (A : Nat) (aw : AWCON_t) :
    awHandlerSN2 A aw = awHandlerSN2 A ⟨false, false, false, false, aw.KAWL, aw.KAWR⟩ := rfl

set_option maxRecDepth 100000 in
theorem nibbles_add : ∀ A < 256, (A &&& 0x0f) + (A &&& 0xf0) = A := by decide

theorem toList_awHandlerMsg (PORTA PORTC : Nat) (lnTxMsg : lnQueue) (aw : AWCON_t)
    (index : Nat) (hI : index < 8) (hwf : WF lnTxMsg) (hempty : lnTxMsg.numEntries = 0)
    (hcap : 3 ≤ lnTxMsg.size) :
    toList (awHandlerMsg PORTA PORTC lnTxMsg aw index)
      = [0xB1, awHandlerSN1 (getDipSwitchAddress PORTA PORTC) index,
          awHandlerSN2 (getDipSwitchAddress PORTA PORTC) aw] ∧
    WF (awHandlerMsg PORTA PORTC lnTxMsg aw index) ∧
    (awHandlerMsg PORTA PORTC lnTxMsg aw index).numEntries = 3 := by
  have hA := getDipSwitchAddress_lt PORTA PORTC
  have h1 := (awHandlerSN1_decode _ hA index hI).2.2.2.2
  have h2 : awHandlerSN2 (getDipSwitchAddress PORTA PORTC) aw < 256 := by
    rw [awHandlerSN2_feedback]; exact (awHandlerSN2_bits _ hA _ _).2.2.2.2.2.2
  have w1 := WF_enQueue lnTxMsg 0xB1 hwf (by decide)
  have n1 := enQueue_numEntries lnTxMsg 0xB1 (by omega)
  have t1 := toList_enQueue lnTxMsg 0xB1 hwf (by omega)
  have w2 := WF_enQueue _ (awHandlerSN1 (getDipSwitchAddress PORTA PORTC) index) w1 h1
  have n2 := enQueue_numEntries (enQueue lnTxMsg 0xB1)
    (awHandlerSN1 (getDipSwitchAddress PORTA PORTC) index) (by rw [n1, enQueue_size]; omega)
  have t2 := toList_enQueue (enQueue lnTxMsg 0xB1)
    (awHandlerSN1 (getDipSwitchAddress PORTA PORTC) index) w1 (by rw [n1, enQueue_size]; omega)
  have w3 := WF_enQueue _ (awHandlerSN2 (getDipSwitchAddress PORTA PORTC) aw) w2 h2
  have n3 := enQueue_numEntries (enQueue (enQueue lnTxMsg 0xB1)
    (awHandlerSN1 (getDipSwitchAddress PORTA PORTC) index))
    (awHandlerSN2 (getDipSwitchAddress PORTA PORTC) aw)
    (by rw [n2, n1, enQueue_size, enQueue_size]; omega)
  have t3 := toList_enQueue (enQueue (enQueue lnTxMsg 0xB1)
    (awHandlerSN1 (getDipSwitchAddress PORTA PORTC) index))
    (awHandlerSN2 (getDipSwitchAddress PORTA PORTC) aw) w2
    (by rw [n2, n1, enQueue_size, enQueue_size]; omega)
  rw [t2, t1, toList_eq_nil _ hempty] at t3
  refine ⟨t3, w3, ?_⟩
  show (enQueue _ _).numEntries = 3
  rw [n3, n2, n1, hempty]

/-- A framed message with opcode `0xB1` and two payload bytes is a valid message of four
bytes. -/
theorem validMessage_report (sn1 sn2 : Nat) (h1 : msbClear sn1) (h2 : msbClear sn2) :
    validMessage [0xB1, sn1, sn2, 0xFF ^^^ xorAll [0xB1, sn1, sn2]] := by
  have hck : msbClear (0xFF ^^^ xorAll [0xB1, sn1, sn2]) := by
    have a1 : sn1 &&& 0x80 = 0 := h1
    have a2 : sn2 &&& 0x80 = 0 := h2
    show (0xFF ^^^ xorAll [0xB1, sn1, sn2]) &&& 0x80 = 0
    rw [xorAll_cons, xorAll_cons, xorAll_cons, xorAll_nil, Nat.and_xor_distrib_right,
      Nat.and_xor_distrib_right, Nat.and_xor_distrib_right, Nat.and_xor_distrib_right, a1, a2]
    rfl
  refine ⟨by simp, (by decide : msbSet 0xB1), ?_, by simp [sizeClassLength],
    xorAll_framed [0xB1, sn1, sn2]⟩
  intro b hb
  simp only [List.tail_cons, List.mem_cons, List.mem_singleton, List.not_mem_nil,
    or_false] at hb
  rcases hb with rfl | rfl | rfl
  · exact h1
  · exact h2
  · exact hck

/-! ## Turnout command lemmas -/

theorem awModify_awModify (aw : List AWCON_t) (i : Nat) (f g : AWCON_t → AWCON_t) :
    awModify (awModify aw i f) i g = awModify aw i (fun a => g (f a)) := by
  by_cases hi : i < aw.length
  · have : awGet (awModify aw i f) i = f (awGet aw i) := awGet_awModify aw i f hi
    unfold awModify at this ⊢
    rw [this, List.set_set]
  · have h1 : ∀ x, aw.set i x = aw := fun x => List.set_eq_of_length_le (by omega)
    unfold awModify
    rw [h1, h1, h1]

theorem mem_awModify (aw : List AWCON_t) (i : Nat) (f : AWCON_t → AWCON_t) (P : AWCON_t → Prop)
    (hf : ∀ a, P a → P (f a)) (h : ∀ a ∈ aw, P a) : ∀ a ∈ awModify aw i f, P a := by
  intro a ha
  by_cases hi : i < aw.length
  · rcases List.mem_or_eq_of_mem_set ha with ha | ha
    · exact h a ha
    · rw [ha]
      apply hf
      apply h
      unfold awGet
      rw [List.getD_eq_getElem _ _ hi]
      exact List.getElem_mem _
  · unfold awModify at ha
    rw [List.set_eq_of_length_le (by omega)] at ha
    exact h a ha

/-- The two commands and the two memories of a turnout are both exclusive. -/
theorem exclusive_switch_left (a : AWCON_t) :
    commandsExclusive (setCAWR (setCAWL a true) false) ∧
      memoryExclusive (setCAWR (setCAWL a true) false) := by
  simp [commandsExclusive, memoryExclusive, setCAWL, setCAWR]

theorem exclusive_switch_right (a : AWCON_t) :
    commandsExclusive (setCAWR (setCAWL a false) true) ∧
      memoryExclusive (setCAWR (setCAWL a false) true) := by
  simp [commandsExclusive, memoryExclusive, setCAWL, setCAWR]

theorem exclusive_off (a : AWCON_t) (h : commandsExclusive a ∧ memoryExclusive a) :
    commandsExclusive (setCAWR (setCAWL a false) false) ∧
      memoryExclusive (setCAWR (setCAWL a false) false) := by
  obtain ⟨_, h2⟩ := h
  refine ⟨by simp [commandsExclusive, setCAWL, setCAWR], ?_⟩
  simpa [memoryExclusive, setCAWL, setCAWR] using h2

theorem exclusive_on (a : AWCON_t) (h : commandsExclusive a ∧ memoryExclusive a) :
    commandsExclusive (setCAWR (setCAWL a a.CAWL_mem) (setCAWL a a.CAWL_mem).CAWR_mem) ∧
      memoryExclusive (setCAWR (setCAWL a a.CAWL_mem) (setCAWL a a.CAWL_mem).CAWR_mem) := by
  obtain ⟨_, h2⟩ := h
  rcases a with ⟨cl, cr, ml, mr, kl, kr⟩
  cases ml <;> cases mr <;>
    simp_all [commandsExclusive, memoryExclusive, setCAWL, setCAWR]

/-- The step of the global-on loop is one update of the record at `index`. -/
theorem awModify_on (aw : List AWCON_t) (index : Nat) :
    awModify (awModify aw index (fun a => setCAWL a (awGet aw index).CAWL_mem)) index
      (fun a => setCAWR a
        (awGet (awModify aw index (fun a => setCAWL a (awGet aw index).CAWL_mem))
          index).CAWR_mem)
    = awModify aw index
        (fun a => setCAWR (setCAWL a a.CAWL_mem) (setCAWL a a.CAWL_mem).CAWR_mem) := by
  by_cases hi : index < aw.length
  · rw [awGet_awModify aw index _ hi, awModify_awModify]
    unfold awModify
    rfl
  · have h1 : ∀ x, aw.set index x = aw := fun x => List.set_eq_of_length_le (by omega)
    unfold awModify
    rw [h1, h1, h1]

theorem foldl_awModify_inv (P : AWCON_t → Prop) (step : List AWCON_t → Nat → List AWCON_t)
    (hstep : ∀ aw i, (∀ a ∈ aw, P a) → ∀ a ∈ step aw i, P a) (l : List Nat) :
    ∀ aw, (∀ a ∈ aw, P a) → ∀ a ∈ l.foldl step aw, P a := by
  induction l with
  | nil => intro aw h; exact h
  | cons i t ih => intro aw h; exact ih _ (hstep aw i h)

/-- The dispatcher keeps the commands and the memories of every turnout exclusive, whatever
the queue holds and whatever is read past the end of its array. -/
theorem awDispatch_exclusive (PORTA PORTC : Nat) (oob : Nat → Nat) (q : lnQueue)
    (aw : List AWCON_t) (h : ∀ a ∈ aw, commandsExclusive a ∧ memoryExclusive a) :
    ∀ a ∈ awDispatch PORTA PORTC oob q aw, commandsExclusive a ∧ memoryExclusive a := by
  unfold awDispatch
  simp only []
  split
  · split
    · split
      · rw [awModify_awModify]
        exact mem_awModify aw _ _ _ (fun a _ => exclusive_switch_left a) h
      · rw [awModify_awModify]
        exact mem_awModify aw _ _ _ (fun a _ => exclusive_switch_right a) h
    · exact h
  · split
    · apply foldl_awModify_inv _ _ _ _ aw h
      intro aw2 i h2
      rw [awModify_awModify]
      exact mem_awModify aw2 _ _ _ (fun a ha => exclusive_off a ha) h2
    · split
      · apply foldl_awModify_inv _ _ _ _ aw h
        intro aw2 i h2
        rw [awModify_on]
        exact mem_awModify aw2 _ _ _ (fun a ha => exclusive_on a ha) h2
      · exact h

theorem awRxLoop_exclusive (PORTA PORTC : Nat) (oob : Nat → Nat) (fuel : Nat) :
    ∀ (q : lnQueue) (aw : List AWCON_t),
      (∀ a ∈ aw, commandsExclusive a ∧ memoryExclusive a) →
      ∀ a ∈ (awRxLoop PORTA PORTC oob fuel q aw).2, commandsExclusive a ∧ memoryExclusive a := by
  induction fuel with
  | zero => intro q aw h; exact h
  | succ n ih =>
    intro q aw h
    unfold awRxLoop
    split
    · exact ih _ _ (awDispatch_exclusive PORTA PORTC oob q aw h)
    · exact h

theorem awRun_exclusive (PORTA PORTC : Nat) (msgs : List (lnQueue × (Nat → Nat))) :
    ∀ (aw : List AWCON_t), (∀ a ∈ aw, commandsExclusive a ∧ memoryExclusive a) →
      ∀ a ∈ awRun PORTA PORTC aw msgs, commandsExclusive a ∧ memoryExclusive a := by
  induction msgs with
  | nil => intro aw h; exact h
  | cons x t ih =>
    intro aw h
    exact ih _ (awRxLoop_exclusive PORTA PORTC x.2 _ x.1 aw h)

theorem awDispatch_length (PORTA PORTC : Nat) (oob : Nat → Nat) (q : lnQueue)
    (aw : List AWCON_t) : (awDispatch PORTA PORTC oob q aw).length = aw.length := by
  have hfold : ∀ (step : List AWCON_t → Nat → List AWCON_t),
      (∀ aw i, (step aw i).length = aw.length) →
      ∀ (l : List Nat) (aw : List AWCON_t), (l.foldl step aw).length = aw.length := by
    intro step hs l
    induction l with
    | nil => intro aw; rfl
    | cons i t ih => intro aw; rw [List.foldl_cons, ih, hs]
  unfold awDispatch
  simp only []
  split
  · split
    · split <;> simp [awModify_length]
    · rfl
  · split
    · exact hfold _ (fun aw i => by simp [awModify_length]) _ aw
    · split
      · exact hfold _ (fun aw i => by simp [awModify_length]) _ aw
      · rfl

theorem awRxLoop_length (PORTA PORTC : Nat) (oob : Nat → Nat) (fuel : Nat) :
    ∀ (q : lnQueue) (aw : List AWCON_t),
      (awRxLoop PORTA PORTC oob fuel q aw).2.length = aw.length := by
  induction fuel with
  | zero => intro q aw; rfl
  | succ n ih =>
    intro q aw
    unfold awRxLoop
    split
    · rw [ih, awDispatch_length]
    · rfl

theorem awRun_length (PORTA PORTC : Nat) (msgs : List (lnQueue × (Nat → Nat))) :
    ∀ (aw : List AWCON_t), (awRun PORTA PORTC aw msgs).length = aw.length := by
  induction msgs with
  | nil => intro aw; rfl
  | cons x t ih =>
    intro aw
    show (awRun PORTA PORTC _ t).length = _
    rw [ih]
    exact awRxLoop_length PORTA PORTC x.2 _ x.1 aw

theorem awGet_mem (aw : List AWCON_t) (i : Nat) (hi : i < aw.length) : awGet aw i ∈ aw := by
  unfold awGet
  rw [List.getD_eq_getElem _ _ hi]
  exact List.getElem_mem _

/-- The handler dispatches on the first byte only when no later byte is one of the three
opcodes it knows, and it leaves the queue empty. -/
theorem lnRxMessageHandler_first (PORTA PORTC : Nat) (oob : Nat → Nat) (q : lnQueue)
    (aw : List AWCON_t) (op : Nat) (rest : List Nat) (hwf : WF q)
    (hq : toList q = op :: rest)
    (hrest : ∀ b ∈ rest, b ≠ 0xb0 ∧ b ≠ 0x82 ∧ b ≠ 0x83) :
    (lnRxMessageHandler PORTA PORTC oob q aw).2 = awDispatch PORTA PORTC oob q aw ∧
    (lnRxMessageHandler PORTA PORTC oob q aw).1.numEntries = 0 := by
  have hn : q.numEntries = rest.length + 1 := by
    have := toList_length q; rw [hq] at this; simpa using this.symm
  have hne : q.numEntries ≠ 0 := by omega
  have hd := toList_deQueue q hwf hne
  rw [hq] at hd
  have hd2 : toList (deQueue q) = rest := (List.cons.inj hd).2.symm
  unfold lnRxMessageHandler
  rw [hn]
  have e : awRxLoop PORTA PORTC oob (rest.length + 1) q aw
      = awRxLoop PORTA PORTC oob rest.length (deQueue q)
          (awDispatch PORTA PORTC oob q aw) := by
    simp [awRxLoop, isQueueEmpty, hne]
  rw [e]
  exact awRxLoop_other PORTA PORTC oob _ (deQueue q) _ (WF_deQueue q hwf)
    (by rw [hd2]; exact hrest) (by rw [deQueue_numEntries]; omega)

theorem range_eight : List.range 8 = [0, 1, 2, 3, 4, 5, 6, 7] := by decide

/-- The global-off branch on eight turnout records. -/
theorem awDispatch_off (PORTA PORTC : Nat) (oob : Nat → Nat) (q : lnQueue)
    (aw : List AWCON_t) (hq : headValue q = 0x82) (haw : aw.length = 8) :
    awDispatch PORTA PORTC oob q aw
      = aw.map (fun a => { a with CAWL := false, CAWR := false }) := by
  unfold awDispatch
  simp only [hq]
  rw [if_neg (by decide), if_pos trivial, range_eight]
  match aw, haw with
  | [a0, a1, a2, a3, a4, a5, a6, a7], _ =>
    simp [awModify, awGet, setCAWL, setCAWR]

/-! ## Servo engine lemmas -/

theorem servoIsrTmr3_pinIndex {α : Type} (cb : Nat → List Nat → α → List Nat × α)
    (s : Servo α) (hp : s.pinIndex < 8) :
    (servoIsrTmr3 cb s).pinIndex = (s.pinIndex + 1) % 8 := by
  have h1 : (s.pinIndex + 1) % 256 = s.pinIndex + 1 := Nat.mod_eq_of_lt (by omega)
  show (if (s.pinIndex + 1) % 256 = 8 then 0 else (s.pinIndex + 1) % 256) = _
  rw [h1]
  split <;> omega

theorem servoIsrTmr3_LATD {α : Type} (cb : Nat → List Nat → α → List Nat × α) (s : Servo α) :
    (servoIsrTmr3 cb s).LATD = (0x01 <<< (servoIsrTmr3 cb s).pinIndex) % 256 := rfl

theorem servoIsrTmr3_callbacks {α : Type} (cb : Nat → List Nat → α → List Nat × α)
    (s : Servo α) :
    (servoIsrTmr3 cb s).callbacks = s.callbacks ++ [(servoIsrTmr3 cb s).pinIndex] := rfl

theorem servoTicks_pinIndex {α : Type} (cb : Nat → List Nat → α → List Nat × α) (n : Nat) :
    ∀ (s : Servo α), s.pinIndex < 8 → (servoTicks cb n s).pinIndex = (s.pinIndex + n) % 8 := by
  induction n with
  | zero => intro s hp; exact (Nat.mod_eq_of_lt hp).symm
  | succ k ih =>
    intro s hp
    have h1 := servoIsrTmr3_pinIndex cb s hp
    show (servoTicks cb k (servoIsrTmr3 cb s)).pinIndex = _
    rw [ih _ (by rw [h1]; exact Nat.mod_lt _ (by decide)), h1]
    omega

/-- One pin high: among the eight pins of port D, bit `j` of `1 << p` is set exactly when
`j = p`. -/
theorem one_hot_bits : ∀ p < 8, (0x01 <<< p) % 256 = 1 <<< p ∧
    ∀ j < 8, (1 <<< p).testBit j = decide (j = p) := by
  decide

theorem rotation_visits_all : ∀ p < 8,
    ((List.range 8).map (fun k => (p + (k + 1)) % 8)).Perm (List.range 8) := by
  decide

/-- Invariant of the servo engine: the pin index is below 8 and port D is all low or has
exactly the selected pin high. -/
theorem servoIsr_inv {α : Type} (cb : Nat → List Nat → α → List Nat × α)
    (TMR3IF CCP1IF : Bool) (s : Servo α)
    (h : s.pinIndex < 8 ∧ (s.LATD = 0 ∨ s.LATD = 1 <<< s.pinIndex)) :
    (servoIsr cb TMR3IF CCP1IF s).pinIndex < 8 ∧
      ((servoIsr cb TMR3IF CCP1IF s).LATD = 0 ∨
        (servoIsr cb TMR3IF CCP1IF s).LATD = 1 <<< (servoIsr cb TMR3IF CCP1IF s).pinIndex) := by
  have hp : (servoIsrTmr3 cb s).pinIndex < 8 := by
    rw [servoIsrTmr3_pinIndex cb s h.1]; exact Nat.mod_lt _ (by decide)
  have hl : (servoIsrTmr3 cb s).LATD = 1 <<< (servoIsrTmr3 cb s).pinIndex := by
    rw [servoIsrTmr3_LATD]; exact (one_hot_bits _ hp).1
  cases TMR3IF <;> cases CCP1IF
  · exact h
  · exact ⟨h.1, Or.inl rfl⟩
  · exact ⟨hp, Or.inr hl⟩
  · exact ⟨hp, Or.inl rfl⟩

theorem servoRun_inv {α : Type} (cb : Nat → List Nat → α → List Nat × α)
    (events : List (Bool × Bool)) : ∀ (s : Servo α),
    (s.pinIndex < 8 ∧ (s.LATD = 0 ∨ s.LATD = 1 <<< s.pinIndex)) →
    (servoRun cb s events).pinIndex < 8 ∧
      ((servoRun cb s events).LATD = 0 ∨
        (servoRun cb s events).LATD = 1 <<< (servoRun cb s events).pinIndex) := by
  induction events with
  | nil => intro s h; exact h
  | cons e t ih => intro s h; exact ih _ (servoIsr_inv cb e.1 e.2 s h)

theorem no_two_pins (LATD p : Nat) (hp : p < 8) (h : LATD = 0 ∨ LATD = 1 <<< p) (i j : Nat)
    (hi : i < 8) (hj : j < 8) (bi : LATD.testBit i = true) (bj : LATD.testBit j = true) :
    i = j := by
  rcases h with h | h
  · rw [h] at bi; simp at bi
  · rw [h] at bi bj
    rw [(one_hot_bits p hp).2 i hi] at bi
    rw [(one_hot_bits p hp).2 j hj] at bj
    simp at bi bj
    omega

/-! ## Sweep and timer lemmas -/

theorem GRADIENT_eq : GRADIENT = 16 := by decide

theorem fullRateWidth_step (k : Nat) : fullRateWidth (k + 1) ≤ fullRateWidth k + GRADIENT := by
  unfold fullRateWidth
  rw [GRADIENT_eq]
  simp only [SERVO_MAX, SERVO_MIN]
  omega

/-- A width that starts at `SERVO_MIN` and gains at most `GRADIENT` per frame is at most
`SERVO_MIN + k * GRADIENT` after `k` frames. -/
theorem sweep_bound (w : Nat → Nat) (h0 : w 0 = SERVO_MIN)
    (hstep : ∀ k, w (k + 1) ≤ w k + GRADIENT) (k : Nat) : w k ≤ SERVO_MIN + k * GRADIENT := by
  induction k with
  | zero => rw [h0]; omega
  | succ n ih =>
    have := hstep n
    rw [Nat.add_mul]
    omega

theorem startCmpDelay_TMR1 {σ : Type} (s : LnDriver σ) :
    (startCmpDelay s).TMR1 = 65535 - (3120 + (getRandomValue s.lastRandomValue &&& 2047)) := by
  have h : getRandomValue s.lastRandomValue &&& 2047 ≤ 2047 := Nat.and_le_right
  show 65535 - ((getRandomValue s.lastRandomValue &&& (2048 - 1)) + 3120) % 65536 = _
  have e : (2048 - 1 : Nat) = 2047 := rfl
  rw [e, Nat.mod_eq_of_lt (by omega), Nat.add_comm]

/-- The echo branch of `lnIsrRc` when bytes remain: the received byte equals the byte at the
head of the TX temporary queue and the queue is not empty after the dequeue. -/
theorem lnIsrRc_echo_more {σ : Type} (cb : lnQueue → σ → lnQueue × σ) (oob : Nat → Nat)
    (RC7 RCIDL : Bool) (s : LnDriver σ) (hne : s.lnTxTempQueue.numEntries ≠ 0)
    (h2 : (deQueue s.lnTxTempQueue).numEntries ≠ 0) :
    lnIsrRc cb oob RC7 RCIDL (headValue s.lnTxTempQueue) s
      = txHandler RC7 RCIDL { s with lnTxTempQueue := deQueue s.lnTxTempQueue } := by
  have e1 : (!isQueueEmpty s.lnTxTempQueue) = true := by simp [isQueueEmpty, hne]
  have e2 : (!isQueueEmpty (deQueue s.lnTxTempQueue)) = true := by simp [isQueueEmpty, h2]
  unfold lnIsrRc
  dsimp only
  rw [if_pos e1, if_pos rfl, if_pos e2]

/-- The echo branch of `lnIsrRc` for the last byte. -/
theorem lnIsrRc_echo_last {σ : Type} (cb : lnQueue → σ → lnQueue × σ) (oob : Nat → Nat)
    (RC7 RCIDL : Bool) (s : LnDriver σ) (hne : s.lnTxTempQueue.numEntries ≠ 0)
    (h2 : (deQueue s.lnTxTempQueue).numEntries = 0) :
    lnIsrRc cb oob RC7 RCIDL (headValue s.lnTxTempQueue) s
      = { startCmpDelay { s with lnTxTempQueue := deQueue s.lnTxTempQueue } with
          LATE1 := false } := by
  have e1 : (!isQueueEmpty s.lnTxTempQueue) = true := by simp [isQueueEmpty, hne]
  have e2 : ¬ ((!isQueueEmpty (deQueue s.lnTxTempQueue)) = true) := by simp [isQueueEmpty, h2]
  unfold lnIsrRc
  dsimp only
  rw [if_pos e1, if_pos rfl, if_neg e2]

/-- The mismatch branch of `lnIsrRc`. -/
theorem lnIsrRc_mismatch {σ : Type} (cb : lnQueue → σ → lnQueue × σ) (oob : Nat → Nat)
    (RC7 RCIDL : Bool) (RC1REG : Nat) (s : LnDriver σ) (hne : s.lnTxTempQueue.numEntries ≠ 0)
    (hmis : RC1REG ≠ headValue s.lnTxTempQueue) :
    lnIsrRc cb oob RC7 RCIDL RC1REG s = startLinebreak s 1800 := by
  have e1 : (!isQueueEmpty s.lnTxTempQueue) = true := by simp [isQueueEmpty, hne]
  unfold lnIsrRc
  dsimp only
  rw [if_pos e1, if_neg hmis]

/-- The staging side of the loop of `startLnTxMessage`: the first byte of the TX queue and the
bytes with the high bit clear that follow it are appended to the staging queue, when it has
room for them. -/
theorem startLnTxLoop_staging (fuel : Nat) : ∀ (tx temp : lnQueue) (a : Nat) (pl rest : List Nat),
    WF tx → WF temp → toList tx = a :: (pl ++ rest) → (∀ b ∈ pl, msbClear b) →
    (rest = [] ∨ msbSet (rest.headD 0)) → pl.length < fuel →
    temp.numEntries + pl.length + 1 ≤ temp.size →
    toList (startLnTxLoop fuel tx temp).2 = toList temp ++ a :: pl ∧
    WF (startLnTxLoop fuel tx temp).2 ∧ (startLnTxLoop fuel tx temp).2.size = temp.size := by
  induction fuel with
  | zero => intro _ _ _ _ _ _ _ _ _ _ h; omega
  | succ n ih =>
    intro tx temp a pl rest hwf hwt htl hpl hrest hfuel hroom
    have hne := numEntries_ne_zero_of_toList tx a _ htl
    have hd := toList_deQueue tx hwf hne
    have hh : headValue tx = a := by rw [headValue_eq_headD _ hwf hne, htl]; rfl
    rw [htl, hh] at hd
    have hd2 : toList (deQueue tx) = pl ++ rest := (List.cons.inj hd).2.symm
    have hwf2 := WF_deQueue tx hwf
    have ha : a < 256 := by rw [← hh]; exact headValue_lt tx hwf
    have hnf : temp.numEntries ≠ temp.size := by omega
    have ht1 : toList (enQueue temp a) = toList temp ++ [a] := toList_enQueue temp a hwt hnf
    have hwt1 : WF (enQueue temp a) := WF_enQueue temp a hwt ha
    have hn1 : (enQueue temp a).numEntries = temp.numEntries + 1 := enQueue_numEntries temp a hnf
    have hs1 : (enQueue temp a).size = temp.size := enQueue_size temp a
    unfold startLnTxLoop
    simp only []
    rw [hh]
    match pl, hpl, hd2, hfuel, hroom with
    | [], _, hd2, _, _ =>
      rw [List.nil_append] at hd2
      rcases hrest with hr | hr
      · have he : (deQueue tx).numEntries = 0 := by
          have := toList_length (deQueue tx); rw [hd2, hr] at this; simpa using this.symm
        simp [isQueueEmpty, he, ht1, hwt1, hs1]
      · have hne2 : (deQueue tx).numEntries ≠ 0 := by
          intro e
          rw [toList_eq_nil _ e] at hd2
          rw [← hd2] at hr
          exact absurd hr (by decide)
        have hv : headValue (deQueue tx) &&& 0x80 = 0x80 := by
          rw [headValue_eq_headD _ hwf2 hne2, hd2]; exact hr
        simp [hv, ht1, hwt1, hs1]
    | p :: pl2, hpl, hd2, hfuel, hroom =>
      have hne2 := numEntries_ne_zero_of_toList (deQueue tx) p _ hd2
      have hv : headValue (deQueue tx) &&& 0x80 = 0 := by
        rw [headValue_eq_headD _ hwf2 hne2, hd2]; exact hpl p (List.mem_cons_self _ _)
      have hc : (!isQueueEmpty (deQueue tx) && (headValue (deQueue tx) &&& 0x80) != 0x80)
          = true := by
        simp [isQueueEmpty, hne2, hv]
      rw [if_pos hc]
      obtain ⟨h1, h2, h3⟩ := ih (deQueue tx) (enQueue temp a) p pl2 rest hwf2 hwt1 hd2
        (fun b hb => hpl b (List.mem_cons_of_mem _ hb)) hrest (by simp at hfuel; omega)
        (by rw [hn1, hs1]; simp at hroom; omega)
      rw [h1, ht1, h3, hs1]
      exact ⟨by simp, h2, rfl⟩

/-- The routine `startLnTxMessage` on a TX queue holding `a`, then bytes `pl` with the high bit
clear, then `rest` (empty or starting with an opcode), with room for `a :: pl` in the staging
queue: `a :: pl` is appended to the staging queue, `rest` stays in the TX queue, and the mode
is 3. -/
theorem startLnTxMessage_spec {σ : Type} (s : LnDriver σ) (a : Nat) (pl rest : List Nat)
    (htx : WF s.lnTxQueue) (htemp : WF s.lnTxTempQueue)
    (hq : toList s.lnTxQueue = a :: (pl ++ rest)) (hpl : ∀ b ∈ pl, msbClear b)
    (hrest : rest = [] ∨ msbSet (rest.headD 0))
    (hroom : s.lnTxTempQueue.numEntries + pl.length + 1 ≤ s.lnTxTempQueue.size) :
    toList (startLnTxMessage s).lnTxTempQueue = toList s.lnTxTempQueue ++ a :: pl ∧
    toList (startLnTxMessage s).lnTxQueue = rest ∧
    (startLnTxMessage s).TMR1_MODE = 3 ∧
    WF (startLnTxMessage s).lnTxTempQueue ∧ WF (startLnTxMessage s).lnTxQueue := by
  have hlen : pl.length < s.lnTxQueue.numEntries + 1 := by
    have := toList_length s.lnTxQueue; rw [hq] at this; simp at this; omega
  obtain ⟨h1, h2⟩ := startLnTxLoop_spec _ s.lnTxQueue s.lnTxTempQueue a pl rest htx hq hpl
    hrest hlen
  obtain ⟨h3, h4, _⟩ := startLnTxLoop_staging _ s.lnTxQueue s.lnTxTempQueue a pl rest htx htemp
    hq hpl hrest hlen hroom
  exact ⟨h3, h1, rfl, h4, h2⟩

theorem shortFrame_enQueue (q : lnQueue) (b : Nat) (hb : b < 256) (h : shortFrame q) :
    shortFrame (enQueue q b) := by
  by_cases hf : q.numEntries = q.size
  · rw [enQueue_full q b hf]; exact h
  · have hlt : q.numEntries < q.size := lt_of_le_of_ne h.wf.count_le hf
    have ht : q.tail = q.numEntries := by
      rw [h.wf.tail_eq, h.head_zero, Nat.zero_add, Nat.mod_eq_of_lt hlt]
    have h2 := h.two_le
    have hv : (enQueue q b).values = q.values.set q.numEntries b := by
      simp [enQueue, isQueueFull, hf, ht]
    refine ⟨WF_enQueue q b h.wf hb, by rw [enQueue_head]; exact h.head_zero,
      by rw [enQueue_numEntries q b hf]; omega, ?_, ?_⟩
    · have e : headValue (enQueue q b) = headValue q := by
        unfold headValue
        rw [enQueue_head, hv, h.head_zero, List.getD_eq_getElem?_getD, List.getD_eq_getElem?_getD,
          List.getElem?_set_ne (by omega)]
      rw [e]; exact h.opcode
    · rw [hv, List.getD_eq_getElem?_getD, List.getElem?_set_ne (by omega),
        ← List.getD_eq_getElem?_getD]
      exact h.second

theorem shortFrame_length (oob : Nat → Nat) (q : lnQueue) (h : shortFrame q) :
    rxMessageLength oob q ≠ q.numEntries := by
  have hlen : 1 < q.values.length := by
    rw [h.wf.length_values]; have := h.wf.count_le; have := h.two_le; omega
  have e : rxMessageLength oob q = q.values.getD 1 0 := by
    unfold rxMessageLength
    simp only [h.opcode, h.head_zero, rawRead, hlen]
    simp
  rw [e]
  have := h.second; have := h.two_le
  omega

/-- Inside such a frame a byte with the high bit clear is queued (or dropped when the queue is
full) and nothing is delivered. -/
theorem rxHandler_shortFrame {σ : Type} (cb : lnQueue → σ → lnQueue × σ) (oob : Nat → Nat)
    (s : LnDriver σ) (b : Nat) (hb : msbClear b) (hb2 : b < 256)
    (h : shortFrame s.lnRxTempQueue) :
    rxHandler cb oob s b = { s with lnRxTempQueue := enQueue s.lnRxTempQueue b } ∧
    shortFrame (rxHandler cb oob s b).lnRxTempQueue := by
  have hn : ¬ (b &&& 0x80 = 0x80) := by
    have : b &&& 0x80 = 0 := hb
    rw [this]; decide
  have h1 := shortFrame_enQueue _ b hb2 h
  have e := rxHandler_keep cb oob s b hn (Or.inl (shortFrame_length oob _ h1))
  rw [e]
  exact ⟨rfl, h1⟩

theorem rxRun_shortFrame {σ : Type} (cb : lnQueue → σ → lnQueue × σ)
    (pl : List (Nat × (Nat → Nat))) : ∀ (s : LnDriver σ), shortFrame s.lnRxTempQueue →
    (∀ x ∈ pl, msbClear x.1 ∧ x.1 < 256) →
    (rxRun cb s pl).callbacks = s.callbacks ∧ (rxRun cb s pl).lnRxQueue = s.lnRxQueue ∧
    (rxRun cb s pl).app = s.app := by
  induction pl with
  | nil => intro s _ _; exact ⟨rfl, rfl, rfl⟩
  | cons x t ih =>
    intro s h hpl
    obtain ⟨hx1, hx2⟩ := hpl x (List.mem_cons_self _ _)
    obtain ⟨e, h1⟩ := rxHandler_shortFrame cb x.2 s x.1 hx1 hx2 h
    have := ih (rxHandler cb x.2 s x.1) h1 (fun y hy => hpl y (List.mem_cons_of_mem _ hy))
    rw [rxRun_cons, this.1, this.2.1, this.2.2, e]
    exact ⟨rfl, rfl, rfl⟩

/-- After an opcode with bits 6..5 set and a second byte below 2, the RX staging queue is
inside a frame of declared length below 2. -/
theorem shortFrame_start (q : lnQueue) (op L : Nat) (hwf : WF q) (hs : 2 ≤ q.size)
    (hop : op &&& 0x60 = 0x60) (hop2 : op < 256) (hL : L < 2) :
    shortFrame (enQueue (enQueue (clearQueue q) op) L) := by
  have hc := WF_clearQueue q hwf
  have hlen := hwf.length_values
  have e1 : enQueue (clearQueue q) op
      = { q with values := q.values.set 0 op, head := 0, tail := 1 % q.size, numEntries := 1 } := by
    have : ¬ (0 = q.size) := by omega
    simp [enQueue, clearQueue, isQueueFull, this]
  have e2 : enQueue (enQueue (clearQueue q) op) L
      = { q with values := (q.values.set 0 op).set 1 L, head := 0,
                 tail := (1 % q.size + 1) % q.size, numEntries := 2 } := by
    rw [e1]
    have : ¬ (1 = q.size) := by omega
    have h1 : 1 % q.size = 1 := Nat.mod_eq_of_lt (by omega)
    simp [enQueue, isQueueFull, this, h1]
  have hw : WF (enQueue (enQueue (clearQueue q) op) L) :=
    WF_enQueue _ L (WF_enQueue _ op hc hop2) (by omega)
  refine ⟨hw, by rw [e2], by rw [e2], ?_, ?_⟩
  · rw [e2]
    show ((q.values.set 0 op).set 1 L).getD 0 0 &&& 0x60 = 0x60
    rw [List.getD_eq_getElem?_getD, List.getElem?_set_ne (by omega),
      List.getElem?_set_eq_of_lt _ (by omega)]
    exact hop
  · rw [e2]
    show ((q.values.set 0 op).set 1 L).getD 1 0 < 2
    rw [List.getD_eq_getElem?_getD, List.getElem?_set_eq_of_lt _ (by simp; omega)]
    exact hL

/-! ## Shift register lemmas -/

theorem getRandomValue_odd (x : Nat) (h : x % 2 = 1) :
    getRandomValue x = (x >>> 1) ^^^ 0xB400 := by
  unfold getRandomValue
  simp [Nat.and_one_is_mod, h]

theorem getRandomValue_even (x : Nat) (h : x % 2 = 0) : getRandomValue x = x >>> 1 := by
  unfold getRandomValue
  simp [Nat.and_one_is_mod, h]

theorem getRandomValue_lt (x : Nat) (h : x < 65536) : getRandomValue x < 65536 := by
  have h1 : x >>> 1 < 2 ^ 16 := by rw [Nat.shiftRight_eq_div_pow]; omega
  rcases Nat.mod_two_eq_zero_or_one x with e | e
  · rw [getRandomValue_even x e]; exact h1
  · rw [getRandomValue_odd x e]
    exact Nat.xor_lt_two_pow h1 (by decide)

theorem getRandomValue_ne_zero (x : Nat) (h0 : x ≠ 0) (h : x < 65536) :
    getRandomValue x ≠ 0 := by
  rcases Nat.mod_two_eq_zero_or_one x with e | e
  · rw [getRandomValue_even x e, Nat.shiftRight_eq_div_pow]; omega
  · rw [getRandomValue_odd x e]
    intro hz
    have h1 : x >>> 1 < 2 ^ 15 := by rw [Nat.shiftRight_eq_div_pow]; omega
    have h2 : ((x >>> 1) ^^^ 0xB400).testBit 15 = true := by
      rw [Nat.testBit_xor, Nat.testBit_lt_two_pow h1]; decide
    rw [hz] at h2
    simp at h2

theorem lfsrRun_eq (n : Nat) : ∀ x, lfsrRun n x = getRandomValue^[n] x := by
  induction n with
  | zero => intro x; rfl
  | succ n ih =>
    intro x
    have e : lfsrRun (n + 1) x = lfsrRun n (getRandomValue x) := by
      rw [lfsrRun]
      generalize getRandomValue x = y
      cases y <;> rfl
    rw [Function.iterate_succ_apply, ← ih, e]

theorem iterate_getRandomValue_state (n : Nat) : ∀ x, x ≠ 0 → x < 65536 →
    getRandomValue^[n] x ≠ 0 ∧ getRandomValue^[n] x < 65536 := by
  induction n with
  | zero => intro x h0 h; exact ⟨h0, h⟩
  | succ n ih =>
    intro x h0 h
    rw [Function.iterate_succ_apply]
    exact ih _ (getRandomValue_ne_zero x h0 h) (getRandomValue_lt x h)

theorem lfsrRun_255 : lfsrRun 255 1 = 23921 := by decide!

theorem lfsrRun_3855 : lfsrRun 3600 23921 = 59374 := by decide!

theorem lfsrRun_13107 : lfsrRun 9252 59374 = 31708 := by decide!

theorem lfsrRun_21845 : lfsrRun 8738 31708 = 15502 := by decide!

theorem lfsrRun_65535 : lfsrRun 43690 15502 = 1 := by decide!

theorem iterate_getRandomValue_one :
    getRandomValue^[255] 1 = 23921 ∧ getRandomValue^[3855] 1 = 59374 ∧
    getRandomValue^[13107] 1 = 31708 ∧ getRandomValue^[21845] 1 = 15502 ∧
    getRandomValue^[65535] 1 = 1 := by
  have h1 : getRandomValue^[255] 1 = 23921 := by rw [← lfsrRun_eq]; exact lfsrRun_255
  have h2 : getRandomValue^[3855] 1 = 59374 := by
    rw [show 3855 = 3600 + 255 from rfl, Function.iterate_add_apply, h1, ← lfsrRun_eq]
    exact lfsrRun_3855
  have h3 : getRandomValue^[13107] 1 = 31708 := by
    rw [show 13107 = 9252 + 3855 from rfl, Function.iterate_add_apply, h2, ← lfsrRun_eq]
    exact lfsrRun_13107
  have h4 : getRandomValue^[21845] 1 = 15502 := by
    rw [show 21845 = 8738 + 13107 from rfl, Function.iterate_add_apply, h3, ← lfsrRun_eq]
    exact lfsrRun_21845
  have h5 : getRandomValue^[65535] 1 = 1 := by
    rw [show 65535 = 43690 + 21845 from rfl, Function.iterate_add_apply, h4, ← lfsrRun_eq]
    exact lfsrRun_65535
  exact ⟨h1, h2, h3, h4, h5⟩

/-- A proper divisor of 65535 divides one of 65535 / 3, 65535 / 5, 65535 / 17, 65535 / 257. -/
theorem proper_divisor_65535 (d : Nat) (hd : d ∣ 65535) (hne : d ≠ 65535) :
    d ∣ 21845 ∨ d ∣ 13107 ∨ d ∣ 3855 ∨ d ∣ 255 := by
  obtain ⟨e, he⟩ := hd
  have he1 : e ≠ 1 := by rintro rfl; omega
  have hp := Nat.minFac_prime he1
  obtain ⟨c, hc⟩ := Nat.minFac_dvd e
  have hdiv : e.minFac ∣ 3 * (5 * (17 * 257)) := ⟨d * c, by rw [hc] at he; linarith⟩
  have key : ∀ q : Nat, q = e.minFac → d * c * q = 65535 := by
    intro q hq; rw [hq]; rw [hc] at he; linarith
  rcases (Nat.Prime.dvd_mul hp).mp hdiv with h | h
  · have := (Nat.prime_dvd_prime_iff_eq hp (by norm_num)).mp h
    left; exact ⟨c, by have := key 3 this.symm; omega⟩
  rcases (Nat.Prime.dvd_mul hp).mp h with h | h
  · have := (Nat.prime_dvd_prime_iff_eq hp (by norm_num)).mp h
    right; left; exact ⟨c, by have := key 5 this.symm; omega⟩
  rcases (Nat.Prime.dvd_mul hp).mp h with h | h
  · have := (Nat.prime_dvd_prime_iff_eq hp (by norm_num)).mp h
    right; right; left; exact ⟨c, by have := key 17 this.symm; omega⟩
  · have := (Nat.prime_dvd_prime_iff_eq hp (by norm_num)).mp h
    right; right; right; exact ⟨c, by have := key 257 this.symm; omega⟩

theorem minimalPeriod_getRandomValue_one :
    Function.minimalPeriod getRandomValue 1 = 65535 := by
  obtain ⟨h1, h2, h3, h4, h5⟩ := iterate_getRandomValue_one
  have hper : Function.IsPeriodicPt getRandomValue 65535 1 := h5
  by_contra hne
  have hiff := fun n => @Function.isPeriodicPt_iff_minimalPeriod_dvd _ getRandomValue 1 n
  rcases proper_divisor_65535 _ hper.minimalPeriod_dvd hne with h | h | h | h
  · have : getRandomValue^[21845] 1 = 1 := (hiff 21845).mpr h
    rw [h4] at this; exact absurd this (by decide)
  · have : getRandomValue^[13107] 1 = 1 := (hiff 13107).mpr h
    rw [h3] at this; exact absurd this (by decide)
  · have : getRandomValue^[3855] 1 = 1 := (hiff 3855).mpr h
    rw [h2] at this; exact absurd this (by decide)
  · have : getRandomValue^[255] 1 = 1 := (hiff 255).mpr h
    rw [h1] at this; exact absurd this (by decide)

/-- Every non-zero 16-bit state lies on the orbit of 1. -/
theorem orbit_of_one (s : Nat) (h0 : s ≠ 0) (h : s < 65536) :
    ∃ j, j < 65535 ∧ getRandomValue^[j] 1 = s := by
  have hinj : Set.InjOn (fun n => getRandomValue^[n] 1) (Finset.range 65535 : Set Nat) := by
    intro a ha b hb hab
    have ha2 : a ∈ Set.Iio (Function.minimalPeriod getRandomValue 1) := by
      rw [minimalPeriod_getRandomValue_one]; simpa using ha
    have hb2 : b ∈ Set.Iio (Function.minimalPeriod getRandomValue 1) := by
      rw [minimalPeriod_getRandomValue_one]; simpa using hb
    exact Function.iterate_injOn_Iio_minimalPeriod ha2 hb2 hab
  have hsub : (Finset.range 65535).image (fun n => getRandomValue^[n] 1)
      ⊆ Finset.Ico 1 65536 := by
    intro x hx
    obtain ⟨n, _, rfl⟩ := Finset.mem_image.mp hx
    have := iterate_getRandomValue_state n 1 (by decide) (by decide)
    rw [Finset.mem_Ico]
    exact ⟨Nat.pos_of_ne_zero this.1, this.2⟩
  have hcard : (Finset.Ico 1 65536).card
      ≤ ((Finset.range 65535).image (fun n => getRandomValue^[n] 1)).card := by
    rw [Finset.card_image_of_injOn hinj]; simp
  have heq := Finset.eq_of_subset_of_card_le hsub hcard
  have hs : s ∈ Finset.Ico 1 65536 := by rw [Finset.mem_Ico]; omega
  rw [← heq] at hs
  obtain ⟨j, hj, hjs⟩ := Finset.mem_image.mp hs
  exact ⟨j, by simpa using hj, hjs⟩

theorem minimalPeriod_getRandomValue (s : Nat) (h0 : s ≠ 0) (h : s < 65536) :
    Function.minimalPeriod getRandomValue s = 65535 := by
  obtain ⟨j, _, rfl⟩ := orbit_of_one s h0 h
  have hp : (1 : Nat) ∈ Function.periodicPts getRandomValue :=
    Function.mk_mem_periodicPts (by decide : 0 < 65535) iterate_getRandomValue_one.2.2.2.2
  rw [Function.minimalPeriod_apply_iterate hp, minimalPeriod_getRandomValue_one]

theorem rxHandler_lastRandomValue {σ : Type} (cb : lnQueue → σ → lnQueue × σ)
    (oob : Nat → Nat) (s : LnDriver σ) (b : Nat) :
    (rxHandler cb oob s b).lastRandomValue = s.lastRandomValue := by
  unfold rxHandler
  split
  · rfl
  · dsimp only
    split
    · split <;> rfl
    · rfl

/-- An interrupt keeps the shift register state or advances it by one step. -/
theorem lnIsr_lastRandomValue {σ : Type} (recoverLnMessage : lnQueue → lnQueue)
    (cb : lnQueue → σ → lnQueue × σ) (oob : Nat → Nat)
    (TMR1IF RC1IF FERR RC7 RCIDL : Bool) (RC1REG : Nat) (s : LnDriver σ) :
    (lnIsr recoverLnMessage cb oob TMR1IF RC1IF FERR RC7 RCIDL RC1REG s).lastRandomValue
        = s.lastRandomValue ∨
    (lnIsr recoverLnMessage cb oob TMR1IF RC1IF FERR RC7 RCIDL RC1REG s).lastRandomValue
        = getRandomValue s.lastRandomValue := by
  have hrx := rxHandler_lastRandomValue cb oob s RC1REG
  unfold lnIsr
  split
  · unfold lnIsrTmr1
    split
    · split
      · split
        · left; rfl
        · split
          · left; rfl
          · left; rfl
      · right; rfl
    · split
      · split
        · left; rfl
        · right; rfl
      · split
        · right; rfl
        · split
          · unfold txHandler
            split
            · left; rfl
            · left; rfl
          · left; rfl
  · split
    · split
      · left; rfl
      · unfold lnIsrRc
        dsimp only
        split
        · split
          · split
            · unfold txHandler
              split
              · left; rfl
              · left; rfl
            · right; rfl
          · left; rfl
        · right
          show getRandomValue (rxHandler cb oob s RC1REG).lastRandomValue = _
          rw [hrx]
    · left; rfl

/-! ## The claims -/

/-- C1 (framer soundness): from the initial state, with queues of capacity at least 2 and a
callback that empties the delivered queue, for every sequence of bytes fed to `rxHandler` and
whatever lies past the end of the backing array, every content of the delivered queue handed
to the callback is a valid message: XOR `0xFF`, first byte with the high bit set, later bytes
with the high bit clear, length at least 2 and equal to the size-class length. -/
theorem C1_framer_soundness {σ : Type} (QUEUE_SIZE : Nat) (hsize : 2 ≤ QUEUE_SIZE)
    (cb : lnQueue → σ → lnQueue × σ) (hcb : drains cb) (app : σ)
    (input : List (Nat × (Nat → Nat))) (hbytes : ∀ x ∈ input, x.1 < 256) :
    ∀ m ∈ (rxRun cb (lnInit QUEUE_SIZE app) input).callbacks, validMessage m :=
  (rxInv_run QUEUE_SIZE hsize cb hcb input _ hbytes (rxInv_lnInit QUEUE_SIZE hsize app)).delivered

/-- Witness of C1: the simple test program receiving `0x82 0x7D` with capacity 16. -/
theorem C1_framer_soundness_witness :
    [0x82, 0x7D] ∈ (rxRun simpleRxMessageHandler (lnInit 16 false)
      [(0x82, zeroMemory), (0x7D, zeroMemory)]).callbacks ∧ validMessage [0x82, 0x7D] :=
  ⟨by decide,
   C1_framer_soundness 16 (by decide) simpleRxMessageHandler drains_simpleRxMessageHandler false
    [(0x82, zeroMemory), (0x7D, zeroMemory)] (by decide) [0x82, 0x7D] (by decide)⟩

/-- C2 (framer completeness): for every valid message `m` that fits both RX queues, whatever
the RX staging queue held before, feeding the bytes of `m` to `rxHandler` with the delivered
queue empty invokes the callback after no proper part of `m`, invokes it on the last byte
with the delivered queue holding exactly `m`, and leaves the staging queue empty. -/
theorem C2_framer_completeness {σ : Type} (cb : lnQueue → σ → lnQueue × σ) (s : LnDriver σ)
    (m : List Nat) (input : List (Nat × (Nat → Nat))) (hinput : input.map Prod.fst = m)
    (hvalid : validMessage m) (hbytes : ∀ b ∈ m, b < 256)
    (htmp : WF s.lnRxTempQueue) (hrx : WF s.lnRxQueue) (hempty : s.lnRxQueue.numEntries = 0)
    (hfit1 : m.length ≤ s.lnRxTempQueue.size) (hfit2 : m.length ≤ s.lnRxQueue.size) :
    (∀ k < input.length, (rxRun cb s (input.take k)).callbacks = s.callbacks) ∧
    (rxRun cb s input).callbacks = s.callbacks ++ [m] ∧
    toList (rxRun cb s input).lnRxTempQueue = [] := by
  obtain ⟨a1, a2, a3, _⟩ :=
    rxRun_message cb s m input hinput hvalid hbytes htmp hrx hempty hfit1 hfit2
  exact ⟨a1, a2, a3⟩

/-- Witness of C2: the message `0x82 0x7D` received after a stray opcode `0x82`. -/
theorem C2_framer_completeness_witness :
    (rxRun simpleRxMessageHandler failedFrameDriver
      [(0x82, zeroMemory), (0x7D, zeroMemory)]).callbacks = [] ++ [[0x82, 0x7D]] ∧
    toList (rxRun simpleRxMessageHandler failedFrameDriver
      [(0x82, zeroMemory), (0x7D, zeroMemory)]).lnRxTempQueue = [] :=
  (C2_framer_completeness simpleRxMessageHandler failedFrameDriver [0x82, 0x7D]
    [(0x82, zeroMemory), (0x7D, zeroMemory)] rfl (by decide) (by decide) (by decide)
    (by decide) (by decide) (by decide) (by decide)).2

/-- C3: when the TX queue has room for the user message and one more byte,
`lnTxMessageHandler` leaves the TX queue holding its previous bytes, then the bytes of the
user message in order, then one checksum byte `0xFF XOR (XOR of the message)`, and leaves the
user queue empty. The message need not be non-empty for this. -/
theorem C3_lnTxMessageHandler_appends {σ : Type} (s : LnDriver σ) (lnTxMsg : lnQueue)
    (m : List Nat) (hm : toList lnTxMsg = m)
    (htx : WF s.lnTxQueue) (hmsg : WF lnTxMsg)
    (hroom : s.lnTxQueue.numEntries + m.length + 1 ≤ s.lnTxQueue.size) :
    toList (lnTxMessageHandler s lnTxMsg).1.lnTxQueue
      = toList s.lnTxQueue ++ m ++ [0xFF ^^^ xorAll m] ∧
    toList (lnTxMessageHandler s lnTxMsg).2 = [] := by
  subst hm
  rw [toList_length] at hroom
  obtain ⟨a1, _, _, _, _, a6⟩ := lnTxMessageHandler_toList s lnTxMsg htx hmsg hroom
  exact ⟨a1, toList_eq_nil _ a6⟩

/-- Witness of C3: the message `[0xB2, 0x00, 0x10]` sent from the initial state, capacity
16. -/
theorem C3_lnTxMessageHandler_appends_witness :
    toList (lnTxMessageHandler (lnInit 16 ()) (userQueue 16 [0xB2, 0x00, 0x10])).1.lnTxQueue
      = toList (lnInit 16 ()).lnTxQueue ++ [0xB2, 0x00, 0x10]
        ++ [0xFF ^^^ xorAll [0xB2, 0x00, 0x10]] ∧
    toList (lnTxMessageHandler (lnInit 16 ()) (userQueue 16 [0xB2, 0x00, 0x10])).2 = [] :=
  C3_lnTxMessageHandler_appends (lnInit 16 ()) (userQueue 16 [0xB2, 0x00, 0x10])
    [0xB2, 0x00, 0x10] (by decide) (by decide) (by decide) (by decide)

/-- C4 (checksum round trip): when `lnTxMessageHandler` has room, the bytes it appends to the
TX queue are one more than the user message, XOR together to `0xFF`, and
`isChecksumCorrect` returns true on every queue holding exactly those bytes, wherever its
head lies in the backing array. -/
theorem C4_checksum_round_trip {σ : Type} (s : LnDriver σ) (lnTxMsg : lnQueue)
    (htx : WF s.lnTxQueue) (hmsg : WF lnTxMsg)
    (hroom : s.lnTxQueue.numEntries + lnTxMsg.numEntries + 1 ≤ s.lnTxQueue.size)
    (q : lnQueue)
    (hq : toList (lnTxMessageHandler s lnTxMsg).1.lnTxQueue = toList s.lnTxQueue ++ toList q) :
    (toList q).length = lnTxMsg.numEntries + 1 ∧ xorAll (toList q) = 0xFF ∧
      isChecksumCorrect q = true := by
  obtain ⟨a1, _⟩ := lnTxMessageHandler_toList s lnTxMsg htx hmsg hroom
  rw [a1, List.append_assoc] at hq
  have e := List.append_cancel_left hq
  have hx : xorAll (toList q) = 0xFF := by rw [← e]; exact xorAll_framed _
  refine ⟨by rw [← e]; simp [toList_length], hx, (isChecksumCorrect_iff q).mpr hx⟩

/-- Witness of C4: the framed message for `[0xB2, 0x00, 0x10]` held by a queue of capacity 6
whose head is at index 4, so that the four bytes wrap around the end of the array. -/
theorem C4_checksum_round_trip_witness :
    isChecksumCorrect
      { values := [0x10, 0x5D, 0, 0, 0xB2, 0x00], head := 4, tail := 2, numEntries := 4,
        size := 6 } = true :=
  (C4_checksum_round_trip (lnInit 16 ()) (userQueue 16 [0xB2, 0x00, 0x10]) (by decide)
    (by decide) (by decide)
    { values := [0x10, 0x5D, 0, 0, 0xB2, 0x00], head := 4, tail := 2, numEntries := 4,
      size := 6 } (by decide)).2.2

/-- C5, amended: sending `[0xB2, 0x00, 0x10]` through `lnTxMessageHandler` into an empty TX
queue (capacity at least 4; the message built with `enQueue` in a user queue of capacity at
least 3) makes the TX queue carry the four bytes `0xB2 0x00 0x10 0x5D`: the appended
checksum byte is `0x5D`. -/
theorem C5_example_frame {σ : Type} (s : LnDriver σ) (QUEUE_SIZE : Nat)
    (htx : WF s.lnTxQueue) (hempty : s.lnTxQueue.numEntries = 0)
    (hcap : 4 ≤ s.lnTxQueue.size) (hsize : 3 ≤ QUEUE_SIZE) :
    toList (lnTxMessageHandler s (userQueue QUEUE_SIZE [0xB2, 0x00, 0x10])).1.lnTxQueue
      = [0xB2, 0x00, 0x10, 0x5D] :=
  lnTxMessageHandler_example s QUEUE_SIZE htx hempty hcap hsize

/-- Witness of C5: the initial state with capacity 16. -/
theorem C5_example_frame_witness :
    toList (lnTxMessageHandler (lnInit 16 ()) (userQueue 16 [0xB2, 0x00, 0x10])).1.lnTxQueue
      = [0xB2, 0x00, 0x10, 0x5D] :=
  C5_example_frame (lnInit 16 ()) 16 (by decide) (by decide) (by decide) (by decide)

/-- Counterexample to C5 as stated: from the initial state with capacity 16 the TX queue
carries `0xB2 0x00 0x10 0x5D` and not `0xB2 0x00 0x10 0x2D`. -/
theorem C5_checksum_is_not_0x2D :
    toList (userQueue 16 [0xB2, 0x00, 0x10]) = [0xB2, 0x00, 0x10] ∧
    toList (lnInit 16 ()).lnTxQueue = [] ∧
    toList (lnTxMessageHandler (lnInit 16 ()) (userQueue 16 [0xB2, 0x00, 0x10])).1.lnTxQueue
      ≠ [0xB2, 0x00, 0x10, 0x2D] ∧
    0xB2 ^^^ 0x00 ^^^ 0x10 ^^^ 0xFF = 0x5D := by
  decide

/-- C6, amended: when `rxHandler` receives a byte with the high bit clear and the XOR of the
staged bytes, the new one included, is not `0xFF` (in particular when the byte brings the
staging queue to the expected length and the checksum fails), the staging queue is not
emptied: it is the previous staging queue with the byte enqueued (the previous bytes followed
by the new one when it was not full); the delivered queue, the callback history and the
application state are unchanged. -/
theorem C6_checksum_failure_keeps_staging {σ : Type} (cb : lnQueue → σ → lnQueue × σ)
    (oob : Nat → Nat) (s : LnDriver σ) (b : Nat) (hb : ¬ (b &&& 0x80 = 0x80))
    (hck : xorAll (toList (enQueue s.lnRxTempQueue b)) ≠ 0xFF) :
    (rxHandler cb oob s b).lnRxTempQueue = enQueue s.lnRxTempQueue b ∧
    (rxHandler cb oob s b).lnRxQueue = s.lnRxQueue ∧
    (rxHandler cb oob s b).callbacks = s.callbacks ∧
    (rxHandler cb oob s b).app = s.app ∧
    (WF s.lnRxTempQueue → s.lnRxTempQueue.numEntries ≠ s.lnRxTempQueue.size →
      toList (rxHandler cb oob s b).lnRxTempQueue = toList s.lnRxTempQueue ++ [b]) := by
  have hf : isChecksumCorrect (enQueue s.lnRxTempQueue b) = false := by
    rw [Bool.eq_false_iff]; intro h; exact hck ((isChecksumCorrect_iff _).mp h)
  rw [rxHandler_keep cb oob s b hb (Or.inr hf)]
  exact ⟨rfl, rfl, rfl, rfl, fun hwf hne => toList_enQueue _ b hwf hne⟩

/-- Witness of C6: the byte `0x00` received after the opcode `0x82`. -/
theorem C6_checksum_failure_keeps_staging_witness :
    toList (rxHandler simpleRxMessageHandler zeroMemory failedFrameDriver 0x00).lnRxTempQueue
      = toList failedFrameDriver.lnRxTempQueue ++ [0x00] :=
  (C6_checksum_failure_keeps_staging simpleRxMessageHandler zeroMemory failedFrameDriver 0x00
    (by decide) (by decide)).2.2.2.2 (by decide) (by decide)

/-- Counterexample to C6 as stated: after the opcode `0x82`, the byte `0x00` has its high bit
clear, brings the staging queue to the expected length 2 and the XOR is not `0xFF`; the
staging queue then holds `0x82 0x00` and is not empty. -/
theorem C6_staging_not_emptied :
    ¬ (0x00 &&& 0x80 = 0x80) ∧
    rxMessageLength zeroMemory (enQueue failedFrameDriver.lnRxTempQueue 0x00)
      = (enQueue failedFrameDriver.lnRxTempQueue 0x00).numEntries ∧
    xorAll (toList (enQueue failedFrameDriver.lnRxTempQueue 0x00)) ≠ 0xFF ∧
    toList (rxHandler simpleRxMessageHandler zeroMemory failedFrameDriver 0x00).lnRxTempQueue
      = [0x82, 0x00] := by
  decide

/-- C7, the code at the scenario of the claim: the framed message for `[0xB2, 0x00, 0x10]` is
staged, `0xB2` is written and echoed, `0xFF` is read back for the second byte and the mode
becomes line-break; after the line-break timer, the CMP delay, the idle delay and the BRG
delay (line free each time) the byte written to the transmit register is `0x00`, the second
byte, and TX staging holds `0x00 0x10 0x5D`: the echoed first byte is not sent again. -/
theorem C7_retry_resumes_after_echoed_byte :
    toList retryScenarioEchoed.lnTxTempQueue = [0x00, 0x10, 0x5D] ∧
    retryScenarioEchoed.TXREG = [0xB2, 0x00] ∧
    retryScenarioBreak.TMR1_MODE = 2 ∧
    toList retryScenarioBreak.lnTxTempQueue = [0x00, 0x10, 0x5D] ∧
    toList retryScenarioRetried.lnTxTempQueue = [0x00, 0x10, 0x5D] ∧
    retryScenarioRetried.TXREG = [0xB2, 0x00, 0x00] := by
  decide

/-- C8, amended: when the TX queue is a concatenation of whole framed messages and is either
full or has room for the user message and its checksum, it is again a concatenation of whole
framed messages after `lnTxMessageHandler`; and it is one after `startLnTxMessage` in every
case. -/
theorem C8_tx_queue_whole_messages {σ : Type} (s : LnDriver σ) (lnTxMsg : lnQueue)
    (htx : WF s.lnTxQueue) (hmsg : WF lnTxMsg) (hm : userMessage (toList lnTxMsg))
    (hwhole : wholeMessages (toList s.lnTxQueue)) :
    ((s.lnTxQueue.numEntries = s.lnTxQueue.size ∨
        s.lnTxQueue.numEntries + lnTxMsg.numEntries + 1 ≤ s.lnTxQueue.size) →
      wholeMessages (toList (lnTxMessageHandler s lnTxMsg).1.lnTxQueue)) ∧
    wholeMessages (toList (startLnTxMessage s).lnTxQueue) :=
  ⟨lnTxMessageHandler_whole s lnTxMsg htx hmsg hm hwhole,
   startLnTxMessage_whole s htx hwhole⟩

/-- Witness of C8: the message `[0xB2, 0x00, 0x10]` sent from the initial state. -/
theorem C8_tx_queue_whole_messages_witness :
    wholeMessages (toList (lnTxMessageHandler (lnInit 16 ())
      (userQueue 16 [0xB2, 0x00, 0x10])).1.lnTxQueue) :=
  (C8_tx_queue_whole_messages (lnInit 16 ()) (userQueue 16 [0xB2, 0x00, 0x10]) (by decide)
    (by decide) (by decide) ⟨[], by simp, by decide⟩).1 (Or.inr (by decide))

/-- Counterexample to C8 as stated: a TX queue of capacity 16 holds four whole framed
messages in 14 bytes; sending the well-formed message `[0xB2, 0x00, 0x10]` appends only
`0xB2 0x00`, and the queue is no longer a concatenation of whole framed messages. -/
theorem C8_partial_message_when_short_of_room :
    WF nearlyFullDriver.lnTxQueue ∧
    wholeMessages (toList nearlyFullDriver.lnTxQueue) ∧
    WF (userQueue 16 [0xB2, 0x00, 0x10]) ∧
    userMessage (toList (userQueue 16 [0xB2, 0x00, 0x10])) ∧
    toList (lnTxMessageHandler nearlyFullDriver (userQueue 16 [0xB2, 0x00, 0x10])).1.lnTxQueue
      = toList nearlyFullDriver.lnTxQueue ++ [0xB2, 0x00] ∧
    ¬ wholeMessages (toList (lnTxMessageHandler nearlyFullDriver
        (userQueue 16 [0xB2, 0x00, 0x10])).1.lnTxQueue) := by
  refine ⟨by decide, ?_, by decide, by decide, by decide, ?_⟩
  · refine ⟨[[0xB2, 0x00, 0x10, 0x5D], [0xB2, 0x00, 0x10, 0x5D], [0xB2, 0x00, 0x10, 0x5D],
      [0x82, 0x7D]], ?_, by decide⟩
    intro f hf
    simp only [List.mem_cons, List.mem_singleton, List.not_mem_nil, or_false] at hf
    rcases hf with rfl | rfl | rfl | rfl
    · exact ⟨[0xB2, 0x00, 0x10], by decide, by decide⟩
    · exact ⟨[0xB2, 0x00, 0x10], by decide, by decide⟩
    · exact ⟨[0xB2, 0x00, 0x10], by decide, by decide⟩
    · exact ⟨[0x82], by decide, by decide⟩
  · intro h
    have := wholeMessages_xor _ h
    revert this
    decide

set_option maxRecDepth 100000 in
/-- C9, the code at a wrapped message: with capacity 16 and DIP address `0x12`, after seven
messages `0x82 0x7D` the valid switch request `0xB0 0x11 0x21 0x7F` (index 1, address `0x12`,
direction bit set) is delivered to the callback at head index 14; the third byte is read at
index 16, past the end of the array, and with zero bytes there no turnout is commanded,
whereas the same request received first commands turnout 1 to the left. -/
theorem C9_switch_request_misdecoded_at_wrap :
    getDipSwitchAddress 0x02 0x01 = 0x12 ∧
    (rxRun (lnRxMessageHandler 0x02 0x01 zeroMemory) (lnInit 16 awIdle)
      wrapInput).callbacks.getLast? = some [0xB0, 0x11, 0x21, 0x7F] ∧
    (rxRun (lnRxMessageHandler 0x02 0x01 zeroMemory) (lnInit 16 awIdle)
      (wrapInput.take 17)).lnRxQueue.head = 14 ∧
    (awGet (rxRun (lnRxMessageHandler 0x02 0x01 zeroMemory) (lnInit 16 awIdle)
      wrapInput).app 1).CAWL = false ∧
    (awGet (rxRun (lnRxMessageHandler 0x02 0x01 zeroMemory) (lnInit 16 awIdle)
      (wrapInput.drop 14)).app 1).CAWL = true := by
  decide

/-- C10, amended: the bytes `0xB0 0x91 0x32 0xBC`, held by a delivered queue without wrapping
and handled by `lnRxMessageHandler`, decode index 1 and address `0x22` with the direction
bit set; when the DIP address is `0x22`, turnout 1 ends with CAWL true and CAWR false, and
for every other DIP address, `0x12` included, no turnout record changes. -/
theorem C10_scenario_decodes_address_0x22 (PORTA PORTC : Nat) (oob : Nat → Nat)
    (lnRxMsg : lnQueue) (aw : List AWCON_t) (hwf : WF lnRxMsg)
    (hmsg : toList lnRxMsg = [0xB0, 0x91, 0x32, 0xBC]) (hin : lnRxMsg.head + 2 < lnRxMsg.size)
    (haw : aw.length = 8) :
    (0x91 &&& 0x07 = 1 ∧ (((0x91 &&& 0x78) >>> 3) + ((0x32 &&& 0x0f) <<< 4)) % 256 = 0x22 ∧
      0x32 &&& 0x20 = 0x20) ∧
    (getDipSwitchAddress PORTA PORTC = 0x22 →
      (awGet (lnRxMessageHandler PORTA PORTC oob lnRxMsg aw).2 1).CAWL = true ∧
      (awGet (lnRxMessageHandler PORTA PORTC oob lnRxMsg aw).2 1).CAWR = false) ∧
    (getDipSwitchAddress PORTA PORTC ≠ 0x22 →
      (lnRxMessageHandler PORTA PORTC oob lnRxMsg aw).2 = aw) := by
  obtain ⟨h1, _⟩ := lnRxMessageHandler_switch PORTA PORTC oob lnRxMsg aw 0x91 0x32 [0xBC] hwf
    hmsg (by decide)
  have h2 := awDispatch_switch PORTA PORTC oob lnRxMsg aw 0x91 0x32 [0xBC] hwf hmsg hin
  rw [h1, h2]
  have e1 : (((0x91 &&& 0x78) >>> 3) + ((0x32 &&& 0x0f) <<< 4)) % 256 = 0x22 := by decide
  have e2 : 0x32 &&& 0x20 = 0x20 := by decide
  have e3 : 0x91 &&& 0x07 = 1 := by decide
  rw [e1, e2, e3]
  refine ⟨⟨rfl, rfl, rfl⟩, ?_, ?_⟩
  · intro hd
    rw [if_pos hd.symm, if_pos rfl, awGet_awModify _ _ _ (by rw [awModify_length, haw]; decide),
      awGet_awModify _ _ _ (by rw [haw]; decide)]
    exact ⟨rfl, rfl⟩
  · intro hd
    rw [if_neg (fun h => hd h.symm)]

/-- Witness of C10: the four bytes in a fresh queue of capacity 16, DIP address `0x22`. -/
theorem C10_scenario_decodes_address_0x22_witness :
    (awGet (lnRxMessageHandler 0x02 0x02 zeroMemory (userQueue 16 [0xB0, 0x91, 0x32, 0xBC])
      awIdle).2 1).CAWL = true ∧
    (awGet (lnRxMessageHandler 0x02 0x02 zeroMemory (userQueue 16 [0xB0, 0x91, 0x32, 0xBC])
      awIdle).2 1).CAWR = false :=
  (C10_scenario_decodes_address_0x22 0x02 0x02 zeroMemory (userQueue 16 [0xB0, 0x91, 0x32, 0xBC])
    awIdle (by decide) (by decide) (by decide) (by decide)).2.1 (by decide)

/-- Counterexample to C10 as stated: with DIP address `0x12` (`PORTA = 0x02`,
`PORTC = 0x01`) and all turnout bits false, the bytes `0xB0 0x91 0x32 0xBC` fed to
`rxHandler` from the initial state are never delivered (`0x91` and `0xBC` are opcodes, and
the XOR of the four bytes is `0xAF`), and handed to `lnRxMessageHandler` directly they leave
CAWL of turnout 1 false. -/
theorem C10_turnout_not_commanded_at_0x12 :
    getDipSwitchAddress 0x02 0x01 = 0x12 ∧
    xorAll [0xB0, 0x91, 0x32, 0xBC] = 0xAF ∧
    (rxRun (lnRxMessageHandler 0x02 0x01 zeroMemory) (lnInit 16 awIdle)
      scenario4Input).callbacks = [] ∧
    (awGet (rxRun (lnRxMessageHandler 0x02 0x01 zeroMemory) (lnInit 16 awIdle)
      scenario4Input).app 1).CAWL = false ∧
    (awGet (lnRxMessageHandler 0x02 0x01 zeroMemory (userQueue 16 [0xB0, 0x91, 0x32, 0xBC])
      awIdle).2 1).CAWL = false := by
  decide

/-- C11 (status report round trip): for every 8-bit address `A`, every sub-index `I` in 0..7
and every turnout record, the bytes SN1 and SN2 that `awHandler` computes decode, with the
field extraction of the switch-request decoder, to the index `I` and the address `A`, bit 4
of SN2 is KAWR and bit 5 is KAWL; and these are the bytes `awHandler` puts after the opcode
`0xB1` in its report when the DIP switches give the address `A`. -/
theorem C11_status_report_round_trip (A I : Nat) (aw : AWCON_t) (hA : A < 256) (hI : I < 8) :
    awHandlerSN1 A I &&& 0x07 = I ∧
    ((awHandlerSN1 A I &&& 0x78) >>> 3) + ((awHandlerSN2 A aw &&& 0x0f) <<< 4) = A ∧
    (awHandlerSN2 A aw &&& 0x10 = 0x10 ↔ aw.KAWR = true) ∧
    (awHandlerSN2 A aw &&& 0x20 = 0x20 ↔ aw.KAWL = true) ∧
    (∀ (PORTA PORTC : Nat) (lnTxMsg : lnQueue), getDipSwitchAddress PORTA PORTC = A →
      WF lnTxMsg → lnTxMsg.numEntries = 0 → 3 ≤ lnTxMsg.size →
      toList (awHandlerMsg PORTA PORTC lnTxMsg aw I)
        = [0xB1, awHandlerSN1 A I, awHandlerSN2 A aw]) := by
  obtain ⟨h1, h2, _⟩ := awHandlerSN1_decode A hA I hI
  rw [awHandlerSN2_feedback]
  obtain ⟨g1, _, g3, g4, _⟩ := awHandlerSN2_bits A hA aw.KAWL aw.KAWR
  refine ⟨h1, by rw [h2, g1]; exact nibbles_add A hA, g3, g4, ?_⟩
  intro PORTA PORTC lnTxMsg hd hwf he hc
  have := (toList_awHandlerMsg PORTA PORTC lnTxMsg aw I hI hwf he hc).1
  rw [hd] at this
  exact this

/-- Witness of C11: address `0x12`, index 3, KAWL set; the report bytes are `0x13 0x21`. -/
theorem C11_status_report_round_trip_witness :
    awHandlerSN1 0x12 3 = 0x13 ∧
    awHandlerSN2 0x12 ⟨false, false, false, false, true, false⟩ = 0x21 ∧
    awHandlerSN1 0x12 3 &&& 0x07 = 3 ∧
    ((awHandlerSN1 0x12 3 &&& 0x78) >>> 3)
      + ((awHandlerSN2 0x12 ⟨false, false, false, false, true, false⟩ &&& 0x0f) <<< 4)
      = 0x12 :=
  ⟨by decide, by decide,
   (C11_status_report_round_trip 0x12 3 ⟨false, false, false, false, true, false⟩ (by decide)
     (by decide)).1,
   (C11_status_report_round_trip 0x12 3 ⟨false, false, false, false, true, false⟩ (by decide)
     (by decide)).2.1⟩

/-- C12 (status frame layout): for every setting of the DIP switches (address `A`), every
sub-index below 8 and every turnout record, with the user queue empty and of capacity at
least 3, `awHandler` hands `lnTxMessageHandler` exactly the bytes `0xB1`, SN1, SN2, where
SN1 is `(((A << 3) & 0x78) | I) & 0x7F`, the low four bits of SN2 are `(A >> 4) & 0x0F`, bit 4
of SN2 is set iff KAWR, bit 5 iff KAWL and bits 6 and 7 are clear; SN1 and SN2 have the high
bit clear, and with room for four bytes the TX queue gains these three bytes and a checksum
that make a valid message of four bytes. -/
theorem C12_status_frame_layout {σ : Type} (PORTA PORTC : Nat) (s : LnDriver σ)
    (lnTxMsg : lnQueue) (aw : AWCON_t) (I : Nat) (hI : I < 8)
    (hmsg : WF lnTxMsg) (hempty : lnTxMsg.numEntries = 0) (hcap : 3 ≤ lnTxMsg.size)
    (htx : WF s.lnTxQueue) (hroom : s.lnTxQueue.numEntries + 4 ≤ s.lnTxQueue.size) :
    toList (awHandlerMsg PORTA PORTC lnTxMsg aw I)
      = [0xB1, awHandlerSN1 (getDipSwitchAddress PORTA PORTC) I,
          awHandlerSN2 (getDipSwitchAddress PORTA PORTC) aw] ∧
    awHandlerSN1 (getDipSwitchAddress PORTA PORTC) I
      = ((((getDipSwitchAddress PORTA PORTC) <<< 3) &&& 0x78) ||| I) &&& 0x7F ∧
    awHandlerSN2 (getDipSwitchAddress PORTA PORTC) aw &&& 0x0f
      = ((getDipSwitchAddress PORTA PORTC) >>> 4) &&& 0x0f ∧
    (awHandlerSN2 (getDipSwitchAddress PORTA PORTC) aw &&& 0x10 = 0x10 ↔ aw.KAWR = true) ∧
    (awHandlerSN2 (getDipSwitchAddress PORTA PORTC) aw &&& 0x20 = 0x20 ↔ aw.KAWL = true) ∧
    awHandlerSN2 (getDipSwitchAddress PORTA PORTC) aw &&& 0xc0 = 0 ∧
    msbClear (awHandlerSN1 (getDipSwitchAddress PORTA PORTC) I) ∧
    msbClear (awHandlerSN2 (getDipSwitchAddress PORTA PORTC) aw) ∧
    (0xB1 >>> 5) &&& 3 = 1 ∧
    ∃ checksum,
      toList (awHandler PORTA PORTC s lnTxMsg aw I).1.lnTxQueue
        = toList s.lnTxQueue ++ [0xB1, awHandlerSN1 (getDipSwitchAddress PORTA PORTC) I,
            awHandlerSN2 (getDipSwitchAddress PORTA PORTC) aw, checksum] ∧
      validMessage [0xB1, awHandlerSN1 (getDipSwitchAddress PORTA PORTC) I,
        awHandlerSN2 (getDipSwitchAddress PORTA PORTC) aw, checksum] := by
  have hA := getDipSwitchAddress_lt PORTA PORTC
  obtain ⟨_, _, h3, h4, _⟩ := awHandlerSN1_decode _ hA I hI
  have g := awHandlerSN2_bits _ hA aw.KAWL aw.KAWR
  rw [← awHandlerSN2_feedback] at g
  obtain ⟨_, g2, g3, g4, g5, g6, _⟩ := g
  obtain ⟨t1, t2, t3⟩ := toList_awHandlerMsg PORTA PORTC lnTxMsg aw I hI hmsg hempty hcap
  obtain ⟨a1, _⟩ := lnTxMessageHandler_toList s (awHandlerMsg PORTA PORTC lnTxMsg aw I) htx t2
    (by rw [t3]; omega)
  refine ⟨t1, h3, g2, g3, g4, g5, h4, g6, by decide, _, ?_, validMessage_report _ _ h4 g6⟩
  show toList (lnTxMessageHandler s _).1.lnTxQueue = _
  rw [a1, t1]
  simp

/-- Witness of C12: DIP address `0x12`, index 3, KAWL set, from the initial state with
capacity 16; the TX queue carries `0xB1 0x13 0x21 0x7C`. -/
theorem C12_status_frame_layout_witness :
    toList (awHandlerMsg 0x02 0x01 (initQueue 16) ⟨false, false, false, false, true, false⟩ 3)
      = [0xB1, awHandlerSN1 (getDipSwitchAddress 0x02 0x01) 3,
          awHandlerSN2 (getDipSwitchAddress 0x02 0x01)
            ⟨false, false, false, false, true, false⟩] ∧
    toList (awHandler 0x02 0x01 (lnInit 16 ()) (initQueue 16)
      ⟨false, false, false, false, true, false⟩ 3).1.lnTxQueue = [0xB1, 0x13, 0x21, 0x7C] :=
  ⟨(C12_status_frame_layout 0x02 0x01 (lnInit 16 ()) (initQueue 16)
      ⟨false, false, false, false, true, false⟩ 3 (by decide) (by decide) (by decide)
      (by decide) (by decide) (by decide)).1, by decide⟩

/-- C13 (turnout command exclusion): starting from eight turnout records with all bits
false, after every sequence of delivered messages handled by `lnRxMessageHandler`, whatever
the queues hold (valid messages of any opcode included) and whatever the DIP address, every
one of the eight turnouts has at most one of CAWL, CAWR true. -/
theorem C13_turnout_command_exclusion (PORTA PORTC : Nat)
    (msgs : List (lnQueue × (Nat → Nat))) (i : Nat) (hi : i < 8) :
    commandsExclusive (awGet (awRun PORTA PORTC awIdle msgs) i) := by
  have hidle : ∀ a ∈ awIdle, commandsExclusive a ∧ memoryExclusive a := by decide
  have hlen : (awRun PORTA PORTC awIdle msgs).length = 8 := awRun_length PORTA PORTC msgs awIdle
  exact (awRun_exclusive PORTA PORTC msgs awIdle hidle _ (awGet_mem _ i (by omega))).1

/-- Witness of C13: left, then right for turnout 1 of address `0x12`, then global off and
global on; turnout 1 ends commanded to the right only. -/
theorem C13_turnout_command_exclusion_witness :
    awGet (awRun 0x02 0x01 awIdle
      [(userQueue 16 [0xB0, 0x11, 0x21, 0x7F], zeroMemory),
       (userQueue 16 [0xB0, 0x11, 0x01, 0x5F], zeroMemory),
       (userQueue 16 [0x82, 0x7D], zeroMemory),
       (userQueue 16 [0x83, 0x7C], zeroMemory)]) 1
      = ⟨false, true, false, true, false, false⟩ ∧
    commandsExclusive (awGet (awRun 0x02 0x01 awIdle
      [(userQueue 16 [0xB0, 0x11, 0x21, 0x7F], zeroMemory),
       (userQueue 16 [0xB0, 0x11, 0x01, 0x5F], zeroMemory),
       (userQueue 16 [0x82, 0x7D], zeroMemory),
       (userQueue 16 [0x83, 0x7C], zeroMemory)]) 1) :=
  ⟨by decide, C13_turnout_command_exclusion 0x02 0x01 _ 1 (by decide)⟩

/-- C14 (global off): handling a delivered queue that holds `0x82 0x7D` sets CAWL and CAWR to
false for all eight turnouts and leaves CAWL_mem, CAWR_mem, KAWL and KAWR of every turnout
unchanged; the queue is empty afterwards. -/
theorem C14_global_off (PORTA PORTC : Nat) (oob : Nat → Nat) (lnRxMsg : lnQueue)
    (aw : List AWCON_t) (hwf : WF lnRxMsg) (hmsg : toList lnRxMsg = [0x82, 0x7D])
    (haw : aw.length = 8) :
    (lnRxMessageHandler PORTA PORTC oob lnRxMsg aw).2
      = aw.map (fun a => { a with CAWL := false, CAWR := false }) ∧
    (lnRxMessageHandler PORTA PORTC oob lnRxMsg aw).1.numEntries = 0 := by
  obtain ⟨h1, h2⟩ := lnRxMessageHandler_first PORTA PORTC oob lnRxMsg aw 0x82 [0x7D] hwf hmsg
    (by decide)
  have hq : headValue lnRxMsg = 0x82 := by
    rw [headValue_eq_headD lnRxMsg hwf (numEntries_ne_zero_of_toList _ _ _ hmsg), hmsg]; rfl
  rw [h1, awDispatch_off PORTA PORTC oob lnRxMsg aw hq haw]
  exact ⟨rfl, h2⟩

/-- Witness of C14: turnout records with every bit true. -/
theorem C14_global_off_witness :
    (lnRxMessageHandler 0x02 0x01 zeroMemory (userQueue 16 [0x82, 0x7D])
      (List.replicate 8 (AWCON_t.mk true true true true true true))).2
      = (List.replicate 8 (AWCON_t.mk true true true true true true)).map
          (fun a => { a with CAWL := false, CAWR := false }) :=
  (C14_global_off 0x02 0x01 zeroMemory (userQueue 16 [0x82, 0x7D])
    (List.replicate 8 (AWCON_t.mk true true true true true true)) (by decide) (by decide)
    (by decide)).1

/-- C15 (only the opcode byte is dispatched): for every delivered message whose bytes after
the first have the high bit clear (whatever the first byte), no later byte is `0xB0`, `0x82`
or `0x83`, the turnout records after `lnRxMessageHandler` are those after the dispatch on
the first byte alone, a message whose opcode is none of the three leaves the records
unchanged, and the delivered queue is empty when the handler returns. -/
theorem C15_only_opcode_dispatched (PORTA PORTC : Nat) (oob : Nat → Nat) (lnRxMsg : lnQueue)
    (aw : List AWCON_t) (op : Nat) (rest : List Nat) (hwf : WF lnRxMsg)
    (hmsg : toList lnRxMsg = op :: rest) (hrest : ∀ b ∈ rest, msbClear b) :
    (∀ b ∈ rest, b ≠ 0xB0 ∧ b ≠ 0x82 ∧ b ≠ 0x83) ∧
    (lnRxMessageHandler PORTA PORTC oob lnRxMsg aw).2 = awDispatch PORTA PORTC oob lnRxMsg aw ∧
    (op ≠ 0xB0 → op ≠ 0x82 → op ≠ 0x83 →
      (lnRxMessageHandler PORTA PORTC oob lnRxMsg aw).2 = aw) ∧
    toList (lnRxMessageHandler PORTA PORTC oob lnRxMsg aw).1 = [] := by
  have hother : ∀ b ∈ rest, b ≠ 0xb0 ∧ b ≠ 0x82 ∧ b ≠ 0x83 :=
    fun b hb => msbClear_not_dispatched b (hrest b hb)
  obtain ⟨h1, h2⟩ := lnRxMessageHandler_first PORTA PORTC oob lnRxMsg aw op rest hwf hmsg hother
  refine ⟨hother, h1, ?_, toList_eq_nil _ h2⟩
  intro n1 n2 n3
  have hq : headValue lnRxMsg = op := by
    rw [headValue_eq_headD lnRxMsg hwf (numEntries_ne_zero_of_toList _ _ _ hmsg), hmsg]; rfl
  rw [h1]
  exact awDispatch_other PORTA PORTC oob lnRxMsg aw (by rw [hq]; exact ⟨n1, n2, n3⟩)

/-- Witness of C15: the input report `0xB2 0x00 0x10 0x5D`. -/
theorem C15_only_opcode_dispatched_witness :
    (lnRxMessageHandler 0x02 0x01 zeroMemory (userQueue 16 [0xB2, 0x00, 0x10, 0x5D])
      awIdle).2 = awIdle ∧
    toList (lnRxMessageHandler 0x02 0x01 zeroMemory (userQueue 16 [0xB2, 0x00, 0x10, 0x5D])
      awIdle).1 = [] :=
  ⟨(C15_only_opcode_dispatched 0x02 0x01 zeroMemory (userQueue 16 [0xB2, 0x00, 0x10, 0x5D])
      awIdle 0xB2 [0x00, 0x10, 0x5D] (by decide) (by decide) (by decide)).2.2.1
      (by decide) (by decide) (by decide),
   (C15_only_opcode_dispatched 0x02 0x01 zeroMemory (userQueue 16 [0xB2, 0x00, 0x10, 0x5D])
      awIdle 0xB2 [0x00, 0x10, 0x5D] (by decide) (by decide) (by decide)).2.2.2⟩

/-- C16 (servo one-hot rotation): for every state with `pinIndex` below 8 and every callback,
after `servoIsrTmr3` the new `pinIndex` is `(pinIndex + 1) mod 8`, the callback has been
invoked with the new index, port D equals `1 << pinIndex` with exactly the selected pin of
the eight high; after `servoIsrCcp1` all pins are low; eight consecutive ticks select every
slot once; and when port D starts all low or with the selected pin high, no sequence of the
two interrupts ever leaves two pins high. -/
theorem C16_servo_one_hot_rotation {α : Type} (cb : Nat → List Nat → α → List Nat × α)
    (s : Servo α) (hp : s.pinIndex < 8) :
    (servoIsrTmr3 cb s).pinIndex = (s.pinIndex + 1) % 8 ∧
    (servoIsrTmr3 cb s).callbacks = s.callbacks ++ [(s.pinIndex + 1) % 8] ∧
    (servoIsrTmr3 cb s).LATD = 1 <<< ((s.pinIndex + 1) % 8) ∧
    (∀ j < 8, (servoIsrTmr3 cb s).LATD.testBit j = decide (j = (s.pinIndex + 1) % 8)) ∧
    (servoIsrCcp1 s).LATD = 0 ∧
    (servoIsrCcp1 (servoIsrTmr3 cb s)).LATD = 0 ∧
    ((List.range 8).map (fun k => (servoTicks cb (k + 1) s).pinIndex)).Perm (List.range 8) ∧
    (∀ (events : List (Bool × Bool)) (i j : Nat),
      (s.LATD = 0 ∨ s.LATD = 1 <<< s.pinIndex) → i < 8 → j < 8 →
      (servoRun cb s events).LATD.testBit i = true →
      (servoRun cb s events).LATD.testBit j = true → i = j) := by
  have h1 := servoIsrTmr3_pinIndex cb s hp
  have hlt : (s.pinIndex + 1) % 8 < 8 := Nat.mod_lt _ (by decide)
  have h2 : (servoIsrTmr3 cb s).LATD = 1 <<< ((s.pinIndex + 1) % 8) := by
    rw [servoIsrTmr3_LATD, h1]; exact (one_hot_bits _ hlt).1
  refine ⟨h1, by rw [servoIsrTmr3_callbacks, h1], h2, ?_, rfl, rfl, ?_, ?_⟩
  · intro j hj
    rw [h2]; exact (one_hot_bits _ hlt).2 j hj
  · have e : (List.range 8).map (fun k => (servoTicks cb (k + 1) s).pinIndex)
        = (List.range 8).map (fun k => (s.pinIndex + (k + 1)) % 8) :=
      List.map_congr_left (fun k _ => servoTicks_pinIndex cb (k + 1) s hp)
    rw [e]
    exact rotation_visits_all _ hp
  · intro events i j hl hi hj bi bj
    obtain ⟨g1, g2⟩ := servoRun_inv cb events s ⟨hp, hl⟩
    exact no_two_pins _ _ g1 g2 i j hi hj bi bj

/-- Witness of C16: the first tick after `servoInit`, with a callback that changes nothing,
selects slot 1 and drives pin 1 alone. -/
theorem C16_servo_one_hot_rotation_witness :
    (servoIsrTmr3 (fun _ w a => (w, a)) (servoInit ())).pinIndex
      = ((servoInit ()).pinIndex + 1) % 8 ∧
    (servoIsrTmr3 (fun _ w a => (w, a)) (servoInit ())).LATD = 2 :=
  ⟨(C16_servo_one_hot_rotation (fun _ w a => (w, a)) (servoInit ()) (by decide)).1,
   by decide⟩

/-- C17, amended: `GRADIENT` is 16 and `SWEEPTIME / 20` is 75; a servo width that starts at
`SERVO_MIN` and gains at most `GRADIENT` per 20 ms frame is at most `SERVO_MIN + 16 k` after
`k` frames, hence at most 1950 after 75 frames, and below `SERVO_MAX` during the first 78
frames; the sweep at the full rate arrives in frame 79, that is after 1580 ms. -/
theorem C17_sweep_needs_79_frames (w : Nat → Nat) (h0 : w 0 = SERVO_MIN)
    (hstep : ∀ k, w (k + 1) ≤ w k + GRADIENT) :
    GRADIENT = 16 ∧ SWEEPTIME / 20 = 75 ∧
    (∀ k, w k ≤ SERVO_MIN + k * GRADIENT) ∧
    w (SWEEPTIME / 20) ≤ 1950 ∧
    (∀ k ≤ 78, w k < SERVO_MAX) ∧
    fullRateWidth 78 < SERVO_MAX ∧ fullRateWidth 79 = SERVO_MAX ∧ 79 * 20 = 1580 := by
  have hb := sweep_bound w h0 hstep
  refine ⟨GRADIENT_eq, by decide, hb, ?_, ?_, by decide, by decide, by decide⟩
  · have := hb (SWEEPTIME / 20)
    rw [GRADIENT_eq] at this
    simp only [SWEEPTIME, SERVO_MIN] at this ⊢
    omega
  · intro k hk
    have := hb k
    rw [GRADIENT_eq] at this
    simp only [SERVO_MIN, SERVO_MAX] at this ⊢
    omega

/-- Witness of C17: the sweep at the full rate. -/
theorem C17_sweep_needs_79_frames_witness :
    fullRateWidth (SWEEPTIME / 20) ≤ 1950 ∧ fullRateWidth 79 = SERVO_MAX :=
  ⟨(C17_sweep_needs_79_frames fullRateWidth (by decide) fullRateWidth_step).2.2.2.1,
   (C17_sweep_needs_79_frames fullRateWidth (by decide) fullRateWidth_step).2.2.2.2.2.2.1⟩

/-- Counterexample to C17 as stated: the sweep at the full rate starts at `SERVO_MIN`, moves
by at most `GRADIENT` per frame, and within `SWEEPTIME / 20 = 75` frames it never reaches
`SERVO_MAX`: after 75 frames the width is 1950. -/
theorem C17_full_rate_sweep_not_done_in_75_frames :
    fullRateWidth 0 = SERVO_MIN ∧
    (∀ k, fullRateWidth (k + 1) ≤ fullRateWidth k + GRADIENT) ∧
    fullRateWidth (SWEEPTIME / 20) = 1950 ∧
    ¬ ∃ k, k ≤ SWEEPTIME / 20 ∧ fullRateWidth k = SERVO_MAX := by
  refine ⟨by decide, fullRateWidth_step, by decide, ?_⟩
  rintro ⟨k, hk, h⟩
  have : ∀ k ≤ SWEEPTIME / 20, fullRateWidth k ≠ SERVO_MAX := by decide
  exact this k hk h

/-- C18, amended: for every value of `lastRandomValue`, `startCmpDelay` loads the timer with
the complement of `3120 + r`, where `3120 = 2 * (1200 + 360)` ticks and the random component
`r` is the low 11 bits of `getRandomValue lastRandomValue`, between 0 and 2047 ticks
inclusive; the unmasked output becomes the new `lastRandomValue` and the mode becomes 1
(CMP delay). -/
theorem C18_cmp_delay_window {σ : Type} (s : LnDriver σ) :
    (startCmpDelay s).TMR1 = 65535 - (3120 + (getRandomValue s.lastRandomValue &&& 2047)) ∧
    3120 = 2 * (1200 + 360) ∧
    getRandomValue s.lastRandomValue &&& 2047 ≤ 2047 ∧
    (startCmpDelay s).lastRandomValue = getRandomValue s.lastRandomValue ∧
    (startCmpDelay s).TMR1_MODE = 1 :=
  ⟨startCmpDelay_TMR1 s, rfl, Nat.and_le_right, rfl, rfl⟩

/-- Counterexample to C18 as stated: with `lastRandomValue = 0x0FFE` the random component is
2047 ticks, more than 2046, and the timer is loaded with the complement of 5167. -/
theorem C18_random_component_2047 :
    getRandomValue 0x0FFE &&& 2047 = 2047 ∧
    (startCmpDelay { lnInit 16 () with lastRandomValue := 0x0FFE }).TMR1 = 65535 - 5167 ∧
    ¬ (getRandomValue 0x0FFE &&& 2047 ≤ 2046) := by
  decide

/-- C19, amended: on an echo mismatch in `lnIsrRc` and when `txHandler` finds the line not
free, the timer is loaded with the complement of 1800, that is for 1800 ticks (900 us at
0.5 us per tick); after a framing error `lnIsr` loads the complement of 600, that is 600
ticks (300 us); in all three cases the mode becomes 2 (line-break), the serial port is
disabled and the TX pin is forced. -/
theorem C19_linebreak_durations {σ : Type} (recoverLnMessage : lnQueue → lnQueue)
    (cb : lnQueue → σ → lnQueue × σ) (oob : Nat → Nat) (RC7 RCIDL : Bool) (RC1REG : Nat)
    (s : LnDriver σ) :
    (s.lnTxTempQueue.numEntries ≠ 0 → RC1REG ≠ headValue s.lnTxTempQueue →
      (lnIsrRc cb oob RC7 RCIDL RC1REG s).TMR1 = 65535 - 1800 ∧
      (lnIsrRc cb oob RC7 RCIDL RC1REG s).TMR1_MODE = 2 ∧
      (lnIsrRc cb oob RC7 RCIDL RC1REG s).SPEN = false ∧
      (lnIsrRc cb oob RC7 RCIDL RC1REG s).RC6 = true) ∧
    (isLnFree RC7 RCIDL = false →
      (txHandler RC7 RCIDL s).TMR1 = 65535 - 1800 ∧ (txHandler RC7 RCIDL s).TMR1_MODE = 2 ∧
      (txHandler RC7 RCIDL s).SPEN = false ∧ (txHandler RC7 RCIDL s).RC6 = true) ∧
    ((lnIsr recoverLnMessage cb oob false true true RC7 RCIDL RC1REG s).TMR1 = 65535 - 600 ∧
      (lnIsr recoverLnMessage cb oob false true true RC7 RCIDL RC1REG s).TMR1_MODE = 2 ∧
      (lnIsr recoverLnMessage cb oob false true true RC7 RCIDL RC1REG s).SPEN = false ∧
      (lnIsr recoverLnMessage cb oob false true true RC7 RCIDL RC1REG s).RC6 = true) := by
  refine ⟨?_, ?_, ⟨rfl, rfl, rfl, rfl⟩⟩
  · intro hne hmis
    rw [lnIsrRc_mismatch cb oob RC7 RCIDL RC1REG s hne hmis]
    exact ⟨rfl, rfl, rfl, rfl⟩
  · intro hfree
    unfold txHandler
    rw [hfree]
    exact ⟨rfl, rfl, rfl, rfl⟩

/-- Counterexample to C19 as stated: in scenario 6, after `0xFF` is read back for the second
byte, the timer holds the complement of 1800 and not of 3600; a framing error in the same
state loads the complement of 600 and not of 1200. -/
theorem C19_linebreak_is_1800_ticks :
    retryScenarioBreak.TMR1_MODE = 2 ∧
    retryScenarioBreak.TMR1 = 65535 - 1800 ∧
    retryScenarioBreak.TMR1 ≠ 65535 - 3600 ∧
    (lnIsr (fun q => q) simpleRxMessageHandler zeroMemory false true true true true 0x00
      retryScenarioEchoed).TMR1 = 65535 - 600 ∧
    (lnIsr (fun q => q) simpleRxMessageHandler zeroMemory false true true true true 0x00
      retryScenarioEchoed).TMR1 ≠ 65535 - 1200 := by
  decide

/-- C20 (echo match): in `lnIsrRc` with TX staging holding `h` followed by `t` and the
received byte equal to `h`, TX staging becomes exactly `t`; the RX staging queue, the
delivered queue, the callback history and the application state are unchanged; if `t` is
empty the mode becomes 1 (CMP delay) and nothing is written to the transmit register; if
`t` is not empty and the line is free, the head of `t` is written to the transmit
register. -/
theorem C20_echo_match {σ : Type} (cb : lnQueue → σ → lnQueue × σ) (oob : Nat → Nat)
    (RC7 RCIDL : Bool) (s : LnDriver σ) (h : Nat) (t : List Nat)
    (hwf : WF s.lnTxTempQueue) (hq : toList s.lnTxTempQueue = h :: t) :
    toList (lnIsrRc cb oob RC7 RCIDL h s).lnTxTempQueue = t ∧
    (lnIsrRc cb oob RC7 RCIDL h s).lnRxTempQueue = s.lnRxTempQueue ∧
    (lnIsrRc cb oob RC7 RCIDL h s).lnRxQueue = s.lnRxQueue ∧
    (lnIsrRc cb oob RC7 RCIDL h s).callbacks = s.callbacks ∧
    (lnIsrRc cb oob RC7 RCIDL h s).app = s.app ∧
    (t = [] → (lnIsrRc cb oob RC7 RCIDL h s).TMR1_MODE = 1 ∧
      (lnIsrRc cb oob RC7 RCIDL h s).TXREG = s.TXREG) ∧
    (t ≠ [] → isLnFree RC7 RCIDL = true →
      (lnIsrRc cb oob RC7 RCIDL h s).TXREG = s.TXREG ++ [t.headD 0]) := by
  have hne := numEntries_ne_zero_of_toList _ _ _ hq
  have hh : headValue s.lnTxTempQueue = h := by
    rw [headValue_eq_headD _ hwf hne, hq]; rfl
  have hd := toList_deQueue _ hwf hne
  rw [hq, hh] at hd
  have hd2 : toList (deQueue s.lnTxTempQueue) = t := (List.cons.inj hd).2.symm
  have hwf2 := WF_deQueue _ hwf
  rw [← hh]
  by_cases h2 : (deQueue s.lnTxTempQueue).numEntries = 0
  · have ht : t = [] := by rw [← hd2]; exact toList_eq_nil _ h2
    rw [lnIsrRc_echo_last cb oob RC7 RCIDL s hne h2]
    exact ⟨hd2, rfl, rfl, rfl, rfl, fun _ => ⟨rfl, rfl⟩, fun hn => absurd ht hn⟩
  · have ht : t ≠ [] := by
      intro e; rw [e] at hd2
      have := toList_length (deQueue s.lnTxTempQueue); rw [hd2] at this
      exact h2 this.symm
    rw [lnIsrRc_echo_more cb oob RC7 RCIDL s hne h2]
    have hv : headValue (deQueue s.lnTxTempQueue) = t.headD 0 := by
      rw [headValue_eq_headD _ hwf2 h2, hd2]
    refine ⟨?_, ?_, ?_, ?_, ?_, fun e => absurd e ht, ?_⟩
    · unfold txHandler; split <;> exact hd2
    · unfold txHandler; split <;> rfl
    · unfold txHandler; split <;> rfl
    · unfold txHandler; split <;> rfl
    · unfold txHandler; split <;> rfl
    · intro _ hfree
      unfold txHandler
      rw [if_pos hfree]
      show s.TXREG ++ [headValue (deQueue s.lnTxTempQueue)] = _
      rw [hv]

/-- Witness of C20: scenario 6 after the first byte has been written; the echo `0xB2`
leaves `0x00 0x10 0x5D` staged and `0x00` is written. -/
theorem C20_echo_match_witness :
    toList (lnIsrRc simpleRxMessageHandler zeroMemory true true 0xB2
      (lnIsrTmr1 true true (lnIsrTmr1 true true (lnIsrTmr1 true true
        (lnTxMessageHandler (lnInit 16 false) (userQueue 16 [0xB2, 0x00, 0x10])).1)))
      ).lnTxTempQueue = [0x00, 0x10, 0x5D] :=
  (C20_echo_match simpleRxMessageHandler zeroMemory true true
    (lnIsrTmr1 true true (lnIsrTmr1 true true (lnIsrTmr1 true true
      (lnTxMessageHandler (lnInit 16 false) (userQueue 16 [0xB2, 0x00, 0x10])).1)))
    0xB2 [0x00, 0x10, 0x5D] (by decide) (by decide)).1

/-- C21 (echo mismatch): in `lnIsrRc` with TX staging holding `h` followed by `t` and a
received byte different from `h`, TX staging and the TX queue are unchanged, the byte does
not reach the framer (RX staging queue, delivered queue, callback history and application
state unchanged), nothing is written to the transmit register, and the mode becomes 2
(line-break) with the serial port disabled (`SPEN` false) and the TX pin forced (`RC6`
true). -/
theorem C21_echo_mismatch {σ : Type} (cb : lnQueue → σ → lnQueue × σ) (oob : Nat → Nat)
    (RC7 RCIDL : Bool) (RC1REG : Nat) (s : LnDriver σ) (h : Nat) (t : List Nat)
    (hwf : WF s.lnTxTempQueue) (hq : toList s.lnTxTempQueue = h :: t) (hmis : RC1REG ≠ h) :
    (lnIsrRc cb oob RC7 RCIDL RC1REG s).lnTxTempQueue = s.lnTxTempQueue ∧
    (lnIsrRc cb oob RC7 RCIDL RC1REG s).lnTxQueue = s.lnTxQueue ∧
    (lnIsrRc cb oob RC7 RCIDL RC1REG s).lnRxTempQueue = s.lnRxTempQueue ∧
    (lnIsrRc cb oob RC7 RCIDL RC1REG s).lnRxQueue = s.lnRxQueue ∧
    (lnIsrRc cb oob RC7 RCIDL RC1REG s).callbacks = s.callbacks ∧
    (lnIsrRc cb oob RC7 RCIDL RC1REG s).app = s.app ∧
    (lnIsrRc cb oob RC7 RCIDL RC1REG s).TXREG = s.TXREG ∧
    (lnIsrRc cb oob RC7 RCIDL RC1REG s).TMR1_MODE = 2 ∧
    (lnIsrRc cb oob RC7 RCIDL RC1REG s).SPEN = false ∧
    (lnIsrRc cb oob RC7 RCIDL RC1REG s).RC6 = true := by
  have hne := numEntries_ne_zero_of_toList _ _ _ hq
  have hh : headValue s.lnTxTempQueue = h := by
    rw [headValue_eq_headD _ hwf hne, hq]; rfl
  rw [lnIsrRc_mismatch cb oob RC7 RCIDL RC1REG s hne (by rw [hh]; exact hmis)]
  exact ⟨rfl, rfl, rfl, rfl, rfl, rfl, rfl, rfl, rfl, rfl⟩

/-- Witness of C21: scenario 6 after the first echo, with `0x00 0x10 0x5D` staged; `0xFF` is
read back instead of `0x00`. -/
theorem C21_echo_mismatch_witness :
    toList retryScenarioEchoed.lnTxTempQueue = [0x00, 0x10, 0x5D] ∧
    toList (lnIsrRc simpleRxMessageHandler zeroMemory true true 0xFF
      retryScenarioEchoed).lnTxTempQueue = [0x00, 0x10, 0x5D] ∧
    (lnIsrRc simpleRxMessageHandler zeroMemory true true 0xFF
      retryScenarioEchoed).TMR1_MODE = 2 :=
  have h := C21_echo_mismatch simpleRxMessageHandler zeroMemory true true 0xFF
    retryScenarioEchoed 0x00 [0x10, 0x5D] (by decide) (by decide) (by decide)
  ⟨by decide, by rw [h.1]; decide, h.2.2.2.2.2.2.2.1⟩

/-- C22 (idle expiry priorities): timer 1 expires in mode 0 (idle); all queues are ring
queues and the two TX queues have the same capacity. (a) Line free and TX staging not empty:
the mode becomes 3 (BRG sync) and TX staging and the TX queue are unchanged. (b) Line free,
TX staging empty, TX queue holding a byte `a`, then bytes `pl` with the high bit clear, then
`rest` (empty or starting with an opcode): TX staging holds exactly `a :: pl`, the TX queue
holds `rest`, and the mode becomes 3. (c) Line free and both empty: the mode stays 0 with
the timer loaded with the complement of 2000, and both TX queues are unchanged. (d) Line not
free: the mode becomes 1 (CMP delay) and both TX queues are unchanged. In every case the two
RX queues, the callback history and the transmit register history are unchanged. -/
theorem C22_idle_expiry_priorities {σ : Type} (RC7 RCIDL : Bool) (s : LnDriver σ)
    (hmode : s.TMR1_MODE = 0) (htx : WF s.lnTxQueue) (htemp : WF s.lnTxTempQueue)
    (hsize : s.lnTxTempQueue.size = s.lnTxQueue.size) :
    (isLnFree RC7 RCIDL = true → s.lnTxTempQueue.numEntries ≠ 0 →
      (lnIsrTmr1 RC7 RCIDL s).TMR1_MODE = 3 ∧
      (lnIsrTmr1 RC7 RCIDL s).lnTxTempQueue = s.lnTxTempQueue ∧
      (lnIsrTmr1 RC7 RCIDL s).lnTxQueue = s.lnTxQueue) ∧
    (isLnFree RC7 RCIDL = true → s.lnTxTempQueue.numEntries = 0 →
      ∀ (a : Nat) (pl rest : List Nat), toList s.lnTxQueue = a :: (pl ++ rest) →
        (∀ b ∈ pl, msbClear b) → (rest = [] ∨ msbSet (rest.headD 0)) →
        toList (lnIsrTmr1 RC7 RCIDL s).lnTxTempQueue = a :: pl ∧
        toList (lnIsrTmr1 RC7 RCIDL s).lnTxQueue = rest ∧
        (lnIsrTmr1 RC7 RCIDL s).TMR1_MODE = 3) ∧
    (isLnFree RC7 RCIDL = true → s.lnTxTempQueue.numEntries = 0 →
      s.lnTxQueue.numEntries = 0 →
      (lnIsrTmr1 RC7 RCIDL s).TMR1_MODE = 0 ∧
      (lnIsrTmr1 RC7 RCIDL s).TMR1 = 65535 - 2000 ∧
      (lnIsrTmr1 RC7 RCIDL s).lnTxTempQueue = s.lnTxTempQueue ∧
      (lnIsrTmr1 RC7 RCIDL s).lnTxQueue = s.lnTxQueue) ∧
    (isLnFree RC7 RCIDL = false →
      (lnIsrTmr1 RC7 RCIDL s).TMR1_MODE = 1 ∧
      (lnIsrTmr1 RC7 RCIDL s).lnTxTempQueue = s.lnTxTempQueue ∧
      (lnIsrTmr1 RC7 RCIDL s).lnTxQueue = s.lnTxQueue) ∧
    (lnIsrTmr1 RC7 RCIDL s).lnRxTempQueue = s.lnRxTempQueue ∧
    (lnIsrTmr1 RC7 RCIDL s).lnRxQueue = s.lnRxQueue ∧
    (lnIsrTmr1 RC7 RCIDL s).callbacks = s.callbacks ∧
    (lnIsrTmr1 RC7 RCIDL s).TXREG = s.TXREG := by
  refine ⟨?_, ?_, ?_, ?_, ?_⟩
  · intro hfree hne
    have e1 : (!isQueueEmpty s.lnTxTempQueue) = true := by simp [isQueueEmpty, hne]
    unfold lnIsrTmr1
    rw [if_pos hmode, if_pos hfree, if_pos e1]
    exact ⟨rfl, rfl, rfl⟩
  · intro hfree he a pl rest hq hpl hrest
    have hne := numEntries_ne_zero_of_toList _ _ _ hq
    have e1 : ¬ ((!isQueueEmpty s.lnTxTempQueue) = true) := by simp [isQueueEmpty, he]
    have e2 : (!isQueueEmpty s.lnTxQueue) = true := by simp [isQueueEmpty, hne]
    have hlen : pl.length + 1 ≤ s.lnTxQueue.numEntries := by
      have := toList_length s.lnTxQueue; rw [hq] at this; simp at this; omega
    have hroom : s.lnTxTempQueue.numEntries + pl.length + 1 ≤ s.lnTxTempQueue.size := by
      have := htx.count_le; omega
    obtain ⟨h1, h2, h3, _⟩ := startLnTxMessage_spec s a pl rest htx htemp hq hpl hrest hroom
    unfold lnIsrTmr1
    rw [if_pos hmode, if_pos hfree, if_neg e1, if_pos e2, h1, toList_eq_nil _ he]
    exact ⟨rfl, h2, h3⟩
  · intro hfree he he2
    have e1 : ¬ ((!isQueueEmpty s.lnTxTempQueue) = true) := by simp [isQueueEmpty, he]
    have e2 : ¬ ((!isQueueEmpty s.lnTxQueue) = true) := by simp [isQueueEmpty, he2]
    unfold lnIsrTmr1
    rw [if_pos hmode, if_pos hfree, if_neg e1, if_neg e2]
    exact ⟨rfl, rfl, rfl, rfl⟩
  · intro hfree
    have e0 : ¬ (isLnFree RC7 RCIDL = true) := by simp [hfree]
    unfold lnIsrTmr1
    rw [if_pos hmode, if_neg e0]
    exact ⟨rfl, rfl, rfl⟩
  · unfold lnIsrTmr1
    rw [if_pos hmode]
    split
    · split
      · exact ⟨rfl, rfl, rfl, rfl⟩
      · split
        · exact ⟨rfl, rfl, rfl, rfl⟩
        · exact ⟨rfl, rfl, rfl, rfl⟩
    · exact ⟨rfl, rfl, rfl, rfl⟩

/-- Witness of C22: capacity 16, the framed message `0xB2 0x00 0x10 0x5D` in the TX queue,
TX staging empty, the CMP delay expired once so that the mode is 0; with the line free the
next expiry stages the message. -/
theorem C22_idle_expiry_priorities_witness :
    (lnIsrTmr1 true true
      (lnTxMessageHandler (lnInit 16 false) (userQueue 16 [0xB2, 0x00, 0x10])).1).TMR1_MODE = 0 ∧
    toList (lnIsrTmr1 true true (lnIsrTmr1 true true
      (lnTxMessageHandler (lnInit 16 false) (userQueue 16 [0xB2, 0x00, 0x10])).1)).lnTxTempQueue
      = [0xB2, 0x00, 0x10, 0x5D] ∧
    toList (lnIsrTmr1 true true (lnIsrTmr1 true true
      (lnTxMessageHandler (lnInit 16 false) (userQueue 16 [0xB2, 0x00, 0x10])).1)).lnTxQueue
      = [] :=
  have h := (C22_idle_expiry_priorities true true
    (lnIsrTmr1 true true
      (lnTxMessageHandler (lnInit 16 false) (userQueue 16 [0xB2, 0x00, 0x10])).1)
    (by decide) (by decide) (by decide) (by decide)).2.1 (by decide) (by decide)
    0xB2 [0x00, 0x10, 0x5D] [] (by decide) (by decide) (Or.inl rfl)
  ⟨by decide, h.1, h.2.1⟩

/-- C23 (`startLnTxMessage` copies exactly one message): the TX queue holds `m1` followed by
`rest`, where `m1` is not empty and every byte of `m1` after the first has its high bit clear,
and `rest` is empty or starts with a byte whose high bit is set; TX staging is empty and has
room for `m1`. Then `startLnTxMessage` leaves TX staging holding exactly `m1`, the TX queue
holding exactly `rest`, and the timer mode 3 (BRG sync). The high bit of the first byte of
`m1` plays no role and is not assumed. -/
theorem C23_startLnTxMessage_one_message {σ : Type} (s : LnDriver σ) (m1 rest : List Nat)
    (htx : WF s.lnTxQueue) (htemp : WF s.lnTxTempQueue)
    (hq : toList s.lnTxQueue = m1 ++ rest) (hne : m1 ≠ [])
    (hpl : ∀ b ∈ m1.tail, msbClear b) (hrest : rest = [] ∨ msbSet (rest.headD 0))
    (hempty : s.lnTxTempQueue.numEntries = 0) (hroom : m1.length ≤ s.lnTxTempQueue.size) :
    toList (startLnTxMessage s).lnTxTempQueue = m1 ∧
    toList (startLnTxMessage s).lnTxQueue = rest ∧
    (startLnTxMessage s).TMR1_MODE = 3 := by
  obtain ⟨a, pl, rfl⟩ := List.exists_cons_of_ne_nil hne
  have hroom2 : s.lnTxTempQueue.numEntries + pl.length + 1 ≤ s.lnTxTempQueue.size := by
    simp at hroom; omega
  obtain ⟨h1, h2, h3, _⟩ := startLnTxMessage_spec s a pl rest htx htemp hq hpl hrest hroom2
  rw [h1, toList_eq_nil _ hempty]
  exact ⟨rfl, h2, h3⟩

/-- Witness of C23: capacity 16, the TX queue holds the framed messages `0xB2 0x00 0x10 0x5D`
and `0x82 0x7D`; the first is staged and the second stays. -/
theorem C23_startLnTxMessage_one_message_witness :
    toList (startLnTxMessage (lnTxMessageHandler
      (lnTxMessageHandler (lnInit 16 ()) (userQueue 16 [0xB2, 0x00, 0x10])).1
      (userQueue 16 [0x82])).1).lnTxTempQueue = [0xB2, 0x00, 0x10, 0x5D] ∧
    toList (startLnTxMessage (lnTxMessageHandler
      (lnTxMessageHandler (lnInit 16 ()) (userQueue 16 [0xB2, 0x00, 0x10])).1
      (userQueue 16 [0x82])).1).lnTxQueue = [0x82, 0x7D] :=
  have h := C23_startLnTxMessage_one_message
    (lnTxMessageHandler
      (lnTxMessageHandler (lnInit 16 ()) (userQueue 16 [0xB2, 0x00, 0x10])).1
      (userQueue 16 [0x82])).1
    [0xB2, 0x00, 0x10, 0x5D] [0x82, 0x7D] (by decide) (by decide) (by decide) (by decide)
    (by decide) (Or.inr (by decide)) (by decide) (by decide)
  ⟨h.1, h.2.1⟩

/-- C24 (an opcode always resets RX staging): for every RX staging ring queue, whatever it
holds, and every byte `b` with its high bit set, `rxHandler` leaves the RX staging queue
holding exactly `[b]`, invokes no callback and leaves the delivered queue and the application
state unchanged. And with a capacity of at least 2, an opcode `op` of the variable size
class (bits 6..5 set) followed by a second byte `L` below 2 and by any bytes `pl` with the
high bit clear delivers nothing: no callback is invoked and the delivered queue is
unchanged, whatever the unreduced reads find past the array. -/
theorem C24_opcode_resets_staging {σ : Type} (cb : lnQueue → σ → lnQueue × σ)
    (s : LnDriver σ) (hwf : WF s.lnRxTempQueue) :
    (∀ (oob : Nat → Nat) (b : Nat), msbSet b →
      toList (rxHandler cb oob s b).lnRxTempQueue = [b] ∧
      (rxHandler cb oob s b).callbacks = s.callbacks ∧
      (rxHandler cb oob s b).lnRxQueue = s.lnRxQueue ∧
      (rxHandler cb oob s b).app = s.app) ∧
    (2 ≤ s.lnRxTempQueue.size →
      ∀ (op L : Nat) (o1 o2 : Nat → Nat) (pl : List (Nat × (Nat → Nat))),
        msbSet op → op &&& 0x60 = 0x60 → op < 256 → L < 2 →
        (∀ x ∈ pl, msbClear x.1 ∧ x.1 < 256) →
        (rxRun cb s ((op, o1) :: (L, o2) :: pl)).callbacks = s.callbacks ∧
        (rxRun cb s ((op, o1) :: (L, o2) :: pl)).lnRxQueue = s.lnRxQueue ∧
        (rxRun cb s ((op, o1) :: (L, o2) :: pl)).app = s.app) := by
  have hc := WF_clearQueue _ hwf
  have hnf : (clearQueue s.lnRxTempQueue).numEntries ≠ (clearQueue s.lnRxTempQueue).size := by
    have := hwf.size_pos
    show 0 ≠ s.lnRxTempQueue.size
    omega
  refine ⟨?_, ?_⟩
  · intro oob b hb
    rw [rxHandler_opcode cb oob s b hb]
    refine ⟨?_, rfl, rfl, rfl⟩
    show toList (enQueue (clearQueue s.lnRxTempQueue) b) = [b]
    rw [toList_enQueue _ b hc hnf, toList_clearQueue]
    rfl
  · intro hs op L o1 o2 pl hop hcls hop2 hL hpl
    have hLc : msbClear L := by
      have : L = 0 ∨ L = 1 := by omega
      rcases this with rfl | rfl <;> decide
    have h1 := shortFrame_start s.lnRxTempQueue op L hwf hs hcls hop2 hL
    have hn : ¬ (L &&& 0x80 = 0x80) := by
      have : L &&& 0x80 = 0 := hLc
      rw [this]; decide
    have e1 := rxHandler_opcode cb o1 s op hop
    have e2 : rxHandler cb o2 (rxHandler cb o1 s op) L
        = { s with lnRxTempQueue := enQueue (enQueue (clearQueue s.lnRxTempQueue) op) L } := by
      rw [rxHandler_keep cb o2 (rxHandler cb o1 s op) L hn
        (Or.inl (by rw [e1]; exact shortFrame_length o2 _ h1)), e1]
    have h2 := rxRun_shortFrame cb pl (rxHandler cb o2 (rxHandler cb o1 s op) L)
      (by rw [e2]; exact h1) hpl
    rw [rxRun_cons, rxRun_cons, h2.1, h2.2.1, h2.2.2, e2]
    exact ⟨rfl, rfl, rfl⟩

/-- Witness of C24: capacity 16, RX staging left over from the failed frame `0x82`; the
opcode `0xE5` leaves `[0xE5]` staged, and the frame `0xE5 0x01 0x1B` (second byte 1, XOR of
the three bytes `0xFF`) is not delivered. -/
theorem C24_opcode_resets_staging_witness :
    toList failedFrameDriver.lnRxTempQueue = [0x82] ∧
    toList (rxHandler simpleRxMessageHandler zeroMemory failedFrameDriver 0xE5).lnRxTempQueue
      = [0xE5] ∧
    xorAll [0xE5, 0x01, 0x1B] = 0xFF ∧
    (rxRun simpleRxMessageHandler failedFrameDriver
      [(0xE5, zeroMemory), (0x01, zeroMemory), (0x1B, zeroMemory)]).callbacks = [] :=
  have h := C24_opcode_resets_staging simpleRxMessageHandler failedFrameDriver (by decide)
  ⟨by decide, (h.1 zeroMemory 0xE5 (by decide)).1, by decide,
    (h.2 (by decide) 0xE5 0x01 zeroMemory zeroMemory [(0x1B, zeroMemory)] (by decide)
      (by decide) (by decide) (by decide) (by decide)).1⟩

/-- C25 (shift register step and period): `getRandomValue x` is `(x >> 1) XOR 0xB400` when
`x` is odd and `x >> 1` when `x` is even. For every non-zero 16-bit state `s`, applying
`getRandomValue` 65535 times returns `s` and no smaller positive number of applications
does. A non-zero 16-bit state is mapped to a non-zero 16-bit state, so the iterates of the
seed 1234 are never 0; `lnInit` leaves `lastRandomValue` at `getRandomValue 1234`, and an
interrupt or a call of `lnTxMessageHandler` on a driver state whose `lastRandomValue` is a
non-zero 16-bit value leaves it a non-zero 16-bit value. -/
theorem C25_lfsr_step_and_period :
    (∀ x : Nat, getRandomValue x
      = if x % 2 = 1 then (x >>> 1) ^^^ 0xB400 else x >>> 1) ∧
    (∀ s : Nat, s ≠ 0 → s < 65536 →
      getRandomValue^[65535] s = s ∧
      ∀ k : Nat, 0 < k → k < 65535 → getRandomValue^[k] s ≠ s) ∧
    (∀ x : Nat, x ≠ 0 → x < 65536 → getRandomValue x ≠ 0 ∧ getRandomValue x < 65536) ∧
    (∀ n : Nat, getRandomValue^[n] 1234 ≠ 0) ∧
    (∀ (σ : Type) (N : Nat) (app : σ),
      (lnInit N app).lastRandomValue = getRandomValue 1234) ∧
    (∀ (σ : Type) (recoverLnMessage : lnQueue → lnQueue) (cb : lnQueue → σ → lnQueue × σ)
      (oob : Nat → Nat) (TMR1IF RC1IF FERR RC7 RCIDL : Bool) (RC1REG : Nat) (s : LnDriver σ)
      (lnTxMsg : lnQueue),
      s.lastRandomValue ≠ 0 → s.lastRandomValue < 65536 →
      ((lnIsr recoverLnMessage cb oob TMR1IF RC1IF FERR RC7 RCIDL RC1REG s).lastRandomValue ≠ 0 ∧
       (lnIsr recoverLnMessage cb oob TMR1IF RC1IF FERR RC7 RCIDL RC1REG s).lastRandomValue
          < 65536) ∧
      (lnTxMessageHandler s lnTxMsg).1.lastRandomValue = s.lastRandomValue) := by
  refine ⟨?_, ?_, ?_, ?_, ?_, ?_⟩
  · intro x
    rcases Nat.mod_two_eq_zero_or_one x with e | e
    · rw [getRandomValue_even x e, if_neg (by omega)]
    · rw [getRandomValue_odd x e, if_pos e]
  · intro s h0 h
    have hm := minimalPeriod_getRandomValue s h0 h
    refine ⟨?_, ?_⟩
    · have := Function.isPeriodicPt_minimalPeriod getRandomValue s
      rw [hm] at this
      exact this
    · intro k hk hlt hper
      have := Function.IsPeriodicPt.minimalPeriod_le hk hper
      omega
  · intro x h0 h
    exact ⟨getRandomValue_ne_zero x h0 h, getRandomValue_lt x h⟩
  · intro n
    exact (iterate_getRandomValue_state n 1234 (by decide) (by decide)).1
  · intro σ N app
    simp [lnInit, startCmpDelay]
  · intro σ recoverLnMessage cb oob TMR1IF RC1IF FERR RC7 RCIDL RC1REG s lnTxMsg h0 h
    refine ⟨?_, rfl⟩
    rcases lnIsr_lastRandomValue recoverLnMessage cb oob TMR1IF RC1IF FERR RC7 RCIDL RC1REG s
      with e | e
    · rw [e]; exact ⟨h0, h⟩
    · rw [e]; exact ⟨getRandomValue_ne_zero _ h0 h, getRandomValue_lt _ h⟩

/-- Witness of C25: the seed 1234 returns after 65535 steps and not after 255 steps, and the
state 1 (odd) steps to `0xB400`. -/
theorem C25_lfsr_step_and_period_witness :
    getRandomValue^[65535] 1234 = 1234 ∧ getRandomValue^[255] 1234 ≠ 1234 ∧
    getRandomValue 1 = 0xB400 :=
  ⟨(C25_lfsr_step_and_period.2.1 1234 (by decide) (by decide)).1,
   (C25_lfsr_step_and_period.2.1 1234 (by decide) (by decide)).2 255 (by decide) (by decide),
   by decide⟩

/-- C26 (compare programming): let `w` be the width of the slot selected by `servoIsrTmr3`,
read after the callback. If `2 * w ≤ 5000`, the compare value written is the 16-bit
complement of `5000 - 2 * w` without wrap-around and equals the timer reload value (the
complement of 5000) plus `2 * w`, so it lies between the reload value and `0xFFFF`. This
holds for every `w` between `SERVO_MIN` and `SERVO_MAX`, and `servoInit` programs the compare
value for the width 1500 in the same way: reload value plus 3000. -/
theorem C26_compare_programming {α : Type} (cb : Nat → List Nat → α → List Nat × α)
    (s : Servo α) (w : Nat)
    (hw : (servoIsrTmr3 cb s).servoPortD.getD (servoIsrTmr3 cb s).pinIndex 0 = w) :
    (2 * w ≤ 5000 →
      (servoIsrTmr3 cb s).CCPR1 = 65535 - (5000 - 2 * w) ∧
      (servoIsrTmr3 cb s).TMR3 = 65535 - 5000 ∧
      (servoIsrTmr3 cb s).CCPR1 = (servoIsrTmr3 cb s).TMR3 + 2 * w ∧
      (servoIsrTmr3 cb s).TMR3 ≤ (servoIsrTmr3 cb s).CCPR1 ∧
      (servoIsrTmr3 cb s).CCPR1 ≤ 0xFFFF) ∧
    (SERVO_MIN ≤ w → w ≤ SERVO_MAX → 2 * w ≤ 5000) ∧
    (∀ (β : Type) (app : β), (servoInit app).servoPortD = List.replicate 8 1500 ∧
      (servoInit app).CCPR1 = (servoInit app).TMR3 + 2 * 1500 ∧
      (servoInit app).CCPR1 ≤ 0xFFFF) := by
  refine ⟨?_, ?_, ?_⟩
  · intro h
    have e : (servoIsrTmr3 cb s).CCPR1
        = 65535 - (TIMER3_2500us + 65536 - (w * 2) % 65536) % 65536 := by
      rw [← hw]; rfl
    have e2 : (servoIsrTmr3 cb s).TMR3 = 65535 - TIMER3_2500us := rfl
    have e3 : TIMER3_2500us = 5000 := rfl
    rw [e, e2, e3]
    omega
  · intro h1 h2
    simp only [SERVO_MAX] at h2
    omega
  · intro β app
    have e1 : (servoInit app).CCPR1 = 65535 - (5000 - 1500 * 2) := rfl
    have e2 : (servoInit app).TMR3 = 65535 - 5000 := rfl
    rw [e1, e2]
    exact ⟨rfl, by decide, by decide⟩

/-- Witness of C26: the first tick after `servoInit`, with a callback that changes nothing,
selects slot 1 with width 1500 and writes the compare value 63535 = 60535 + 3000. -/
theorem C26_compare_programming_witness :
    (servoIsrTmr3 (fun _ w a => (w, a)) (servoInit ())).CCPR1 = 63535 ∧
    (servoIsrTmr3 (fun _ w a => (w, a)) (servoInit ())).TMR3 = 60535 :=
  have h := (C26_compare_programming (fun _ w a => (w, a)) (servoInit ()) 1500
    (by decide)).1 (by decide)
  ⟨h.1, h.2.1⟩

set_option maxRecDepth 100000 in
/-- C27, the code at a wrapped queue, capacity 16. Decoder: after seven messages `0x82 0x7D`
the valid switch request `0xB0 0x11 0x21 0x7F` is handed to the callback in a ring queue with
head index 14; `values[head + 2]` is index 16 of a 16-byte array, so the read returns the
byte found behind the array (`0x5A` here) and not the third byte `0x21`, which is at index
`(head + 2) % 16 = 0`. Framer: after a delivered 15-byte message the stray bytes
`0x60 0x05` are staged at head index 15; `values[head + 1]` is again index 16, and the length
`rxHandler` computes is whatever byte lies behind the array (2, or 0) and not the second
queued byte `0x05`. -/
theorem C27_unreduced_reads_leave_array :
    ((rxRun recordingCallback (lnInit 16 []) wrapInput).app.getLast?.map
      (fun q => (decide (WF q), q.head, q.values.length, toList q,
        rawRead (fun _ => 0x5A) q (q.head + 2), q.values.getD ((q.head + 2) % q.size) 0)))
      = some (true, 14, 16, [0xB0, 0x11, 0x21, 0x7F], 0x5A, 0x21) ∧
    WF (rxRun recordingCallback (lnInit 16 []) strayInput).lnRxTempQueue ∧
    (rxRun recordingCallback (lnInit 16 []) strayInput).lnRxTempQueue.head = 15 ∧
    (rxRun recordingCallback (lnInit 16 []) strayInput).lnRxTempQueue.values.length = 16 ∧
    toList (rxRun recordingCallback (lnInit 16 []) strayInput).lnRxTempQueue = [0x60, 0x05] ∧
    rxMessageLength (fun _ => 2)
      (rxRun recordingCallback (lnInit 16 []) strayInput).lnRxTempQueue = 2 ∧
    rxMessageLength zeroMemory
      (rxRun recordingCallback (lnInit 16 []) strayInput).lnRxTempQueue = 0 := by
  decide

/-- C28, the code while a staged message waits: with capacity 16 and the framed message
`0xB2 0x00 0x10 0x5D` staged, the BRG delay running and nothing written to the transmit
register yet, the byte `0xB2` received from the bus removes the staged opcode, and `0x00` is
the first byte written. After the echo mismatch of scenario 6 and the end of the line-break
(mode 1, CMP delay, `0x00 0x10 0x5D` staged, nothing written since the break), the byte
`0x00` received from the bus removes the staged head, and `0x10` is written next. -/
theorem C28_foreign_byte_removes_staged_head :
    stagedDriver.TMR1_MODE = 3 ∧
    toList stagedDriver.lnTxTempQueue = [0xB2, 0x00, 0x10, 0x5D] ∧
    stagedDriver.TXREG = [] ∧
    toList (lnIsrRc simpleRxMessageHandler zeroMemory true true 0xB2
      stagedDriver).lnTxTempQueue = [0x00, 0x10, 0x5D] ∧
    (lnIsrRc simpleRxMessageHandler zeroMemory true true 0xB2 stagedDriver).TXREG = [0x00] ∧
    (lnIsrTmr1 true true retryScenarioBreak).TMR1_MODE = 1 ∧
    toList (lnIsrTmr1 true true retryScenarioBreak).lnTxTempQueue = [0x00, 0x10, 0x5D] ∧
    (lnIsrTmr1 true true retryScenarioBreak).TXREG = retryScenarioBreak.TXREG ∧
    toList (lnIsrRc simpleRxMessageHandler zeroMemory true true 0x00
      (lnIsrTmr1 true true retryScenarioBreak)).lnTxTempQueue = [0x10, 0x5D] ∧
    (lnIsrRc simpleRxMessageHandler zeroMemory true true 0x00
      (lnIsrTmr1 true true retryScenarioBreak)).TXREG = [0xB2, 0x00, 0x10] := by
  decide

/-- C29 (the checksum byte never looks like an opcode): the TX queue has room for the user
queue and one more byte. If the first byte of the user queue has its high bit set and every
other byte has its high bit clear, `lnTxMessageHandler` appends the user bytes and the
checksum byte `0xFF XOR` (XOR of the user bytes), the checksum byte has its high bit clear,
and so has every appended byte but the first. If the user queue is empty, the single byte
`0xFF` is appended, and its high bit is set. -/
theorem C29_checksum_not_opcode {σ : Type} (s : LnDriver σ) (lnTxMsg : lnQueue)
    (htx : WF s.lnTxQueue) (hu : WF lnTxMsg)
    (hroom : s.lnTxQueue.numEntries + lnTxMsg.numEntries + 1 ≤ s.lnTxQueue.size) :
    (msbSet ((toList lnTxMsg).headD 0) → (∀ b ∈ (toList lnTxMsg).tail, msbClear b) →
      toList (lnTxMessageHandler s lnTxMsg).1.lnTxQueue
        = toList s.lnTxQueue ++ (toList lnTxMsg ++ [0xFF ^^^ xorAll (toList lnTxMsg)]) ∧
      msbClear (0xFF ^^^ xorAll (toList lnTxMsg)) ∧
      ∀ b ∈ (toList lnTxMsg ++ [0xFF ^^^ xorAll (toList lnTxMsg)]).tail, msbClear b) ∧
    (lnTxMsg.numEntries = 0 →
      toList (lnTxMessageHandler s lnTxMsg).1.lnTxQueue = toList s.lnTxQueue ++ [0xFF] ∧
      msbSet 0xFF) := by
  obtain ⟨h1, _⟩ := lnTxMessageHandler_toList s lnTxMsg htx hu hroom
  refine ⟨?_, ?_⟩
  · intro hop hrest
    have hne : toList lnTxMsg ≠ [] := by
      intro e; rw [e] at hop; exact absurd hop (by decide)
    have hum : userMessage (toList lnTxMsg) := ⟨hne, hop, hrest, toList_bytes lnTxMsg hu⟩
    obtain ⟨op, rest, hf, _, hcl⟩ := framedMessage_shape
      (toList lnTxMsg ++ [0xFF ^^^ xorAll (toList lnTxMsg)]) ⟨toList lnTxMsg, hum, rfl⟩
    have htail : ∀ b ∈ (toList lnTxMsg ++ [0xFF ^^^ xorAll (toList lnTxMsg)]).tail,
        msbClear b := by
      rw [hf]; exact hcl
    refine ⟨by rw [h1, List.append_assoc], ?_, htail⟩
    obtain ⟨a, pl, hap⟩ := List.exists_cons_of_ne_nil hne
    apply htail
    rw [hap]
    simp
  · intro he
    rw [h1, toList_eq_nil _ he, List.append_nil]
    exact ⟨rfl, by decide⟩

/-- Witness of C29: capacity 16, empty TX queue, user message `0xB2 0x00 0x10`: the checksum
byte `0x5D` is appended. -/
theorem C29_checksum_not_opcode_witness :
    toList (lnTxMessageHandler (lnInit 16 ()) (userQueue 16 [0xB2, 0x00, 0x10])).1.lnTxQueue
      = [0xB2, 0x00, 0x10, 0x5D] ∧
    toList (lnTxMessageHandler (lnInit 16 ()) (userQueue 16 [])).1.lnTxQueue = [0xFF] :=
  ⟨by
    have h := (C29_checksum_not_opcode (lnInit 16 ()) (userQueue 16 [0xB2, 0x00, 0x10])
      (by decide) (by decide) (by decide)).1 (by decide) (by decide)
    rw [h.1]; decide,
   by
    have h := (C29_checksum_not_opcode (lnInit 16 ()) (userQueue 16 [])
      (by decide) (by decide) (by decide)).2 (by decide)
    rw [h.1]; decide⟩

/-! ## Further properties -/

/-- X1 (switch request, message not wrapped): for a delivered `0xB0` message with second and
third bytes `b1`, `b2` and checksum byte, all with the high bit clear, whose first three
bytes lie inside the backing array without wrapping, let the index be `b1 & 0x07` and the
address `((b1 & 0x78) >> 3) | ((b2 & 0x0F) << 4)`. If the address equals the DIP address,
then after `lnRxMessageHandler` the turnout at the index has CAWL true and CAWR false when
bit 5 of `b2` is set, CAWL false and CAWR true otherwise, and every other turnout record is
unchanged; if the address differs, no turnout record changes. -/
theorem X1_switch_request_without_wrap (PORTA PORTC : Nat) (oob : Nat → Nat) (lnRxMsg : lnQueue)
    (aw : List AWCON_t) (b1 b2 ck : Nat) (hwf : WF lnRxMsg)
    (hmsg : toList lnRxMsg = [0xB0, b1, b2, ck])
    (hb1 : msbClear b1) (hb2 : msbClear b2) (hck : msbClear ck)
    (hin : lnRxMsg.head + 2 < lnRxMsg.size) (haw : aw.length = 8) :
    (((b1 &&& 0x78) >>> 3) ||| ((b2 &&& 0x0F) <<< 4) = getDipSwitchAddress PORTA PORTC →
      (awGet (lnRxMessageHandler PORTA PORTC oob lnRxMsg aw).2 (b1 &&& 0x07)).CAWL
        = decide (b2 &&& 0x20 = 0x20) ∧
      (awGet (lnRxMessageHandler PORTA PORTC oob lnRxMsg aw).2 (b1 &&& 0x07)).CAWR
        = !decide (b2 &&& 0x20 = 0x20) ∧
      ∀ j, j ≠ b1 &&& 0x07 →
        awGet (lnRxMessageHandler PORTA PORTC oob lnRxMsg aw).2 j = awGet aw j) ∧
    (((b1 &&& 0x78) >>> 3) ||| ((b2 &&& 0x0F) <<< 4) ≠ getDipSwitchAddress PORTA PORTC →
      (lnRxMessageHandler PORTA PORTC oob lnRxMsg aw).2 = aw) := by
  have hrest : ∀ b ∈ [b1, b2, ck], b ≠ 0xb0 ∧ b ≠ 0x82 ∧ b ≠ 0x83 := by
    intro b hb
    simp only [List.mem_cons, List.mem_singleton, List.not_mem_nil, or_false] at hb
    rcases hb with rfl | rfl | rfl
    · exact msbClear_not_dispatched _ hb1
    · exact msbClear_not_dispatched _ hb2
    · exact msbClear_not_dispatched _ hck
  obtain ⟨h1, _⟩ := lnRxMessageHandler_switch PORTA PORTC oob lnRxMsg aw b1 b2 [ck] hwf hmsg hrest
  have h2 := awDispatch_switch PORTA PORTC oob lnRxMsg aw b1 b2 [ck] hwf hmsg hin
  rw [h1, h2, address_fields]
  have hidx : b1 &&& 0x07 < aw.length := by
    have : b1 &&& 0x07 ≤ 0x07 := Nat.and_le_right
    omega
  refine ⟨?_, ?_⟩
  · intro hd
    rw [if_pos hd]
    by_cases hdir : b2 &&& 0x20 = 0x20
    · rw [if_pos hdir, awGet_awModify _ _ _ (by rw [awModify_length]; exact hidx),
        awGet_awModify _ _ _ hidx]
      refine ⟨by simp [setCAWL, setCAWR, hdir], by simp [setCAWL, setCAWR, hdir], ?_⟩
      intro j hj
      rw [awGet_awModify_ne _ _ _ _ (Ne.symm hj), awGet_awModify_ne _ _ _ _ (Ne.symm hj)]
    · rw [if_neg hdir, awGet_awModify _ _ _ (by rw [awModify_length]; exact hidx),
        awGet_awModify _ _ _ hidx]
      refine ⟨by simp [setCAWL, setCAWR, hdir], by simp [setCAWL, setCAWR, hdir], ?_⟩
      intro j hj
      rw [awGet_awModify_ne _ _ _ _ (Ne.symm hj), awGet_awModify_ne _ _ _ _ (Ne.symm hj)]
  · intro hd
    rw [if_neg hd]

/-- Witness of X1: the request `0xB0 0x11 0x21 0x7F` in a fresh queue, DIP address `0x12`. -/
theorem X1_switch_request_without_wrap_witness :
    (awGet (lnRxMessageHandler 0x02 0x01 zeroMemory (userQueue 16 [0xB0, 0x11, 0x21, 0x7F])
      awIdle).2 (0x11 &&& 0x07)).CAWL = decide (0x21 &&& 0x20 = 0x20) :=
  ((X1_switch_request_without_wrap 0x02 0x01 zeroMemory (userQueue 16 [0xB0, 0x11, 0x21, 0x7F])
    awIdle 0x11 0x21 0x7F (by decide) (by decide) (by decide) (by decide) (by decide)
    (by decide) (by decide)).1 (by decide)).1

end LocoNet
